import Mathlib

/-!
Shallow embedding of the git-vouched reconciliation/audit core
(`convex/vouch.ts` and `convex/entry_reconcile_plan.ts`) in Lean 4,
with theorems settling the specification claims.

Modelling conventions:
* JavaScript `Map` objects are modelled as association lists
  (`List (String × α)`) with JavaScript insertion-order semantics:
  `set` on an existing key updates the value in place, `set` on a new
  key appends, iteration (`keys()` / `values()`) is list order.
* JavaScript numbers holding counters/deltas are modelled as `Int`
  (they stay far below 2^53, so no overflow modelling is needed);
  timestamps, heights and document ids are modelled as `Nat`.
* `String.prototype.localeCompare` on the lowercased handle strings is
  modelled as code-point lexicographic comparison (`stringLe`).
* Convex storage is modelled explicitly later in the file as a record
  of tables with fresh-id allocation.
-/

namespace GitVouched

/-- Trust entry type: `"vouch" | "denounce"`. -/
inductive EntryType where
  | vouch
  | denounce
deriving DecidableEq, Repr


/-- Audit change action: `"added" | "removed" | "changed"`. -/
inductive ChangeAction where
  | added
  | removed
  | changed
deriving DecidableEq, Repr


/-- `ParsedEntry` from `convex/vouch.ts`: output record of the trustdown parser. -/
structure ParsedEntry where
  platform : String
  username : String
  type : EntryType
  details : Option String
deriving DecidableEq, Repr


/-- `NormalizedEntry` from `convex/vouch.ts`: a parsed entry plus its `handle` key. -/
structure NormalizedEntry where
  platform : String
  username : String
  type : EntryType
  details : Option String
  handle : String
deriving DecidableEq, Repr


/-- `AuditChange` from `convex/vouch.ts`: one classified diff record. -/
structure AuditChange where
  platform : String
  username : String
  handle : String
  action : ChangeAction
  beforeType : Option EntryType
  afterType : Option EntryType
  beforeDetails : Option String
  afterDetails : Option String
deriving DecidableEq, Repr


/-- `LeaderboardDelta` from `convex/vouch.ts`: per-handle count deltas. -/
structure LeaderboardDelta where
  platform : String
  username : String
  handle : String
  vouchedDelta : Int
  denouncedDelta : Int
  repositoriesDelta : Int
deriving DecidableEq, Repr


/-! JavaScript `Map` model: association lists with insertion-order semantics. -/

/-- Model of `Map.prototype.get`. -/
def mapGet (m : List (String × α)) (k : String) : Option α :=
  (m.find? (fun p => p.1 == k)).map (·.2)


/-- Model of `Map.prototype.set`: update in place if the key exists, else append. -/
def mapSet (m : List (String × α)) (k : String) (v : α) : List (String × α) :=
  if m.any (fun p => p.1 == k) then
    m.map (fun p => if p.1 == k then (k, v) else p)
  else
    m ++ [(k, v)]


/-- Model of `Map.prototype.delete`. -/
def mapDelete (m : List (String × α)) (k : String) : List (String × α) :=
  m.filter (fun p => p.1 != k)


/-- Model of `Map.prototype.keys()` as a list in iteration order. -/
def mapKeys (m : List (String × α)) : List String :=
  m.map (·.1)


/-- Model of `Map.prototype.values()` as a list in iteration order. -/
def mapValues (m : List (String × α)) : List α :=
  m.map (·.2)


/-- Model of the `Map` built by iterating `set` over a list of entries keyed by `key`. -/
def mapOfList (key : α → String) (l : List α) : List (String × α) :=
  l.foldl (fun m e => mapSet m (key e) e) []


/-- Model of `Array.from(new Set(xs))`: deduplicate keeping the first occurrence. -/
def jsDedup : List String → List String
  | [] => []
  | x :: xs => x :: (jsDedup xs).filter (fun y => y != x)


/-- Lexicographic strict comparison of character lists by code point. -/
def strLtChars : List Char → List Char → Bool
  | [], [] => false
  | [], _ :: _ => true
  | _ :: _, [] => false
  | a :: as, b :: bs =>
    if a.toNat < b.toNat then true
    else if b.toNat < a.toNat then false
    else strLtChars as bs


/-- Code-point comparison modelling `a.localeCompare(b) <= 0` on lowercased keys. -/
def stringLe (a b : String) : Bool :=
  !(strLtChars b.data a.data)


/-- Insert into a sorted list (one step of the insertion sort modelling
`Array.prototype.sort` with a comparator). -/
def insertSorted (le : α → α → Bool) (x : α) : List α → List α
  | [] => [x]
  | y :: ys => if le x y then x :: y :: ys else y :: insertSorted le x ys


/-- Stable comparator sort modelling `Array.prototype.sort`. -/
def jsSort (le : α → α → Bool) (l : List α) : List α :=
  l.foldr (insertSorted le) []


/-- Lowercase an ASCII letter, modelling `toLowerCase` on the ASCII range. -/
def charToLower (c : Char) : Char :=
  if 65 ≤ c.toNat ∧ c.toNat ≤ 90 then Char.ofNat (c.toNat + 32) else c


/-- Model of `String.prototype.toLowerCase` (ASCII range). -/
def jsToLower (s : String) : String :=
  String.mk (s.data.map charToLower)


/-- Model of `s.startsWith(c)` for a one-character prefix. -/
def jsStartsWithChar (s : String) (c : Char) : Bool :=
  match s.data with
  | [] => false
  | x :: _ => x = c


/-- Model of `s.slice(1)`. -/
def dropFirstChar (s : String) : String :=
  String.mk (s.data.drop 1)


/-- Loop body of `computeAuditChanges`: classify one handle of the union by
looking it up in the two maps; `none` means no change record is pushed. -/
def classifyHandle (previousMap nextMap : List (String × NormalizedEntry))
    (handle : String) : Option AuditChange :=
  match mapGet previousMap handle, mapGet nextMap handle with
  | none, some after =>
    some { platform := after.platform, username := after.username, handle := after.handle
           action := .added, beforeType := none, afterType := some after.type
           beforeDetails := none, afterDetails := after.details }
  | some before, none =>
    some { platform := before.platform, username := before.username, handle := before.handle
           action := .removed, beforeType := some before.type, afterType := none
           beforeDetails := before.details, afterDetails := none }
  | some before, some after =>
    if before.type != after.type || before.details != after.details then
      some { platform := after.platform, username := after.username, handle := after.handle
             action := .changed, beforeType := some before.type, afterType := some after.type
             beforeDetails := before.details, afterDetails := after.details }
    else
      none
  | none, none => none


/-- `computeAuditChanges` from `convex/vouch.ts`: classify each handle in the
sorted deduplicated union of the two entry sets as added / removed / changed
(`sortedUnionKeys`, defined below with its lemmas, models
`Array.from(new Set([...previousMap.keys(), ...nextMap.keys()])).sort(localeCompare)`). -/
def computeAuditChanges (previous next : List NormalizedEntry) : List AuditChange :=
  let previousMap := mapOfList (·.handle) previous
  let nextMap := mapOfList (·.handle) next
  let handles := jsSort stringLe (jsDedup (mapKeys previousMap ++ mapKeys nextMap))
  handles.filterMap (classifyHandle previousMap nextMap)


/-- Body of the `added` branch of the delta loop in `computeLeaderboardDeltas`. -/
def applyAddedDelta (current : LeaderboardDelta) (afterType : Option EntryType) :
    LeaderboardDelta :=
  let c :=
    match afterType with
    | some .vouch => { current with vouchedDelta := current.vouchedDelta + 1 }
    | some .denounce => { current with denouncedDelta := current.denouncedDelta + 1 }
    | none => current
  { c with repositoriesDelta := c.repositoriesDelta + 1 }


/-- Body of the `removed` branch of the delta loop in `computeLeaderboardDeltas`. -/
def applyRemovedDelta (current : LeaderboardDelta) (beforeType : Option EntryType) :
    LeaderboardDelta :=
  let c :=
    match beforeType with
    | some .vouch => { current with vouchedDelta := current.vouchedDelta - 1 }
    | some .denounce => { current with denouncedDelta := current.denouncedDelta - 1 }
    | none => current
  { c with repositoriesDelta := c.repositoriesDelta - 1 }


/-- Body of the `changed` branch of the delta loop in `computeLeaderboardDeltas`. -/
def applyChangedDelta (current : LeaderboardDelta) (beforeType afterType : Option EntryType) :
    LeaderboardDelta :=
  let c :=
    match beforeType with
    | some .vouch => { current with vouchedDelta := current.vouchedDelta - 1 }
    | some .denounce => { current with denouncedDelta := current.denouncedDelta - 1 }
    | none => current
  match afterType with
  | some .vouch => { c with vouchedDelta := c.vouchedDelta + 1 }
  | some .denounce => { c with denouncedDelta := c.denouncedDelta + 1 }
  | none => c


/-- One iteration of the `for (const change of changes)` loop in
`computeLeaderboardDeltas`. -/
def applyChangeDelta (current : LeaderboardDelta) (change : AuditChange) :
    LeaderboardDelta :=
  if change.action = .added then
    applyAddedDelta current change.afterType
  else if change.action = .removed then
    applyRemovedDelta current change.beforeType
  else
    applyChangedDelta current change.beforeType change.afterType


/-- Zero-valued delta seeded from a change, the `??` default in the loop. -/
def zeroDelta (change : AuditChange) : LeaderboardDelta :=
  { platform := change.platform, username := change.username, handle := change.handle
    vouchedDelta := 0, denouncedDelta := 0, repositoriesDelta := 0 }


/-- One iteration of the accumulation loop of `computeLeaderboardDeltas`:
read the running delta for the handle (or a zero default), update it with the
change, store it back. -/
def deltaStep (m : List (String × LeaderboardDelta)) (change : AuditChange) :
    List (String × LeaderboardDelta) :=
  let current := (mapGet m change.handle).getD (zeroDelta change)
  mapSet m change.handle (applyChangeDelta current change)


/-- `computeLeaderboardDeltas` from `convex/vouch.ts`: sum per-handle deltas over
the changes, then keep only the nonzero ones. -/
def computeLeaderboardDeltas (changes : List AuditChange) : List LeaderboardDelta :=
  (mapValues (changes.foldl deltaStep [])).filter
    (fun delta =>
      delta.vouchedDelta != 0 || delta.denouncedDelta != 0 || delta.repositoriesDelta != 0)


/-! Entry reconciliation planner (`convex/entry_reconcile_plan.ts`). -/

/-- `TrustEntry` from `convex/entry_reconcile_plan.ts`. -/
structure TrustEntry where
  platform : String
  username : String
  handle : String
  type : EntryType
  details : Option String
deriving DecidableEq, Repr


/-- `ExistingTrustEntry` from `convex/entry_reconcile_plan.ts`; document ids are
modelled as `Nat`, the Convex id rendered via `String(...)` as its decimal string. -/
structure ExistingTrustEntry where
  id : Nat
  snapshotId : String
  repoSlug : Option String
  platform : String
  username : String
  handle : String
  type : EntryType
  details : Option String
deriving DecidableEq, Repr


/-- `TrustEntryPatch` from `convex/entry_reconcile_plan.ts`. -/
structure TrustEntryPatch where
  platform : String
  username : String
  handle : String
  type : EntryType
  details : Option String
  snapshotId : String
  repoSlug : String
deriving DecidableEq, Repr


/-- `EntryReconciliationPlan` from `convex/entry_reconcile_plan.ts`. -/
structure EntryReconciliationPlan where
  duplicateDeleteIds : List Nat
  deleteIds : List Nat
  patches : List (Nat × TrustEntryPatch)
  inserts : List TrustEntry
deriving DecidableEq, Repr


/-- First `for` loop of `planEntryReconciliation`: keep the first-seen existing
entry per handle, collect ids of later duplicates. -/
def dedupeLoop (m : List (String × ExistingTrustEntry)) (dups : List Nat) :
    List ExistingTrustEntry → List (String × ExistingTrustEntry) × List Nat
  | [] => (m, dups)
  | existing :: rest =>
    match mapGet m existing.handle with
    | none => dedupeLoop (mapSet m existing.handle existing) dups rest
    | some _ => dedupeLoop m (dups ++ [existing.id]) rest


/-- The `needsPatch` condition of `planEntryReconciliation` (details are already
normalized: `details ?? undefined` is the identity on `Option String`). -/
def needsPatch (existing : ExistingTrustEntry) (next : TrustEntry)
    (expectedRepoSlug expectedSnapshotId : String) : Bool :=
  existing.platform != next.platform ||
  existing.username != next.username ||
  existing.handle != next.handle ||
  existing.type != next.type ||
  existing.details != next.details ||
  existing.snapshotId != expectedSnapshotId ||
  existing.repoSlug != some expectedRepoSlug


/-- The patch record pushed by `planEntryReconciliation` for a surviving entry. -/
def mkPatch (next : TrustEntry) (expectedRepoSlug expectedSnapshotId : String) :
    TrustEntryPatch :=
  { platform := next.platform, username := next.username, handle := next.handle
    type := next.type, details := next.details
    snapshotId := expectedSnapshotId, repoSlug := expectedRepoSlug }


/-- Second `for` loop of `planEntryReconciliation`: iterate the deduplicated
existing entries against the map of next entries. -/
def reconcileLoop (expectedRepoSlug expectedSnapshotId : String)
    (deleteIds : List Nat) (patches : List (Nat × TrustEntryPatch))
    (nextByHandle : List (String × TrustEntry)) :
    List ExistingTrustEntry →
      List Nat × List (Nat × TrustEntryPatch) × List (String × TrustEntry)
  | [] => (deleteIds, patches, nextByHandle)
  | existing :: rest =>
    match mapGet nextByHandle existing.handle with
    | none =>
      reconcileLoop expectedRepoSlug expectedSnapshotId (deleteIds ++ [existing.id])
        patches nextByHandle rest
    | some next =>
      let patches :=
        if needsPatch existing next expectedRepoSlug expectedSnapshotId then
          patches ++ [(existing.id, mkPatch next expectedRepoSlug expectedSnapshotId)]
        else patches
      reconcileLoop expectedRepoSlug expectedSnapshotId deleteIds patches
        (mapDelete nextByHandle existing.handle) rest


/-- `planEntryReconciliation` from `convex/entry_reconcile_plan.ts`. -/
def planEntryReconciliation (existingEntries : List ExistingTrustEntry)
    (nextEntries : List TrustEntry) (expectedRepoSlug expectedSnapshotId : String) :
    EntryReconciliationPlan :=
  let deduped := dedupeLoop [] [] existingEntries
  let nextByHandle := mapOfList (·.handle) nextEntries
  let step := reconcileLoop expectedRepoSlug expectedSnapshotId [] [] nextByHandle
    (mapValues deduped.1)
  { duplicateDeleteIds := deduped.2
    deleteIds := step.1
    patches := step.2.1
    inserts := mapValues step.2.2 }


/-- Stored-entry content after applying a reconciliation plan: the fields of an
`entries` row that the plan's application writes (see the delete/patch/insert
loops in `replaceRepositorySnapshot`). -/
structure StoredEntryRow where
  platform : String
  username : String
  handle : String
  type : EntryType
  details : Option String
  snapshotId : String
  repoSlug : Option String
deriving DecidableEq, Repr


/-- Row content of an existing entry left untouched by the plan. -/
def keepRow (e : ExistingTrustEntry) : StoredEntryRow :=
  { platform := e.platform, username := e.username, handle := e.handle, type := e.type
    details := e.details, snapshotId := e.snapshotId, repoSlug := e.repoSlug }


/-- Row content written by a patch from the plan. -/
def patchRowContent (p : TrustEntryPatch) : StoredEntryRow :=
  { platform := p.platform, username := p.username, handle := p.handle, type := p.type
    details := p.details, snapshotId := p.snapshotId, repoSlug := some p.repoSlug }


/-- Row content written by an insert from the plan (the insert loop in
`replaceRepositorySnapshot` adds the target snapshot id and repo slug). -/
def insertRowContent (n : TrustEntry) (expectedRepoSlug expectedSnapshotId : String) :
    StoredEntryRow :=
  { platform := n.platform, username := n.username, handle := n.handle, type := n.type
    details := n.details, snapshotId := expectedSnapshotId, repoSlug := some expectedRepoSlug }


/-- Application of a reconciliation plan to the existing entries, mirroring the
four write loops of `replaceRepositorySnapshot`: delete every id in
`duplicateDeleteIds` and `deleteIds`, apply every patch, then append every
insert with the target snapshot id and repo slug. -/
def applyPlan (existingEntries : List ExistingTrustEntry) (plan : EntryReconciliationPlan)
    (expectedRepoSlug expectedSnapshotId : String) : List StoredEntryRow :=
  let afterDeletes := existingEntries.filter
    (fun e => !(plan.duplicateDeleteIds.contains e.id) && !(plan.deleteIds.contains e.id))
  let afterPatches := afterDeletes.map
    (fun e =>
      match plan.patches.find? (fun p => p.1 == e.id) with
      | some p => patchRowContent p.2
      | none => keepRow e)
  afterPatches ++ plan.inserts.map
    (fun n => insertRowContent n expectedRepoSlug expectedSnapshotId)


/-- The sorted deduplicated key union iterated by `computeAuditChanges`. -/
def sortedUnionKeys (a b : List String) : List String :=
  jsSort stringLe (jsDedup (a ++ b))


/-! Claim C9: diff antisymmetry of `computeAuditChanges`. -/

/-- Projection of an audit change to the data the diff-symmetry property talks
about: handle, action, and the before/after type and details. -/
structure ChangeView where
  handle : String
  action : ChangeAction
  beforeType : Option EntryType
  afterType : Option EntryType
  beforeDetails : Option String
  afterDetails : Option String
deriving DecidableEq, Repr


/-- View of an audit change. -/
def changeView (c : AuditChange) : ChangeView :=
  { handle := c.handle, action := c.action, beforeType := c.beforeType
    afterType := c.afterType, beforeDetails := c.beforeDetails
    afterDetails := c.afterDetails }


/-- Swap added and removed, keep changed. -/
def swapAction : ChangeAction → ChangeAction
  | .added => .removed
  | .removed => .added
  | .changed => .changed


/-- Swap the direction of a change view: added and removed exchange roles and
the before/after fields are exchanged. -/
def swapView (v : ChangeView) : ChangeView :=
  { handle := v.handle, action := swapAction v.action, beforeType := v.afterType
    afterType := v.beforeType, beforeDetails := v.afterDetails
    afterDetails := v.beforeDetails }


/-! Claims C5 and C10: characterization of `computeLeaderboardDeltas` as
per-handle summed contributions, following the delta rule stated in the spec. -/

/-- Indicator of a vouch type. -/
def typeVouchVec : Option EntryType → Int
  | some .vouch => 1
  | _ => 0


/-- Indicator of a denounce type. -/
def typeDenounceVec : Option EntryType → Int
  | some .denounce => 1
  | _ => 0


/-- Contribution of one audit change to the vouched count, per the spec rule:
added contributes +1 when the after type matches, removed contributes -1 when
the before type matches, changed contributes -1 for the before type and +1 for
the after type. -/
def contributionVouched (c : AuditChange) : Int :=
  match c.action with
  | .added => typeVouchVec c.afterType
  | .removed => - typeVouchVec c.beforeType
  | .changed => typeVouchVec c.afterType - typeVouchVec c.beforeType


/-- Contribution of one audit change to the denounced count. -/
def contributionDenounced (c : AuditChange) : Int :=
  match c.action with
  | .added => typeDenounceVec c.afterType
  | .removed => - typeDenounceVec c.beforeType
  | .changed => typeDenounceVec c.afterType - typeDenounceVec c.beforeType


/-- Contribution of one audit change to the repository count: +1 for added,
-1 for removed, 0 for changed. -/
def contributionRepositories (c : AuditChange) : Int :=
  match c.action with
  | .added => 1
  | .removed => -1
  | .changed => 0


/-- Sum of a per-change contribution over the changes carrying a handle. -/
def summedBy (f : AuditChange → Int) (cs : List AuditChange) (h : String) : Int :=
  ((cs.filter (fun c => c.handle == h)).map f).sum


/-- First change carrying a handle (used only when the handle occurs). -/
def firstChangeFor (cs : List AuditChange) (h : String) : AuditChange :=
  (cs.find? (fun c => c.handle == h)).getD
    { platform := "", username := "", handle := h, action := .added
      beforeType := none, afterType := none, beforeDetails := none, afterDetails := none }


/-- Summed per-handle delta record. -/
def recFor (cs : List AuditChange) (h : String) : LeaderboardDelta :=
  { platform := (firstChangeFor cs h).platform
    username := (firstChangeFor cs h).username
    handle := h
    vouchedDelta := summedBy contributionVouched cs h
    denouncedDelta := summedBy contributionDenounced cs h
    repositoriesDelta := summedBy contributionRepositories cs h }


/-- Reference form of the leaderboard delta aggregation, following the spec:
sum the per-change contributions per handle (first occurrence order of the
handles), drop all-zero summed deltas. -/
def leaderboardDeltasSpec (cs : List AuditChange) : List LeaderboardDelta :=
  (jsDedup (cs.map (·.handle))).filterMap (fun h =>
    let d := recFor cs h
    if d.vouchedDelta = 0 ∧ d.denouncedDelta = 0 ∧ d.repositoriesDelta = 0 then none
    else some d)


/-! Claim C1: the reconciliation planner converges storage to the next entry
set. First, closed forms of the two planner loops. -/

/-- Keep the first-seen entry per handle (handles in `seen` are dropped). -/
def keepFirst (seen : List String) : List ExistingTrustEntry → List ExistingTrustEntry
  | [] => []
  | e :: rest =>
    if e.handle ∈ seen then keepFirst seen rest
    else e :: keepFirst (e.handle :: seen) rest


/-- Ids of later duplicates (entries whose handle was already seen). -/
def dupIdsFrom (seen : List String) : List ExistingTrustEntry → List Nat
  | [] => []
  | e :: rest =>
    if e.handle ∈ seen then e.id :: dupIdsFrom seen rest
    else dupIdsFrom (e.handle :: seen) rest


/-- Delete ids produced by the planner's second loop: surviving existing
entries whose handle is absent from the next map. -/
def planDeleteIds (nm : List (String × TrustEntry)) (deduped : List ExistingTrustEntry) :
    List Nat :=
  (deduped.filter (fun e => (mapGet nm e.handle).isNone)).map (·.id)


/-- Patches produced by the planner's second loop. -/
def planPatches (expectedRepoSlug expectedSnapshotId : String)
    (nm : List (String × TrustEntry)) (deduped : List ExistingTrustEntry) :
    List (Nat × TrustEntryPatch) :=
  deduped.filterMap (fun e =>
    match mapGet nm e.handle with
    | none => none
    | some next =>
      if needsPatch e next expectedRepoSlug expectedSnapshotId then
        some (e.id, mkPatch next expectedRepoSlug expectedSnapshotId)
      else none)


/-- Next-map pairs remaining after the planner's second loop deleted every
surviving handle. -/
def remainingNext (nm : List (String × TrustEntry)) (deduped : List ExistingTrustEntry) :
    List (String × TrustEntry) :=
  nm.filter (fun p => !(deduped.map (·.handle)).contains p.1)


/-! Trustdown parser (`parseTrustdown` in `convex/vouch.ts`).

String primitives model the JavaScript ones: `jsWs` models the `\s` class and
`String.prototype.trim`; `String.toLower` models `toLowerCase` (the trust
lists in scope are ASCII); `splitLinesChars` models `split(/\r?\n/)`;
`matchEntryLine` models `remainder.match(/^(\S+)(?:\s+(.+))?$/)` — in
particular `.` does not match a line-terminator character, so a details part
containing a bare carriage return fails the match; `jsSplitLimit2` models
`String.prototype.split(sep, 2)`, which truncates after two segments. -/

/-- JavaScript whitespace (the regex class and `trim`), by code point. -/
def jsWs (c : Char) : Bool :=
  c = ' ' || c = '\t' || c = '\n' || c = '\r' || c = '\x0b' || c = '\x0c' ||
  c.toNat = 0xa0 || c.toNat = 0x1680 || (0x2000 <= c.toNat && c.toNat <= 0x200a) ||
  c.toNat = 0x2028 || c.toNat = 0x2029 || c.toNat = 0x202f || c.toNat = 0x205f ||
  c.toNat = 0x3000 || c.toNat = 0xfeff


/-- JavaScript line terminators (not matched by `.`), by code point. -/
def isLineTerminator (c : Char) : Bool :=
  c = '\n' || c = '\r' || c.toNat = 0x2028 || c.toNat = 0x2029


/-- Model of `String.prototype.trim`. -/
def jsTrim (s : String) : String :=
  String.mk (((s.data.dropWhile (fun c => jsWs c)).reverse.dropWhile
    (fun c => jsWs c)).reverse)


/-- Model of `input.split(/\r?\n/)` on the character list. -/
def splitLinesChars : List Char → List (List Char)
  | [] => [[]]
  | '\r' :: '\n' :: rest => [] :: splitLinesChars rest
  | '\n' :: rest => [] :: splitLinesChars rest
  | c :: rest =>
    match splitLinesChars rest with
    | [] => [[c]]
    | l :: ls => (c :: l) :: ls


/-- Lines of the input. -/
def splitLines (s : String) : List String :=
  (splitLinesChars s.data).map String.mk


/-- Model of `remainder.match(/^(\S+)(?:\s+(.+))?$/)`: the leading `\S+` token
and the optional details group. The match fails when the details part would
have to cover a line terminator (`.` does not match those), or when only
whitespace follows the token. -/
def matchEntryLine (remainder : List Char) : Option (List Char × Option (List Char)) :=
  let token := remainder.takeWhile (fun c => !jsWs c)
  let rest := remainder.dropWhile (fun c => !jsWs c)
  if token = [] then none
  else if rest = [] then some (token, none)
  else
    let det := rest.dropWhile (fun c => jsWs c)
    if det = [] then none
    else if det.any (fun c => isLineTerminator c) then none
    else some (token, some det)


/-- Model of `s.split(sep, 2)`: at most the first two separator-delimited
segments; anything after a second separator is discarded. -/
def jsSplitLimit2 (s : String) (sep : Char) : List String :=
  match s.data.findIdx? (fun c => c = sep) with
  | none => [s]
  | some i =>
    [String.mk (s.data.take i),
     String.mk ((s.data.drop (i + 1)).takeWhile (fun c => c ≠ sep))]


/-- Strip one leading `@` (`replace(/^@/, "")`). -/
def stripLeadingAt (s : String) : String :=
  if jsStartsWithChar s '@' then dropFirstChar s else s


/-- Loop body of `parseTrustdown` for one trimmed non-comment line: the parsed
record and its `platform:username` key, or `none` when the line is skipped. -/
def parseLine (line : String) : Option (String × ParsedEntry) :=
  let isDenounce := jsStartsWithChar line '-'
  let remainder := if isDenounce then jsTrim (dropFirstChar line) else line
  if remainder = "" then none
  else
    match matchEntryLine remainder.data with
    | none => none
    | some (tokenChars, detailsChars) =>
      let handlePart := String.mk tokenChars
      let details := detailsChars.map (fun d => jsTrim (String.mk d))
      let split := jsSplitLimit2 handlePart ':'
      let hasPlatform := split.length = 2
      let platform := jsToLower (jsTrim (if hasPlatform then split.getD 0 "" else "github"))
      let usernameRaw := stripLeadingAt (jsTrim (if hasPlatform then split.getD 1 ""
        else split.getD 0 ""))
      let username := jsToLower usernameRaw
      if platform = "" ∨ username = "" then none
      else
        some (platform ++ ":" ++ username,
          { platform := platform, username := username
            type := if isDenounce then .denounce else .vouch
            details := details.bind (fun d => if d = "" then none else some d) })


/-- `parseTrustdown` from `convex/vouch.ts`: parse each line into a keyed
record (last occurrence of a key wins), then sort by handle. -/
def parseTrustdown (input : String) : List ParsedEntry :=
  let records := (splitLines input).foldl
    (fun m rawLine =>
      let line := jsTrim rawLine
      if line = "" || jsStartsWithChar line '#' then m
      else
        match parseLine line with
        | none => m
        | some (key, entry) => mapSet m key entry)
    []
  jsSort
    (fun a b => stringLe (a.platform ++ ":" ++ a.username) (b.platform ++ ":" ++ b.username))
    (mapValues records)


/-! Claim C4: the parser against the specification's reference algorithm. -/

/-- Split at the first colon, keeping the whole remainder as the second part
(the specification's words: "the handle splits on the first `:` into
lowercased platform and username"). -/
def specSplitFirstColon (s : String) : Option (String × String) :=
  match s.data.findIdx? (fun c => c = ':') with
  | none => none
  | some i => some (String.mk (s.data.take i), String.mk (s.data.drop (i + 1)))


/-- Reference line parser following the specification text literally: first
whitespace-delimited token, optional trailing details, handle split on the
first colon (platform defaults to github), leading `@` stripped and username
lowercased; lines with no extractable handle are skipped. -/
def specParseLine (line : String) : Option (String × ParsedEntry) :=
  let isDenounce := jsStartsWithChar line '-'
  let remainder := if isDenounce then jsTrim (dropFirstChar line) else line
  if remainder = "" then none
  else
    let token := String.mk (remainder.data.takeWhile (fun c => !jsWs c))
    let restChars := (remainder.data.dropWhile (fun c => !jsWs c)).dropWhile
      (fun c => jsWs c)
    let details := if restChars.isEmpty then none else some (jsTrim (String.mk restChars))
    let pu :=
      match specSplitFirstColon token with
      | some (p, u) => (jsToLower p, u)
      | none => ("github", token)
    let username := jsToLower (stripLeadingAt pu.2)
    if pu.1 = "" ∨ username = "" then none
    else
      some (pu.1 ++ ":" ++ username,
        { platform := pu.1, username := username
          type := if isDenounce then .denounce else .vouch
          details := details.bind (fun d => if d = "" then none else some d) })


/-- Keyed records of the non-comment lines, for a given line parser. -/
def specLineRecords (parse : String → Option (String × ParsedEntry)) (input : String) :
    List (String × ParsedEntry) :=
  (splitLines input).filterMap (fun rawLine =>
    let line := jsTrim rawLine
    if line = "" || jsStartsWithChar line '#' then none
    else parse line)


/-- Aggregate keyed records per the specification: the last occurrence of a
key wins, output ordered by the key string sorted lexicographically. -/
def specAggregate (rs : List (String × ParsedEntry)) : List ParsedEntry :=
  jsSort
    (fun a b => stringLe (a.platform ++ ":" ++ a.username) (b.platform ++ ":" ++ b.username))
    ((jsDedup (rs.map (·.1))).filterMap
      (fun k => (rs.reverse.find? (fun p => p.1 == k)).map (·.2)))


/-- The claim's reference algorithm for the whole file. -/
def specParseTrustdown (input : String) : List ParsedEntry :=
  specAggregate (specLineRecords specParseLine input)


/-- The amended reference algorithm: identical except that each line is parsed
exactly as the code's line parser does (split-limit-2 colon handling and the
line pattern that fails on a line terminator inside the details). -/
def specParseTrustdownAmended (input : String) : List ParsedEntry :=
  specAggregate (specLineRecords parseLine input)


/-- Value of the last record with a key. -/
def lastValueFor (rs : List (String × α)) (d : α) (k : String) : α :=
  ((rs.reverse.find? (fun p => p.1 == k)).map (·.2)).getD d


/-! SHA-256 over byte lists (`crypto.subtle.digest("SHA-256", ...)`), modelled on
`Nat` with explicit `% 2^32` wrapping. -/

/-- Truncate to a 32-bit word. -/
def w32 (x : Nat) : Nat := x % 4294967296


/-- 32-bit rotate right. -/
def rotr32 (n x : Nat) : Nat := w32 (x / 2 ^ n + x % 2 ^ n * 2 ^ (32 - n))


/-- Logical shift right. -/
def shr32 (n x : Nat) : Nat := x / 2 ^ n


/-- Three-way xor. -/
def xor3 (a b c : Nat) : Nat := Nat.xor (Nat.xor a b) c


/-- SHA-256 big sigma 0. -/
def bsig0 (x : Nat) : Nat := xor3 (rotr32 2 x) (rotr32 13 x) (rotr32 22 x)


/-- SHA-256 big sigma 1. -/
def bsig1 (x : Nat) : Nat := xor3 (rotr32 6 x) (rotr32 11 x) (rotr32 25 x)


/-- SHA-256 small sigma 0. -/
def ssig0 (x : Nat) : Nat := xor3 (rotr32 7 x) (rotr32 18 x) (shr32 3 x)


/-- SHA-256 small sigma 1. -/
def ssig1 (x : Nat) : Nat := xor3 (rotr32 17 x) (rotr32 19 x) (shr32 10 x)


/-- SHA-256 choose function (not-x is xor with the all-ones word). -/
def chF (x y z : Nat) : Nat := Nat.xor (Nat.land x y) (Nat.land (Nat.xor x 4294967295) z)


/-- SHA-256 majority function. -/
def majF (x y z : Nat) : Nat := xor3 (Nat.land x y) (Nat.land x z) (Nat.land y z)


/-- SHA-256 round constants. -/
def shaK : List Nat :=
  [1116352408, 1899447441, 3049323471, 3921009573, 961987163,
   1508970993, 2453635748, 2870763221, 3624381080, 310598401,
   607225278, 1426881987, 1925078388, 2162078206, 2614888103,
   3248222580, 3835390401, 4022224774, 264347078, 604807628,
   770255983, 1249150122, 1555081692, 1996064986, 2554220882,
   2821834349, 2952996808, 3210313671, 3336571891, 3584528711,
   113926993, 338241895, 666307205, 773529912, 1294757372,
   1396182291, 1695183700, 1986661051, 2177026350, 2456956037,
   2730485921, 2820302411, 3259730800, 3345764771, 3516065817,
   3600352804, 4094571909, 275423344, 430227734, 506948616,
   659060556, 883997877, 958139571, 1322822218, 1537002063,
   1747873779, 1955562222, 2024104815, 2227730452, 2361852424,
   2428436474, 2756734187, 3204031479, 3329325298]


/-- SHA-256 initial hash state. -/
def shaH0 : List Nat :=
  [1779033703, 3144134277, 1013904242, 2773480762,
   1359893119, 2600822924, 528734635, 1541459225]


/-- Big-endian 64-bit length encoding. -/
def be64Bytes (n : Nat) : List Nat :=
  [n / 2 ^ 56 % 256, n / 2 ^ 48 % 256, n / 2 ^ 40 % 256, n / 2 ^ 32 % 256,
   n / 2 ^ 24 % 256, n / 2 ^ 16 % 256, n / 2 ^ 8 % 256, n % 256]


/-- SHA-256 padding: append `0x80`, zero-fill to 56 mod 64, append the bit length. -/
def padBytes (msg : List Nat) : List Nat :=
  let len := msg.length
  msg ++ [128] ++ List.replicate ((119 - len % 64) % 64) 0 ++ be64Bytes (len * 8)


/-- Combine bytes into big-endian 32-bit words. -/
def toWords : List Nat → List Nat
  | b0 :: b1 :: b2 :: b3 :: rest => (((b0 * 256 + b1) * 256 + b2) * 256 + b3) :: toWords rest
  | _ => []


/-- Split into 64-byte chunks (fuel-driven so that it is structural). -/
def chunksAux : Nat → List Nat → List (List Nat)
  | 0, _ => []
  | _, [] => []
  | fuel + 1, x :: xs => ((x :: xs).take 64) :: chunksAux fuel ((x :: xs).drop 64)


/-- Split a byte list into 64-byte chunks. -/
def chunks64 (l : List Nat) : List (List Nat) := chunksAux l.length l


/-- Extend the message schedule by one word. -/
def scheduleStep (w : List Nat) : List Nat :=
  w ++ [w32 (ssig1 (w.getD (w.length - 2) 0) + w.getD (w.length - 7) 0 +
    ssig0 (w.getD (w.length - 15) 0) + w.getD (w.length - 16) 0)]


/-- The 64-word message schedule of a block. -/
def fullSchedule (block : List Nat) : List Nat :=
  (List.range 48).foldl (fun w _ => scheduleStep w) block


/-- One SHA-256 compression round on the 8-word working state. -/
def roundFn (st : List Nat) (kw : Nat) : List Nat :=
  match st with
  | [a, b, c, d, e, f, g, h] =>
    let t1 := w32 (h + bsig1 e + chF e f g + kw)
    let t2 := w32 (bsig0 a + majF a b c)
    [w32 (t1 + t2), a, b, c, w32 (d + t1), e, f, g]
  | other => other


/-- Compress one 64-byte block into the hash state. -/
def compressBlock (hs : List Nat) (block : List Nat) : List Nat :=
  let w := fullSchedule (toWords block)
  let kws := (shaK.zip w).map (fun p => w32 (p.1 + p.2))
  let st := kws.foldl roundFn hs
  (hs.zip st).map (fun p => w32 (p.1 + p.2))


/-- SHA-256 digest of a byte list, as eight 32-bit words. -/
def sha256Words (msg : List Nat) : List Nat :=
  (chunks64 (padBytes msg)).foldl compressBlock shaH0


/-- UTF-8 encoding of one character (`TextEncoder`). -/
def encodeUtf8Char (c : Char) : List Nat :=
  let n := c.toNat
  if n < 128 then [n]
  else if n < 2048 then [192 + n / 64, 128 + n % 64]
  else if n < 65536 then [224 + n / 4096, 128 + n / 64 % 64, 128 + n % 64]
  else [240 + n / 262144, 128 + n / 4096 % 64, 128 + n / 64 % 64, 128 + n % 64]


/-- UTF-8 encoding of a string (`new TextEncoder().encode(...)`). -/
def utf8Bytes (s : String) : List Nat := s.data.flatMap encodeUtf8Char


/-- Lowercase hex digit. -/
def hexDigit (n : Nat) : Char := if n < 10 then Char.ofNat (48 + n) else Char.ofNat (87 + n)


/-- Big-endian bytes of a 32-bit word. -/
def wordBytes (w : Nat) : List Nat := [w / 2 ^ 24 % 256, w / 2 ^ 16 % 256, w / 2 ^ 8 % 256, w % 256]


/-- Two lowercase hex digits of a byte (`byte.toString(16).padStart(2, "0")`). -/
def byteToHex (b : Nat) : List Char := [hexDigit (b / 16), hexDigit (b % 16)]


/-- `sha256Hex` from `convex/vouch.ts`: SHA-256 of the UTF-8 input, lowercase hex. -/
def sha256Hex (input : String) : String :=
  String.mk (((sha256Words (utf8Bytes input)).flatMap wordBytes).flatMap byteToHex)


/-! `JSON.stringify` for the audit-block object. -/

/-- Four hex digits of a code unit (uppercase digits are not used by V8 for
control characters, which print as `\u00XX` with lowercase hex). -/
def hexDigit4 (n : Nat) : List Char :=
  [hexDigit (n / 4096 % 16), hexDigit (n / 256 % 16), hexDigit (n / 16 % 16), hexDigit (n % 16)]


/-- `JSON.stringify` escaping of one string character. -/
def jsonEscapeChar (c : Char) : List Char :=
  if c = '"' then ['\\', '"']
  else if c = '\\' then ['\\', '\\']
  else if c.toNat = 8 then ['\\', 'b']
  else if c.toNat = 9 then ['\\', 't']
  else if c.toNat = 10 then ['\\', 'n']
  else if c.toNat = 12 then ['\\', 'f']
  else if c.toNat = 13 then ['\\', 'r']
  else if c.toNat < 32 then '\\' :: 'u' :: hexDigit4 c.toNat
  else [c]


/-- `JSON.stringify` of a string value. -/
def jsonString (s : String) : String :=
  String.mk ('"' :: s.data.flatMap jsonEscapeChar ++ ['"'])


/-- `JSON.stringify` of a `string | null` value (`x ?? null` normalization). -/
def jsonStrOrNull : Option String → String
  | none => "null"
  | some s => jsonString s


/-- The string form of an entry type. -/
def typeToString : EntryType → String
  | .vouch => "vouch"
  | .denounce => "denounce"


/-- The string form of a change action. -/
def actionToString : ChangeAction → String
  | .added => "added"
  | .removed => "removed"
  | .changed => "changed"


/-- Serialization of one change record inside the audit block (`JSON.stringify`
with the object-literal key order; absent fields normalized to `null`). -/
def serializeChange (c : AuditChange) : String :=
  "\x7b\"handle\":" ++ jsonString c.handle ++
  ",\"action\":" ++ jsonString (actionToString c.action) ++
  ",\"beforeType\":" ++ jsonStrOrNull (c.beforeType.map typeToString) ++
  ",\"afterType\":" ++ jsonStrOrNull (c.afterType.map typeToString) ++
  ",\"beforeDetails\":" ++ jsonStrOrNull c.beforeDetails ++
  ",\"afterDetails\":" ++ jsonStrOrNull c.afterDetails ++ "\x7d"


/-- `JSON.stringify` of the audit-block object built in `replaceRepositorySnapshot`,
with the object-literal key order. -/
def serializeBlock (slug : String) (height : Nat) (previousHash : Option String)
    (snapshotIdStr : String) (indexedAt : Nat) (filePath commitSha : String)
    (commitUrl sourceUrl commitActor commitTimestamp : Option String)
    (changes : List AuditChange) : String :=
  "\x7b\"repo\":" ++ jsonString slug ++
  ",\"height\":" ++ toString height ++
  ",\"previousHash\":" ++ jsonStrOrNull previousHash ++
  ",\"snapshotId\":" ++ jsonString snapshotIdStr ++
  ",\"indexedAt\":" ++ toString indexedAt ++
  ",\"filePath\":" ++ jsonString filePath ++
  ",\"commitSha\":" ++ jsonString commitSha ++
  ",\"commitUrl\":" ++ jsonStrOrNull commitUrl ++
  ",\"sourceUrl\":" ++ jsonStrOrNull sourceUrl ++
  ",\"commitActor\":" ++ jsonStrOrNull commitActor ++
  ",\"commitTimestamp\":" ++ jsonStrOrNull commitTimestamp ++
  ",\"changes\":[" ++ String.intercalate "," (changes.map serializeChange) ++ "]\x7d"


/-! The Convex database model: one list per table, rows in creation order, plus
a fresh-id counter. Document ids are `Nat`; `String(id)` is `toString id`.
`.unique()` is modelled as the first row matching the index key (the schema
keeps these keys unique). Index scans return rows ordered by the index key with
creation order as tiebreak; `.order("desc").first()` therefore yields the
maximal key, later row on ties. -/

/-- Repository status union. -/
inductive RepoStatus where
  | new
  | indexed
  | missing_file
  | missing_repo
  | error
deriving DecidableEq, Repr


/-- A `repositories` row. The count fields are absent until the first snapshot
replacement writes them. -/
structure RepoRow where
  id : Nat
  slug : String
  owner : String
  name : String
  source : String
  defaultBranch : String
  status : RepoStatus
  lastError : Option String
  lastIndexedAt : Nat
  entryCount : Option Nat
  vouchedCount : Option Nat
  denouncedCount : Option Nat
deriving DecidableEq, Repr


/-- A `snapshots` row. -/
structure SnapshotRow where
  id : Nat
  repoId : Nat
  commitSha : String
  filePath : String
  indexedAt : Nat
deriving DecidableEq, Repr


/-- An `entries` row (`repoSlug` is optional in the schema; `snapshotId` is a
document id). -/
structure EntryRow where
  id : Nat
  repoId : Nat
  repoSlug : Option String
  snapshotId : Nat
  platform : String
  username : String
  handle : String
  type : EntryType
  details : Option String
deriving DecidableEq, Repr


/-- An `auditBlocks` row. -/
structure BlockRow where
  id : Nat
  repoId : Nat
  snapshotId : Nat
  height : Nat
  indexedAt : Nat
  source : String
  filePath : String
  commitSha : String
  commitUrl : Option String
  sourceUrl : Option String
  commitActor : Option String
  commitTimestamp : Option String
  previousBlockId : Option Nat
  previousHash : Option String
  blockHash : String
  changeCount : Nat
  addedCount : Nat
  removedCount : Nat
  changedCount : Nat
deriving DecidableEq, Repr


/-- An `auditChanges` row. -/
structure ChangeRow where
  id : Nat
  repoId : Nat
  blockId : Nat
  platform : String
  username : String
  handle : String
  action : ChangeAction
  beforeType : Option EntryType
  afterType : Option EntryType
  beforeDetails : Option String
  afterDetails : Option String
deriving DecidableEq, Repr


/-- A `leaderboardRows` row. -/
structure LeaderboardRow where
  id : Nat
  platform : String
  username : String
  handle : String
  vouchedCount : Int
  denouncedCount : Int
  repositories : Int
  score : Int
  updatedAt : Nat
deriving DecidableEq, Repr


/-- An `indexRateBuckets` row. -/
structure BucketRow where
  id : Nat
  key : String
  count : Nat
  resetAt : Nat
deriving DecidableEq, Repr


/-- A `repoIndexLocks` row. -/
structure LockRow where
  id : Nat
  repo : String
  expiresAt : Nat
deriving DecidableEq, Repr


/-- The whole store. -/
structure Db where
  repositories : List RepoRow
  entries : List EntryRow
  snapshots : List SnapshotRow
  auditBlocks : List BlockRow
  auditChanges : List ChangeRow
  leaderboardRows : List LeaderboardRow
  indexRateBuckets : List BucketRow
  repoIndexLocks : List LockRow
  nextId : Nat
deriving DecidableEq, Repr


/-- JavaScript string length (UTF-16 code units). -/
def utf16Length (s : String) : Nat :=
  (s.data.map (fun c => if c.toNat < 65536 then 1 else 2)).sum


/-- `query("snapshots").withIndex("by_repo_and_indexed", repoId).order("desc").first()`. -/
def latestSnapshotFor (snaps : List SnapshotRow) (repoId : Nat) : Option SnapshotRow :=
  (snaps.filter (fun s => s.repoId == repoId)).foldl
    (fun acc s =>
      match acc with
      | none => some s
      | some a => if s.indexedAt ≥ a.indexedAt then some s else some a)
    none


/-- `query("auditBlocks").withIndex("by_repo_and_height", repoId).order("desc").first()`. -/
def latestBlockFor (blocks : List BlockRow) (repoId : Nat) : Option BlockRow :=
  (blocks.filter (fun b => b.repoId == repoId)).foldl
    (fun acc b =>
      match acc with
      | none => some b
      | some a => if b.height ≥ a.height then some b else some a)
    none


/-- `setRepositoryStatus` from `convex/vouch.ts`; returns the written row's id. -/
def setRepositoryStatus (db : Db) (now : Nat) (slug owner name defaultBranch : String)
    (status : RepoStatus) (lastError : Option String) : Db × Nat :=
  match db.repositories.find? (fun r => r.slug == slug) with
  | some existing =>
    ({ db with
        repositories := db.repositories.map (fun r =>
          if r.id == existing.id then
            { r with
                owner := owner, name := name, source := "github"
                defaultBranch := defaultBranch, status := status, lastError := lastError
                lastIndexedAt := now }
          else r) },
      existing.id)
  | none =>
    ({ db with
        repositories := db.repositories ++
          [{ id := db.nextId, slug := slug, owner := owner, name := name
             source := "github", defaultBranch := defaultBranch, status := status
             lastError := lastError, lastIndexedAt := now, entryCount := none
             vouchedCount := none, denouncedCount := none }]
        nextId := db.nextId + 1 },
      db.nextId)


/-- `getRepositorySnapshotMeta` from `convex/vouch.ts`: repository status plus
latest snapshot commit sha and file path (`?? null`). -/
def getRepositorySnapshotMeta (db : Db) (slug : String) :
    Option (RepoStatus × Option String × Option String) :=
  match db.repositories.find? (fun r => r.slug == slug) with
  | none => none
  | some repo =>
    match latestSnapshotFor db.snapshots repo.id with
    | some s => some (repo.status, some s.commitSha, some s.filePath)
    | none => some (repo.status, none, none)


/-! The concurrency guard: `acquireIndexPermit` / `releaseRepoIndexLock`. -/

/-- Result union of `acquireIndexPermit`. -/
inductive PermitResult where
  | ok
  | err (status : Nat) (message : String)
deriving DecidableEq, Repr


/-- Expired-bucket pruning: the index scan `by_reset_at < now` takes up to 256
rows in `(resetAt, creation)` order and deletes them. -/
def pruneBuckets (now : Nat) (rows : List BucketRow) : List BucketRow :=
  let expired := (jsSort (fun a b => decide (a.resetAt ≤ b.resetAt))
    (rows.filter (fun r => decide (r.resetAt < now)))).take 256
  rows.filter (fun r => !((expired.map (fun e => e.id)).contains r.id))


/-- Expired-lock pruning: the index scan `by_expires_at < now` takes up to 256
rows in `(expiresAt, creation)` order and deletes them. -/
def pruneLocks (now : Nat) (rows : List LockRow) : List LockRow :=
  let expired := (jsSort (fun a b => decide (a.expiresAt ≤ b.expiresAt))
    (rows.filter (fun r => decide (r.expiresAt < now)))).take 256
  rows.filter (fun r => !((expired.map (fun e => e.id)).contains r.id))


/-- The `isRateLimited` helper inside `acquireIndexPermit`: reset or create the
bucket when its window has passed, otherwise increment and compare. -/
def rateLimitStep (db : Db) (now : Nat) (key : String) (maxRequests : Nat) : Db × Bool :=
  match db.indexRateBuckets.find? (fun b => b.key == key) with
  | none =>
    ({ db with
        indexRateBuckets := db.indexRateBuckets ++
          [{ id := db.nextId, key := key, count := 1, resetAt := now + 60000 }]
        nextId := db.nextId + 1 },
      false)
  | some bucket =>
    if bucket.resetAt ≤ now then
      ({ db with
          indexRateBuckets := db.indexRateBuckets.map (fun b =>
            if b.id == bucket.id then { b with count := 1, resetAt := now + 60000 } else b) },
        false)
    else
      let nextCount := bucket.count + 1
      ({ db with
          indexRateBuckets := db.indexRateBuckets.map (fun b =>
            if b.id == bucket.id then { b with count := nextCount } else b) },
        decide (nextCount > maxRequests))


/-- The lock check and write at the end of `acquireIndexPermit`. -/
def lockPhase (db : Db) (now : Nat) (repo : String) : Db × PermitResult :=
  match db.repoIndexLocks.find? (fun l => l.repo == repo) with
  | some lock =>
    if lock.expiresAt > now then
      (db, .err 409 "This repository is already being indexed. Please wait a moment and retry.")
    else
      ({ db with
          repoIndexLocks := db.repoIndexLocks.map (fun l =>
            if l.id == lock.id then { l with expiresAt := now + 60000 } else l) },
        .ok)
  | none =>
    ({ db with
        repoIndexLocks := db.repoIndexLocks ++ [{ id := db.nextId, repo := repo, expiresAt := now + 60000 }]
        nextId := db.nextId + 1 },
      .ok)


/-- The three fixed-window limiters of `acquireIndexPermit`, in order; returns
the refusal, if any. -/
def rateGate (db2 : Db) (now : Nat) (repo requester : String) :
    Db × Option PermitResult :=
  let r1 := rateLimitStep db2 now ("global:" ++ requester) 30
  if r1.2 then
    (r1.1,
      some (.err 429 "Too many indexing attempts from this client. Please wait and retry."))
  else
    let r2 := rateLimitStep r1.1 now ("repo:" ++ requester ++ ":" ++ repo) 10
    if r2.2 then
      (r2.1, some (.err 429 "Too many indexing attempts. Please wait and retry."))
    else
      let r3 := rateLimitStep r2.1 now ("repo-global:" ++ repo) 15
      if r3.2 then
        (r3.1,
          some (.err 429 "This repository is being indexed too frequently. Please retry in a minute."))
      else (r3.1, none)


/-- The post-validation body of `acquireIndexPermit`: the limiters (unless
skipped), then the lock check and write. -/
def acquireTail (db2 : Db) (now : Nat) (repo requester : String)
    (skipRateLimit : Bool) : Db × PermitResult :=
  if skipRateLimit then lockPhase db2 now repo
  else
    let g := rateGate db2 now repo requester
    match g.2 with
    | some e => (g.1, e)
    | none => lockPhase g.1 now repo


/-- `acquireIndexPermit` from `convex/vouch.ts`: validate, prune expired guard
rows, run the three fixed-window limiters (unless skipped), then check and
write the per-repo lock. -/
def acquireIndexPermit (db : Db) (now : Nat) (repoArg requesterArg : String)
    (skipRateLimit : Bool) : Db × PermitResult :=
  let repo := jsToLower (jsTrim repoArg)
  let requester := jsToLower (jsTrim requesterArg)
  if repo = "" ∨ utf16Length repo > 200 then
    (db, .err 400 "Expected a non-empty repo string.")
  else if requester = "" ∨ utf16Length requester > 128 then
    (db, .err 400 "Invalid requester identity.")
  else
    let db1 := { db with indexRateBuckets := pruneBuckets now db.indexRateBuckets }
    let db2 := { db1 with repoIndexLocks := pruneLocks now db1.repoIndexLocks }
    acquireTail db2 now repo requester skipRateLimit


/-- `releaseRepoIndexLock` from `convex/vouch.ts`. -/
def releaseRepoIndexLock (db : Db) (repoArg : String) : Db :=
  let repo := jsToLower (jsTrim repoArg)
  if repo = "" then db
  else
    match db.repoIndexLocks.find? (fun l => l.repo == repo) with
    | some lock =>
      { db with repoIndexLocks := db.repoIndexLocks.filter (fun l => !(l.id == lock.id)) }
    | none => db


/-! `replaceRepositorySnapshot`. -/

/-- `normalizeEntry` from `convex/vouch.ts`. -/
def normalizeEntry (e : ParsedEntry) : NormalizedEntry :=
  let platform := jsToLower (jsTrim e.platform)
  let username := stripLeadingAt (jsToLower (jsTrim e.username))
  { platform := platform, username := username, type := e.type, details := e.details
    handle := platform ++ ":" ++ username }


/-- `normalizeStoredEntry` from `convex/vouch.ts`. -/
def normalizeStoredEntry (e : EntryRow) : NormalizedEntry :=
  normalizeEntry
    { platform := e.platform, username := e.username, type := e.type
      details := e.details }


/-- The `uniqueExistingByHandle` map of `replaceRepositorySnapshot`: keep the
first-seen entry per handle, in insertion order. -/
def keepFirstRows (seen : List String) : List EntryRow → List EntryRow
  | [] => []
  | e :: rest =>
    if seen.contains e.handle then keepFirstRows seen rest
    else e :: keepFirstRows (seen ++ [e.handle]) rest


/-- Arguments of `replaceRepositorySnapshot`. -/
structure SnapshotArgs where
  slug : String
  owner : String
  name : String
  defaultBranch : String
  commitSha : String
  filePath : String
  commitUrl : Option String
  sourceUrl : Option String
  commitActor : Option String
  commitTimestamp : Option String
  entries : List ParsedEntry
deriving DecidableEq, Repr


/-- Return value of `replaceRepositorySnapshot`. -/
structure SnapshotResult where
  repoId : Nat
  indexedAt : Nat
  entriesIndexed : Nat
  changesDetected : Nat
  auditRecorded : Bool
  auditBlockHash : Option String
  auditHeight : Option Nat
deriving DecidableEq, Repr


/-- The repository upsert at the top of `replaceRepositorySnapshot` (patch or
insert the payload, then re-read the row). -/
def upsertRepoRow (db : Db) (now : Nat) (args : SnapshotArgs)
    (entryCount vouchedCount denouncedCount : Nat) : Db × RepoRow :=
  match db.repositories.find? (fun r => r.slug == args.slug) with
  | some existing =>
    let updated := { existing with
      slug := args.slug, owner := args.owner, name := args.name, source := "github"
      defaultBranch := args.defaultBranch, status := RepoStatus.indexed
      lastIndexedAt := now, lastError := none, entryCount := some entryCount
      vouchedCount := some vouchedCount, denouncedCount := some denouncedCount }
    ({ db with repositories := db.repositories.map (fun r =>
        if r.id == existing.id then updated else r) },
      updated)
  | none =>
    let inserted : RepoRow := { id := db.nextId
                                slug := args.slug, owner := args.owner, name := args.name
                                source := "github", defaultBranch := args.defaultBranch
                                status := RepoStatus.indexed, lastIndexedAt := now
                                lastError := none, entryCount := some entryCount
                                vouchedCount := some vouchedCount
                                denouncedCount := some denouncedCount }
    ({ db with repositories := db.repositories ++ [inserted], nextId := db.nextId + 1 },
      inserted)


/-- The patch loop over `reconciliationPlan.patches` (each patch also rewrites
`snapshotId` and `repoSlug` to the targets). -/
def applyEntryPatches (entries : List EntryRow) (patches : List (Nat × TrustEntryPatch))
    (snapId : Nat) (slug : String) : List EntryRow :=
  patches.foldl (fun es p =>
    es.map (fun e =>
      if e.id == p.1 then
        { e with
            platform := p.2.platform, username := p.2.username, handle := p.2.handle
            type := p.2.type, details := p.2.details, snapshotId := snapId
            repoSlug := some slug }
      else e))
    entries


/-- The insert loop over `reconciliationPlan.inserts`. -/
def insertEntryRows (entries : List EntryRow) (nextId : Nat) (repoId : Nat) (slug : String)
    (snapId : Nat) (inserts : List TrustEntry) : List EntryRow × Nat :=
  inserts.foldl (fun acc n =>
    (acc.1 ++ [{ id := acc.2, repoId := repoId, repoSlug := some slug, snapshotId := snapId
                 platform := n.platform, username := n.username, handle := n.handle
                 type := n.type, details := n.details }],
     acc.2 + 1))
    (entries, nextId)


/-- The body of the leaderboard loop of `replaceRepositorySnapshot`: read the
row by handle, add the deltas, clamp with `Math.max(0, _)`, then delete when
`repositories === 0 || (vouchedCount === 0 && denouncedCount === 0)`, else
upsert with `score = vouchedCount - denouncedCount`. -/
def applyLeaderboardDelta (rows : List LeaderboardRow) (nextId : Nat) (now : Nat)
    (delta : LeaderboardDelta) : List LeaderboardRow × Nat :=
  let existing := rows.find? (fun r => r.handle == delta.handle)
  let vouchedCount := max 0 ((existing.map (fun r => r.vouchedCount)).getD 0 + delta.vouchedDelta)
  let denouncedCount :=
    max 0 ((existing.map (fun r => r.denouncedCount)).getD 0 + delta.denouncedDelta)
  let repositories :=
    max 0 ((existing.map (fun r => r.repositories)).getD 0 + delta.repositoriesDelta)
  if repositories = 0 ∨ (vouchedCount = 0 ∧ denouncedCount = 0) then
    match existing with
    | some r => (rows.filter (fun x => !(x.id == r.id)), nextId)
    | none => (rows, nextId)
  else
    let payload := fun (x : LeaderboardRow) => { x with
      platform := delta.platform, username := delta.username, handle := delta.handle
      vouchedCount := vouchedCount, denouncedCount := denouncedCount
      repositories := repositories, score := vouchedCount - denouncedCount
      updatedAt := now }
    match existing with
    | some r => (rows.map (fun x => if x.id == r.id then payload x else x), nextId)
    | none =>
      (rows ++ [payload { id := nextId, platform := "", username := "", handle := ""
                          vouchedCount := 0, denouncedCount := 0, repositories := 0
                          score := 0, updatedAt := 0 }],
       nextId + 1)


/-- The change-row insert loop of the audit phase. -/
def insertChangeRows (rows : List ChangeRow) (nextId : Nat) (repoId blockId : Nat)
    (changes : List AuditChange) : List ChangeRow × Nat :=
  changes.foldl (fun acc c =>
    (acc.1 ++ [{ id := acc.2, repoId := repoId, blockId := blockId
                 platform := c.platform, username := c.username, handle := c.handle
                 action := c.action, beforeType := c.beforeType, afterType := c.afterType
                 beforeDetails := c.beforeDetails, afterDetails := c.afterDetails }],
     acc.2 + 1))
    (rows, nextId)


/-- The snapshot upsert of `replaceRepositorySnapshot`: patch the latest
snapshot or insert one; returns the snapshot id used. -/
def snapshotUpsertPhase (db1 : Db) (now : Nat) (args : SnapshotArgs) (repoId : Nat) :
    Db × Nat :=
  match latestSnapshotFor db1.snapshots repoId with
  | some s =>
    ({ db1 with
        snapshots := db1.snapshots.map (fun x =>
          if x.id == s.id then
            { x with
                commitSha := args.commitSha, filePath := args.filePath, indexedAt := now }
          else x) },
      s.id)
  | none =>
    ({ db1 with
        snapshots := db1.snapshots ++
          [{ id := db1.nextId, repoId := repoId, commitSha := args.commitSha
             filePath := args.filePath, indexedAt := now }]
        nextId := db1.nextId + 1 },
      db1.nextId)


/-- The entry-write loops of `replaceRepositorySnapshot`: duplicate deletes,
deletes, patches, inserts. -/
def entryWritePhase (db2 : Db) (plan : EntryReconciliationPlan) (repoId : Nat)
    (slug : String) (snapId : Nat) : Db :=
  let afterDeletes := (db2.entries.filter
    (fun e => !(plan.duplicateDeleteIds.contains e.id))).filter
      (fun e => !(plan.deleteIds.contains e.id))
  let afterPatches := applyEntryPatches afterDeletes plan.patches snapId slug
  let r := insertEntryRows afterPatches db2.nextId repoId slug snapId plan.inserts
  { db2 with entries := r.1, nextId := r.2 }


/-- The leaderboard loop of `replaceRepositorySnapshot`. -/
def leaderboardPhase (db5 : Db) (now : Nat) (lbDeltas : List LeaderboardDelta) : Db :=
  let r := lbDeltas.foldl (fun acc d => applyLeaderboardDelta acc.1 acc.2 now d)
    (db5.leaderboardRows, db5.nextId)
  { db5 with leaderboardRows := r.1, nextId := r.2 }


/-- The audit-block phase of `replaceRepositorySnapshot`: serialize, hash, and
append the block and its change rows. Returns the hash and height. -/
def auditPhase (db6 : Db) (now : Nat) (args : SnapshotArgs) (repoId snapId : Nat)
    (previousBlock : Option BlockRow) (changes : List AuditChange) :
    Db × String × Nat :=
  let auditHeight := (previousBlock.map (fun b => b.height)).getD 0 + 1
  let previousHash := previousBlock.map (fun b => b.blockHash)
  let auditBlockHash := sha256Hex (serializeBlock args.slug auditHeight previousHash
    (toString snapId) now args.filePath args.commitSha args.commitUrl args.sourceUrl
    args.commitActor args.commitTimestamp changes)
  let blockId := db6.nextId
  let newBlock : BlockRow :=
    { id := blockId, repoId := repoId, snapshotId := snapId, height := auditHeight
      indexedAt := now, source := "github", filePath := args.filePath
      commitSha := args.commitSha, commitUrl := args.commitUrl, sourceUrl := args.sourceUrl
      commitActor := args.commitActor, commitTimestamp := args.commitTimestamp
      previousBlockId := previousBlock.map (fun b => b.id), previousHash := previousHash
      blockHash := auditBlockHash, changeCount := changes.length
      addedCount := (changes.filter (fun c => c.action == ChangeAction.added)).length
      removedCount := (changes.filter (fun c => c.action == ChangeAction.removed)).length
      changedCount := (changes.filter (fun c => c.action == ChangeAction.changed)).length }
  let db7 := { db6 with auditBlocks := db6.auditBlocks ++ [newBlock], nextId := blockId + 1 }
  let r4 := insertChangeRows db7.auditChanges db7.nextId repoId blockId changes
  ({ db7 with auditChanges := r4.1, nextId := r4.2 }, auditBlockHash, auditHeight)


/-- The `ExistingTrustEntry` view of a stored entry row passed to
`planEntryReconciliation` (`String(entry.snapshotId)`). -/
def entryRowToExisting (e : EntryRow) : ExistingTrustEntry :=
  { id := e.id, snapshotId := toString e.snapshotId, repoSlug := e.repoSlug
    platform := e.platform, username := e.username, handle := e.handle
    type := e.type, details := e.details }


/-- The `TrustEntry` view of a normalized entry passed to
`planEntryReconciliation`. -/
def normalizedToTrust (e : NormalizedEntry) : TrustEntry :=
  { platform := e.platform, username := e.username, handle := e.handle
    type := e.type, details := e.details }


/-- The tail of `replaceRepositorySnapshot`: decide whether to record an audit
block (`previousBlock === null || changes.length > 0`), run the audit phase if
so, and assemble the return value. -/
def replaceFinish (db6 : Db) (now : Nat) (args : SnapshotArgs) (rid sid : Nat)
    (previousBlock : Option BlockRow) (changes : List AuditChange)
    (entriesIndexed : Nat) : Db × SnapshotResult :=
  let shouldRecord := previousBlock.isNone || decide (changes.length > 0)
  if shouldRecord then
    let r4 := auditPhase db6 now args rid sid previousBlock changes
    (r4.1,
      { repoId := rid, indexedAt := now, entriesIndexed := entriesIndexed
        changesDetected := changes.length, auditRecorded := true
        auditBlockHash := some r4.2.1, auditHeight := some r4.2.2 })
  else
    (db6,
      { repoId := rid, indexedAt := now, entriesIndexed := entriesIndexed
        changesDetected := changes.length, auditRecorded := false, auditBlockHash := none
        auditHeight := none })


/-- `replaceRepositorySnapshot` from `convex/vouch.ts`: upsert the repository
with its counts, diff the deduplicated existing entries against the normalized
new ones, upsert the snapshot, apply the reconciliation plan, apply the
leaderboard deltas, and append an audit block (plus change rows) when this is
the genesis block or the diff is non-empty. -/
def replaceRepositorySnapshot (db : Db) (now : Nat) (args : SnapshotArgs) :
    Db × SnapshotResult :=
  let normalizedEntries := args.entries.map normalizeEntry
  let vouchedCount := (normalizedEntries.filter (fun e => e.type == EntryType.vouch)).length
  let r0 := upsertRepoRow db now args normalizedEntries.length vouchedCount
    (normalizedEntries.length - vouchedCount)
  let db1 := r0.1
  let repo := r0.2
  let existingEntries := db1.entries.filter (fun e => e.repoId == repo.id)
  let existingNormalized := (keepFirstRows [] existingEntries).map normalizeStoredEntry
  let changes := computeAuditChanges existingNormalized normalizedEntries
  let previousBlock := latestBlockFor db1.auditBlocks repo.id
  let r1 := snapshotUpsertPhase db1 now args repo.id
  let db2 := r1.1
  let snapId := r1.2
  let plan := planEntryReconciliation (existingEntries.map entryRowToExisting)
    (normalizedEntries.map normalizedToTrust) repo.slug (toString snapId)
  let db5 := entryWritePhase db2 plan repo.id repo.slug snapId
  let db6 := leaderboardPhase db5 now (computeLeaderboardDeltas changes)
  replaceFinish db6 now args repo.id snapId previousBlock changes normalizedEntries.length


/-! The post-fetch portion of `indexGithubRepo`. -/

/-- The fetched file data that `indexGithubRepo` assembles from the GitHub API
before consulting the store (parameterizing over the network). -/
structure FetchedFile where
  selectedPath : String
  commitSha : String
  commitUrl : Option String
  sourceUrl : Option String
  commitActor : Option String
  commitTimestamp : Option String
  content : String
deriving DecidableEq, Repr


/-- The fields of `indexGithubRepo`'s return value settled by the post-fetch
logic. -/
structure IndexOutcome where
  status : String
  entriesIndexed : Nat
  changesDetected : Nat
  auditRecorded : Bool
  skippedNoChanges : Bool
deriving DecidableEq, Repr


/-- The post-fetch portion of `indexGithubRepo`: the `isSnapshotUnchanged`
short-circuit (refresh the status only) versus the full parse-and-replace
pipeline. -/
def indexCore (db : Db) (now : Nat) (slug owner name defaultBranch : String)
    (f : FetchedFile) : Db × IndexOutcome :=
  let meta := getRepositorySnapshotMeta db slug
  let isSnapshotUnchanged :=
    decide (f.commitSha ≠ "") &&
    (match meta with
     | some (status, sha, path) =>
       status == RepoStatus.indexed && sha == some f.commitSha && path == some f.selectedPath
     | none => false)
  if isSnapshotUnchanged then
    let r := setRepositoryStatus db now slug owner name defaultBranch RepoStatus.indexed none
    (r.1,
      { status := "indexed", entriesIndexed := 0, changesDetected := 0
        auditRecorded := false, skippedNoChanges := true })
  else
    let r := replaceRepositorySnapshot db now
      { slug := slug, owner := owner, name := name, defaultBranch := defaultBranch
        commitSha := f.commitSha, filePath := f.selectedPath, commitUrl := f.commitUrl
        sourceUrl := f.sourceUrl, commitActor := f.commitActor
        commitTimestamp := f.commitTimestamp, entries := parseTrustdown f.content }
    (r.1,
      { status := "indexed", entriesIndexed := r.2.entriesIndexed
        changesDetected := r.2.changesDetected, auditRecorded := r.2.auditRecorded
        skippedNoChanges := false })


/-! Derived notions used by the claims about the store. -/

/-- The repository id `replaceRepositorySnapshot` resolves for a slug: the
existing row's id, or the fresh id when the row is inserted. -/
def resolvedRepoId (db : Db) (slug : String) : Nat :=
  match db.repositories.find? (fun r => r.slug == slug) with
  | some r => r.id
  | none => db.nextId


/-- The audit change list a `replaceRepositorySnapshot` call computes, expressed
over the pre-call store. -/
def snapshotChanges (db : Db) (slug : String) (entries : List ParsedEntry) :
    List AuditChange :=
  computeAuditChanges
    ((keepFirstRows [] (db.entries.filter
      (fun e => e.repoId == resolvedRepoId db slug))).map normalizeStoredEntry)
    (entries.map normalizeEntry)


/-- The recorded block heights of a repository, in creation order. -/
def blockHeightsFor (db : Db) (repoId : Nat) : List Nat :=
  (db.auditBlocks.filter (fun b => b.repoId == repoId)).map (fun b => b.height)


/-- The audit-change view of a stored change row. -/
def changeRowToAudit (c : ChangeRow) : AuditChange :=
  { platform := c.platform, username := c.username, handle := c.handle, action := c.action
    beforeType := c.beforeType, afterType := c.afterType, beforeDetails := c.beforeDetails
    afterDetails := c.afterDetails }


/-- Recompute a stored block's hash from stored fields only: the owning
repository's slug, the block's own fields, and its stored change rows. -/
def recomputeBlockHash (db : Db) (b : BlockRow) : Option String :=
  match db.repositories.find? (fun r => r.id == b.repoId) with
  | none => none
  | some repo =>
    some (sha256Hex (serializeBlock repo.slug b.height b.previousHash (toString b.snapshotId)
      b.indexedAt b.filePath b.commitSha b.commitUrl b.sourceUrl b.commitActor
      b.commitTimestamp ((db.auditChanges.filter (fun c => c.blockId == b.id)).map
        changeRowToAudit)))


/-- Store well-formedness: row ids are unique per table and below the fresh-id
counter, change rows point below the counter, and the keyed tables queried with
`.unique()` have unique keys. -/
def dbWF (db : Db) : Prop :=
  (db.repositories.map (fun r => r.id)).Nodup ∧
  (∀ r ∈ db.repositories, r.id < db.nextId) ∧
  (∀ e ∈ db.entries, e.id < db.nextId) ∧
  (∀ s ∈ db.snapshots, s.id < db.nextId) ∧
  (∀ b ∈ db.auditBlocks, b.id < db.nextId) ∧
  (∀ c ∈ db.auditChanges, c.id < db.nextId) ∧
  (∀ c ∈ db.auditChanges, c.blockId < db.nextId) ∧
  (∀ l ∈ db.leaderboardRows, l.id < db.nextId) ∧
  (db.repoIndexLocks.map (fun l => l.repo)).Nodup ∧
  (db.indexRateBuckets.map (fun b => b.key)).Nodup


instance (db : Db) : Decidable (dbWF db) := by
  unfold dbWF
  infer_instance


/-! Claim C5: the leaderboard delta computation and application. -/

/-- The specification's description of applying one leaderboard delta, keyed
purely by handle: read the current row for the handle (or zero defaults), add
the deltas, clamp every count at a floor of zero, then delete the handle's row
(if `repositories == 0` or both type counts are `0`) or upsert it with
`score = vouched - denounced`. -/
def applyLeaderboardDeltaSpec (rows : List LeaderboardRow) (nextId : Nat) (now : Nat)
    (delta : LeaderboardDelta) : List LeaderboardRow × Nat :=
  let existing := rows.find? (fun r => r.handle == delta.handle)
  let vouchedCount := max 0 ((existing.map (fun r => r.vouchedCount)).getD 0 + delta.vouchedDelta)
  let denouncedCount :=
    max 0 ((existing.map (fun r => r.denouncedCount)).getD 0 + delta.denouncedDelta)
  let repositories :=
    max 0 ((existing.map (fun r => r.repositories)).getD 0 + delta.repositoriesDelta)
  if repositories = 0 ∨ (vouchedCount = 0 ∧ denouncedCount = 0) then
    (rows.filter (fun x => !(x.handle == delta.handle)), nextId)
  else
    let payload := fun (x : LeaderboardRow) => { x with
      platform := delta.platform, username := delta.username, handle := delta.handle
      vouchedCount := vouchedCount, denouncedCount := denouncedCount
      repositories := repositories, score := vouchedCount - denouncedCount
      updatedAt := now }
    match existing with
    | some _ => (rows.map (fun x => if x.handle == delta.handle then payload x else x), nextId)
    | none =>
      (rows ++ [payload { id := nextId, platform := "", username := "", handle := ""
                          vouchedCount := 0, denouncedCount := 0, repositories := 0
                          score := 0, updatedAt := 0 }],
       nextId + 1)


/-! Claim C6: storage effects of `acquireIndexPermit` refusals. -/

/-- The content tables that the guard never touches. -/
def contentFrame (a b : Db) : Prop :=
  a.repositories = b.repositories ∧ a.entries = b.entries ∧ a.snapshots = b.snapshots ∧
  a.auditBlocks = b.auditBlocks ∧ a.auditChanges = b.auditChanges ∧
  a.leaderboardRows = b.leaderboardRows


/-- The counterexample store for claim C6: one rate bucket at its limit. -/
def dbC6 : Db :=
  { repositories := [], entries := [], snapshots := [], auditBlocks := [], auditChanges := []
    leaderboardRows := []
    indexRateBuckets := [{ id := 0, key := "global:alice", count := 30, resetAt := 100000 }]
    repoIndexLocks := [], nextId := 1 }


/-- The counterexample store for claim C8: an indexed repository whose stored
snapshot has an empty commit sha. -/
def dbC8 : Db :=
  { repositories := [{ id := 0, slug := "o/r", owner := "o", name := "r", source := "github"
                       defaultBranch := "main", status := RepoStatus.indexed
                       lastError := none, lastIndexedAt := 10, entryCount := some 0
                       vouchedCount := some 0, denouncedCount := some 0 }]
    entries := []
    snapshots := [{ id := 1, repoId := 0, commitSha := "", filePath := "VOUCHED.td"
                    indexedAt := 10 }]
    auditBlocks := [], auditChanges := [], leaderboardRows := [], indexRateBuckets := []
    repoIndexLocks := [], nextId := 2 }


/-- The fetched content for the claim C8 counterexample: same (empty) commit
identifier and same file path as the stored snapshot. -/
def fcC8 : FetchedFile :=
  { selectedPath := "VOUCHED.td", commitSha := "", commitUrl := none, sourceUrl := none
    commitActor := none, commitTimestamp := none, content := "" }


/-- The empty store used to witness claim C2. -/
def dbC2 : Db :=
  { repositories := [], entries := [], snapshots := [], auditBlocks := [], auditChanges := []
    leaderboardRows := [], indexRateBuckets := [], repoIndexLocks := [], nextId := 0 }


/-- The arguments used to witness claim C2. -/
def argsC2 : SnapshotArgs :=
  { slug := "o/r", owner := "o", name := "r", defaultBranch := "main", commitSha := "abc"
    filePath := "VOUCHED.td", commitUrl := none, sourceUrl := none, commitActor := none
    commitTimestamp := none, entries := [] }


/-- The change row written by the audit phase for one change. -/
def mkChangeRow (nid rid bid : Nat) (c : AuditChange) : ChangeRow :=
  { id := nid, repoId := rid, blockId := bid, platform := c.platform
    username := c.username, handle := c.handle, action := c.action
    beforeType := c.beforeType, afterType := c.afterType
    beforeDetails := c.beforeDetails, afterDetails := c.afterDetails }


/-- The empty store used to witness claim C3. -/
def dbC3 : Db :=
  { repositories := [], entries := [], snapshots := [], auditBlocks := [], auditChanges := []
    leaderboardRows := [], indexRateBuckets := [], repoIndexLocks := [], nextId := 0 }


/-- The arguments used to witness claim C3. -/
def argsC3 : SnapshotArgs :=
  { slug := "o/r", owner := "o", name := "r", defaultBranch := "main", commitSha := "abc"
    filePath := "VOUCHED.td", commitUrl := none, sourceUrl := none, commitActor := none
    commitTimestamp := none
    entries := [{ platform := "github", username := "alice", type := EntryType.vouch
                  details := none }] }


/-- The counterexample store for claim C7: bob's global rate bucket is at its
limit in a live window. -/
def dbC7 : Db :=
  { repositories := [], entries := [], snapshots := [], auditBlocks := [], auditChanges := []
    leaderboardRows := []
    indexRateBuckets := [{ id := 0, key := "global:bob", count := 30, resetAt := 100000 }]
    repoIndexLocks := [], nextId := 1 }


/-- The empty store used to witness claim C7. -/
def dbC7W : Db :=
  { repositories := [], entries := [], snapshots := [], auditBlocks := [], auditChanges := []
    leaderboardRows := [], indexRateBuckets := [], repoIndexLocks := [], nextId := 0 }


/-! Lemmas about the JavaScript `Map` model. -/

theorem mapGet_nil (k : String) : mapGet ([] : List (String × α)) k = none := rfl


theorem mapGet_cons (p : String × α) (m : List (String × α)) (k : String) :
    mapGet (p :: m) k = if p.1 = k then some p.2 else mapGet m k := by
  by_cases h : p.1 = k
  · simp [mapGet, List.find?_cons, h]
  · have hb : (p.1 == k) = false := by simp [h]
    simp [mapGet, List.find?_cons, hb, h]


theorem mapGet_eq_none {m : List (String × α)} {k : String} :
    mapGet m k = none ↔ k ∉ mapKeys m := by
  induction m with
  | nil => simp [mapGet, mapKeys]
  | cons p m ih =>
    rw [mapGet_cons]
    by_cases h : p.1 = k
    · simp [h, mapKeys]
    · simp [h, mapKeys, ih, Ne.symm h]


theorem mapSet_of_not_mem {m : List (String × α)} {k : String} (h : k ∉ mapKeys m) (v : α) :
    mapSet m k v = m ++ [(k, v)] := by
  have hany : m.any (fun p => p.1 == k) = false := by
    simp only [List.any_eq_false]
    intro p hp
    simp only [beq_iff_eq]
    intro hk
    exact h (hk ▸ List.mem_map_of_mem (·.1) hp)
  simp [mapSet, hany]


theorem mapKeys_mapSet (m : List (String × α)) (k : String) (v : α) :
    mapKeys (mapSet m k v) = if k ∈ mapKeys m then mapKeys m else mapKeys m ++ [k] := by
  by_cases h : k ∈ mapKeys m
  · have hany : m.any (fun p => p.1 == k) = true := by
      simp only [mapKeys] at h
      obtain ⟨p, hp, hk⟩ := List.mem_map.1 h
      exact List.any_eq_true.2 ⟨p, hp, by simp [hk]⟩
    simp only [mapSet, hany, if_pos, h, if_true]
    simp only [mapKeys, List.map_map]
    apply List.map_congr_left
    intro p _
    by_cases hk : p.1 = k
    · simp [hk]
    · simp [hk]
  · rw [mapSet_of_not_mem h, if_neg h]
    simp [mapKeys]


theorem mem_mapKeys_mapSet {m : List (String × α)} {k k2 : String} {v : α} :
    k2 ∈ mapKeys (mapSet m k v) ↔ k2 ∈ mapKeys m ∨ k2 = k := by
  rw [mapKeys_mapSet]
  by_cases h : k ∈ mapKeys m
  · simp only [if_pos h]
    constructor
    · exact Or.inl
    · rintro (h2 | rfl)
      · exact h2
      · exact h
  · simp [if_neg h]


theorem mem_of_mem_mapSet {m : List (String × α)} {k : String} {v : α} {p : String × α}
    (hp : p ∈ mapSet m k v) : p ∈ m ∨ p = (k, v) := by
  unfold mapSet at hp
  split at hp
  · obtain ⟨q, hq, hpq⟩ := List.mem_map.1 hp
    by_cases hk : q.1 = k
    · right
      rw [← hpq]
      simp [hk]
    · left
      rw [← hpq]
      simpa [hk] using hq
  · rcases List.mem_append.1 hp with h2 | h2
    · exact Or.inl h2
    · right
      simpa using h2


theorem mapGet_mapDelete_ne {m : List (String × α)} {k k2 : String} (h : k2 ≠ k) :
    mapGet (mapDelete m k) k2 = mapGet m k2 := by
  induction m with
  | nil => rfl
  | cons p m ih =>
    simp only [mapDelete] at ih ⊢
    rw [List.filter_cons]
    by_cases hp : p.1 = k
    · have h1 : (p.1 != k) = false := by simp [hp]
      rw [h1]
      simp only [Bool.false_eq_true, if_false]
      rw [mapGet_cons, if_neg (by rw [hp]; exact fun hh => h hh.symm)]
      exact ih
    · have h1 : (p.1 != k) = true := by simp [hp]
      rw [h1]
      simp only [if_true]
      rw [mapGet_cons, mapGet_cons]
      by_cases hpk : p.1 = k2
      · rw [if_pos hpk, if_pos hpk]
      · rw [if_neg hpk, if_neg hpk]
        exact ih


theorem mem_jsDedup {l : List String} {x : String} : x ∈ jsDedup l ↔ x ∈ l := by
  induction l with
  | nil => simp [jsDedup]
  | cons a l ih =>
    by_cases hxa : x = a
    · subst hxa
      simp [jsDedup]
    · simp [jsDedup, List.mem_filter, hxa, ih]


theorem nodup_jsDedup (l : List String) : (jsDedup l).Nodup := by
  induction l with
  | nil => simp [jsDedup]
  | cons a l ih =>
    simp only [jsDedup]
    refine List.Nodup.cons ?_ (List.Nodup.filter _ ih)
    intro ha
    have := (List.mem_filter.1 ha).2
    simp at this


theorem charEq_of_toNat {a b : Char} (h : a.toNat = b.toNat) : a = b :=
  Char.ext (UInt32.ext h)


theorem strLtChars_cons_iff (a b : Char) (as bs : List Char) :
    strLtChars (a :: as) (b :: bs) = true ↔
      a.toNat < b.toNat ∨ (a.toNat = b.toNat ∧ strLtChars as bs = true) := by
  show (if a.toNat < b.toNat then true
    else if b.toNat < a.toNat then false else strLtChars as bs) = true ↔ _
  by_cases h1 : a.toNat < b.toNat
  · rw [if_pos h1]
    simp [h1]
  · rw [if_neg h1]
    by_cases h2 : b.toNat < a.toNat
    · rw [if_pos h2]
      constructor
      · intro hh
        exact Bool.noConfusion hh
      · rintro (h | ⟨he, _⟩) <;> omega
    · rw [if_neg h2]
      have he : a.toNat = b.toNat := by omega
      constructor
      · intro hh
        exact Or.inr ⟨he, hh⟩
      · rintro (h | ⟨_, hh⟩)
        · omega
        · exact hh


theorem strLtChars_irrefl : ∀ l : List Char, strLtChars l l = false
  | [] => rfl
  | a :: as => by
    unfold strLtChars
    simp [strLtChars_irrefl as]


theorem strLtChars_trans : ∀ (x y z : List Char),
    strLtChars x y = true → strLtChars y z = true → strLtChars x z = true
  | [], [], _, h1, _ => by simp [strLtChars] at h1
  | [], _ :: _, [], _, h2 => by simp [strLtChars] at h2
  | [], _ :: _, _ :: _, _, _ => rfl
  | _ :: _, [], _, h1, _ => by simp [strLtChars] at h1
  | _ :: _, _ :: _, [], _, h2 => by simp [strLtChars] at h2
  | a :: as, b :: bs, c :: cs, h1, h2 => by
    rw [strLtChars_cons_iff] at h1 h2 ⊢
    rcases h1 with h1 | ⟨h1e, h1r⟩
    · rcases h2 with h2 | ⟨h2e, h2r⟩
      · exact Or.inl (by omega)
      · exact Or.inl (by omega)
    · rcases h2 with h2 | ⟨h2e, h2r⟩
      · exact Or.inl (by omega)
      · exact Or.inr ⟨by omega, strLtChars_trans as bs cs h1r h2r⟩


theorem strLtChars_eq_of_not : ∀ (x y : List Char),
    strLtChars x y = false → strLtChars y x = false → x = y
  | [], [], _, _ => rfl
  | [], _ :: _, h1, _ => by simp [strLtChars] at h1
  | _ :: _, [], _, h2 => by simp [strLtChars] at h2
  | a :: as, b :: bs, h1, h2 => by
    have h1' := h1
    have h2' := h2
    rw [← Bool.not_eq_true, strLtChars_cons_iff] at h1' h2'
    push_neg at h1' h2'
    obtain ⟨h1a, h1b⟩ := h1'
    obtain ⟨h2a, h2b⟩ := h2'
    have hab : a.toNat = b.toNat := le_antisymm h2a h1a
    have has : strLtChars as bs = false := by
      cases hx : strLtChars as bs
      · rfl
      · exact absurd hx (h1b hab)
    have hbs : strLtChars bs as = false := by
      cases hx : strLtChars bs as
      · rfl
      · exact absurd hx (h2b hab.symm)
    rw [charEq_of_toNat hab, strLtChars_eq_of_not as bs has hbs]


theorem stringLe_trans (a b c : String) (h1 : stringLe a b = true) (h2 : stringLe b c = true) :
    stringLe a c = true := by
  simp only [stringLe, Bool.not_eq_true'] at *
  cases hca : strLtChars c.data a.data
  · rfl
  · exfalso
    cases hab : strLtChars a.data b.data
    · have heq : a.data = b.data := strLtChars_eq_of_not a.data b.data hab h1
      rw [← heq, hca] at h2
      exact Bool.noConfusion h2
    · have := strLtChars_trans c.data a.data b.data hca hab
      rw [h2] at this
      exact Bool.noConfusion this


theorem stringLe_total (a b : String) : (stringLe a b || stringLe b a) = true := by
  simp only [stringLe]
  cases hab : strLtChars a.data b.data
  · simp
  · cases hba : strLtChars b.data a.data
    · simp
    · exfalso
      have := strLtChars_trans a.data b.data a.data hab hba
      rw [strLtChars_irrefl a.data] at this
      exact Bool.noConfusion this


theorem stringLe_antisymm (a b : String) (h1 : stringLe a b = true)
    (h2 : stringLe b a = true) : a = b := by
  simp only [stringLe, Bool.not_eq_true'] at h1 h2
  cases a with
  | mk da =>
    cases b with
    | mk db =>
      have : da = db := strLtChars_eq_of_not da db h2 h1
      rw [this]


theorem mem_insertSorted (le : α → α → Bool) (x z : α) :
    ∀ l : List α, z ∈ insertSorted le x l ↔ z = x ∨ z ∈ l
  | [] => by simp [insertSorted]
  | y :: ys => by
    unfold insertSorted
    by_cases h : le x y = true
    · rw [if_pos h]
      simp only [List.mem_cons]
    · rw [if_neg h]
      simp only [List.mem_cons, mem_insertSorted le x z ys]
      tauto


theorem pairwise_insertSorted (le : α → α → Bool)
    (htot : ∀ a b, (le a b || le b a) = true)
    (htrans : ∀ a b c, le a b = true → le b c = true → le a c = true)
    (x : α) : ∀ l : List α, l.Pairwise (fun a b => le a b = true) →
      (insertSorted le x l).Pairwise (fun a b => le a b = true)
  | [], _ => by simp [insertSorted]
  | y :: ys, h => by
    rw [List.pairwise_cons] at h
    unfold insertSorted
    by_cases hxy : le x y = true
    · rw [if_pos hxy]
      rw [List.pairwise_cons]
      constructor
      · intro z hz
        rcases List.mem_cons.1 hz with rfl | hz2
        · exact hxy
        · exact htrans x y z hxy (h.1 z hz2)
      · exact List.pairwise_cons.2 h
    · rw [if_neg hxy]
      rw [List.pairwise_cons]
      constructor
      · intro z hz
        rcases (mem_insertSorted le x z ys).1 hz with hzx | hz2
        · have h3 := htot x y
          rw [Bool.or_eq_true] at h3
          rcases h3 with h1 | h2
          · exact absurd h1 hxy
          · rw [hzx]
            exact h2
        · exact h.1 z hz2
      · exact pairwise_insertSorted le htot htrans x ys h.2


theorem insertSorted_perm (le : α → α → Bool) (x : α) :
    ∀ l : List α, (insertSorted le x l).Perm (x :: l)
  | [] => List.Perm.refl _
  | y :: ys => by
    unfold insertSorted
    by_cases h : le x y = true
    · rw [if_pos h]
    · rw [if_neg h]
      exact ((insertSorted_perm le x ys).cons y).trans (List.Perm.swap x y ys)


theorem jsSort_perm (le : α → α → Bool) : ∀ l : List α, (jsSort le l).Perm l
  | [] => List.Perm.refl _
  | x :: xs => by
    unfold jsSort
    rw [List.foldr_cons]
    exact (insertSorted_perm le x _).trans ((jsSort_perm le xs).cons x)


theorem jsSort_pairwise (le : α → α → Bool)
    (htot : ∀ a b, (le a b || le b a) = true)
    (htrans : ∀ a b c, le a b = true → le b c = true → le a c = true) :
    ∀ l : List α, (jsSort le l).Pairwise (fun a b => le a b = true)
  | [] => List.Pairwise.nil
  | x :: xs => by
    unfold jsSort
    rw [List.foldr_cons]
    exact pairwise_insertSorted le htot htrans x _ (jsSort_pairwise le htot htrans xs)


theorem sortedUnionKeys_comm (a b : List String) :
    sortedUnionKeys a b = sortedUnionKeys b a := by
  refine @List.Perm.eq_of_sorted String (fun x y => stringLe x y = true) _ _ ?_ ?_ ?_ ?_
  · intro x y _ _ h1 h2
    exact stringLe_antisymm x y h1 h2
  · exact jsSort_pairwise stringLe stringLe_total stringLe_trans _
  · exact jsSort_pairwise stringLe stringLe_total stringLe_trans _
  · refine ((jsSort_perm _ _).trans ?_).trans (jsSort_perm _ _).symm
    rw [List.perm_ext_iff_of_nodup (nodup_jsDedup _) (nodup_jsDedup _)]
    intro x
    simp only [mem_jsDedup, List.mem_append]
    exact Or.comm


theorem mem_foldl_mapSet {key : α → String} :
    ∀ (l : List α) (m : List (String × α)) (q : String × α),
      q ∈ l.foldl (fun m e => mapSet m (key e) e) m → q ∈ m ∨ ∃ e ∈ l, q = (key e, e)
  | [], _, _, hq => Or.inl hq
  | e :: l, m, q, hq => by
    simp only [List.foldl_cons] at hq
    rcases mem_foldl_mapSet l _ q hq with h | ⟨e2, he2, rfl⟩
    · rcases mem_of_mem_mapSet h with h2 | rfl
      · exact Or.inl h2
      · exact Or.inr ⟨e, List.mem_cons_self e l, rfl⟩
    · exact Or.inr ⟨e2, List.mem_cons_of_mem e he2, rfl⟩


theorem pairs_mapOfList {key : α → String} {l : List α} {p : String × α}
    (hp : p ∈ mapOfList key l) : p.1 = key p.2 ∧ p.2 ∈ l := by
  rcases mem_foldl_mapSet l [] p hp with h | ⟨e, he, rfl⟩
  · simp at h
  · exact ⟨rfl, he⟩


theorem mapGet_pair_handle {key : α → String} {l : List α} {k : String} {v : α}
    (h : mapGet (mapOfList key l) k = some v) : key v = k ∧ v ∈ l := by
  simp only [mapGet, Option.map_eq_some'] at h
  obtain ⟨p, hp, rfl⟩ := h
  have hmem := List.mem_of_find?_eq_some hp
  have hkey : p.1 = k := by simpa using List.find?_some hp
  obtain ⟨h1, h2⟩ := pairs_mapOfList hmem
  exact ⟨h1 ▸ hkey, h2⟩


theorem mem_mapKeys_foldl_mapSet {key : α → String} :
    ∀ (l : List α) (m : List (String × α)) (k : String),
      k ∈ mapKeys (l.foldl (fun m e => mapSet m (key e) e) m) ↔
        k ∈ mapKeys m ∨ ∃ e ∈ l, key e = k
  | [], _, _ => by simp
  | e :: l, m, k => by
    simp only [List.foldl_cons]
    rw [mem_mapKeys_foldl_mapSet l _ k, mem_mapKeys_mapSet]
    constructor
    · rintro ((h | rfl) | h)
      · exact Or.inl h
      · exact Or.inr ⟨e, List.mem_cons_self e l, rfl⟩
      · obtain ⟨e2, he2, rfl⟩ := h
        exact Or.inr ⟨e2, List.mem_cons_of_mem e he2, rfl⟩
    · rintro (h | ⟨e2, he2, rfl⟩)
      · exact Or.inl (Or.inl h)
      · rcases List.mem_cons.1 he2 with rfl | h2
        · exact Or.inl (Or.inr rfl)
        · exact Or.inr ⟨e2, h2, rfl⟩


theorem mem_mapKeys_mapOfList {key : α → String} {l : List α} {k : String} :
    k ∈ mapKeys (mapOfList key l) ↔ ∃ e ∈ l, key e = k := by
  rw [mapOfList, mem_mapKeys_foldl_mapSet]
  simp [mapKeys]


theorem bneSymm [BEq γ] [LawfulBEq γ] (a b : γ) : (a != b) = (b != a) := by
  cases hab : a == b
  · have hne : a ≠ b := ne_of_beq_false hab
    have h2 : (b == a) = false := beq_eq_false_iff_ne.2 (Ne.symm hne)
    simp [bne, hab, h2]
  · have heq := eq_of_beq hab
    subst heq
    simp [bne]


theorem computeAuditChanges_eq (previous next : List NormalizedEntry) :
    computeAuditChanges previous next =
      (sortedUnionKeys (mapKeys (mapOfList (·.handle) previous))
          (mapKeys (mapOfList (·.handle) next))).filterMap
        (classifyHandle (mapOfList (·.handle) previous) (mapOfList (·.handle) next)) := rfl


theorem classifyHandle_swap (mA mB : List (String × NormalizedEntry)) (h : String)
    (hA : ∀ v, mapGet mA h = some v → v.handle = h)
    (hB : ∀ v, mapGet mB h = some v → v.handle = h) :
    (classifyHandle mB mA h).map changeView =
      Option.map (fun c => swapView (changeView c)) (classifyHandle mA mB h) := by
  unfold classifyHandle
  rcases hgA : mapGet mA h with _ | p <;> rcases hgB : mapGet mB h with _ | n
  · rfl
  · rfl
  · rfl
  · have hp : p.handle = h := hA p hgA
    have hn : n.handle = h := hB n hgB
    dsimp only
    have hcond : (n.type != p.type || n.details != p.details) =
        (p.type != n.type || p.details != n.details) := by
      rw [bneSymm n.type p.type]
      rw [bneSymm n.details p.details]
    rw [hcond]
    by_cases hc : (p.type != n.type || p.details != n.details) = true
    · rw [if_pos hc, if_pos hc]
      simp [changeView, swapView, swapAction, hp, hn]
    · rw [if_neg hc, if_neg hc]
      rfl


/-- Claim C9: for all entry sets A and B each with unique handles,
`computeAuditChanges (B, A)` contains exactly the same handles as
`computeAuditChanges (A, B)` with `added` and `removed` swapped and `changed`
records carrying swapped before/after fields (stated as an equality of the
projected change lists). -/
theorem claim_C9 (A B : List NormalizedEntry)
    (hA : (A.map (·.handle)).Nodup) (hB : (B.map (·.handle)).Nodup) :
    (computeAuditChanges B A).map changeView =
      (computeAuditChanges A B).map (fun c => swapView (changeView c)) := by
  clear hA hB
  rw [computeAuditChanges_eq, computeAuditChanges_eq]
  rw [List.map_filterMap, List.map_filterMap]
  rw [sortedUnionKeys_comm]
  apply List.filterMap_congr
  intro h _
  exact classifyHandle_swap _ _ h
    (fun v hv => (mapGet_pair_handle hv).1)
    (fun v hv => (mapGet_pair_handle hv).1)


/-- Witness for claim C9 at a concrete pair of entry sets. -/
theorem claim_C9_witness :
    (([({ platform := "github", username := "alice", type := .vouch, details := none,
          handle := "github:alice" } : NormalizedEntry)].map (·.handle)).Nodup ∧
      (([({ platform := "github", username := "alice", type := .denounce,
            details := some "x", handle := "github:alice" } : NormalizedEntry),
         { platform := "github", username := "bob", type := .vouch, details := none,
           handle := "github:bob" }]).map (·.handle)).Nodup) ∧
    (computeAuditChanges
        [{ platform := "github", username := "alice", type := .denounce,
           details := some "x", handle := "github:alice" },
         { platform := "github", username := "bob", type := .vouch, details := none,
           handle := "github:bob" }]
        [{ platform := "github", username := "alice", type := .vouch, details := none,
           handle := "github:alice" }]).map changeView =
      (computeAuditChanges
          [{ platform := "github", username := "alice", type := .vouch, details := none,
             handle := "github:alice" }]
          [{ platform := "github", username := "alice", type := .denounce,
             details := some "x", handle := "github:alice" },
           { platform := "github", username := "bob", type := .vouch, details := none,
             handle := "github:bob" }]).map (fun c => swapView (changeView c)) :=
  ⟨⟨by decide, by decide⟩, claim_C9 _ _ (by decide) (by decide)⟩


theorem applyChangeDelta_spec (cur : LeaderboardDelta) (c : AuditChange) :
    applyChangeDelta cur c =
      { cur with
          vouchedDelta := cur.vouchedDelta + contributionVouched c
          denouncedDelta := cur.denouncedDelta + contributionDenounced c
          repositoriesDelta := cur.repositoriesDelta + contributionRepositories c } := by
  unfold applyChangeDelta applyAddedDelta applyRemovedDelta applyChangedDelta
    contributionVouched contributionDenounced contributionRepositories
  cases hact : c.action <;>
    rcases hbt : c.beforeType with _ | bt <;>
    rcases hat : c.afterType with _ | at2 <;>
    first
      | (cases bt <;> cases at2 <;> simp [typeVouchVec, typeDenounceVec] <;> omega)
      | (cases bt <;> simp [typeVouchVec, typeDenounceVec] <;> omega)
      | (cases at2 <;> simp [typeVouchVec, typeDenounceVec] <;> omega)
      | (simp [typeVouchVec, typeDenounceVec] <;> omega)


theorem jsDedup_append_one (xs : List String) (x : String) :
    jsDedup (xs ++ [x]) = if x ∈ xs then jsDedup xs else jsDedup xs ++ [x] := by
  induction xs with
  | nil => simp [jsDedup]
  | cons a xs ih =>
    have hstep : jsDedup ((a :: xs) ++ [x]) =
        a :: (jsDedup (xs ++ [x])).filter (fun y => y != a) := rfl
    rw [hstep, ih]
    by_cases hx : x ∈ xs
    · rw [if_pos hx, if_pos (List.mem_cons_of_mem a hx)]
      rfl
    · rw [if_neg hx]
      by_cases hxa : x = a
      · subst hxa
        rw [if_pos (List.mem_cons_self x xs)]
        rw [List.filter_append]
        have h1 : List.filter (fun y => y != x) [x] = [] := by simp
        rw [h1, List.append_nil]
        rfl
      · have hnx : x ∉ a :: xs := by simp [hxa, hx]
        rw [if_neg hnx, List.filter_append]
        have h1 : List.filter (fun y => y != a) [x] = [x] := by simp [hxa]
        rw [h1]
        show a :: ((jsDedup xs).filter (fun y => y != a) ++ [x]) =
          (a :: (jsDedup xs).filter (fun y => y != a)) ++ [x]
        simp


theorem mapGet_map_keyed (L : List String) (f : String → α) (h : String) :
    mapGet (L.map (fun k => (k, f k))) h = if h ∈ L then some (f h) else none := by
  induction L with
  | nil => simp [mapGet]
  | cons a L ih =>
    rw [List.map_cons, mapGet_cons]
    by_cases ha : a = h
    · subst ha
      simp
    · simp only [ha, if_false, ih, List.mem_cons]
      by_cases hh : h ∈ L
      · simp [hh, Ne.symm ha]
      · simp [hh, Ne.symm ha]


theorem mapKeys_map_keyed (L : List String) (f : String → α) :
    mapKeys (L.map (fun k => (k, f k))) = L := by
  unfold mapKeys
  rw [List.map_map]
  have hcomp : ((fun (x : String × α) => x.1) ∘ fun k => (k, f k)) = id := rfl
  rw [hcomp, List.map_id]


theorem mapSet_map_keyed_mem (L : List String) (f : String → α) (h : String) (v : α)
    (hmem : h ∈ L) :
    mapSet (L.map (fun k => (k, f k))) h v =
      L.map (fun k => (k, if k = h then v else f k)) := by
  have hany : (L.map (fun k => (k, f k))).any (fun p => p.1 == h) = true := by
    refine List.any_eq_true.2 ⟨(h, f h), List.mem_map_of_mem _ hmem, by simp⟩
  simp only [mapSet, hany, if_true, List.map_map]
  apply List.map_congr_left
  intro k _
  by_cases hk : k = h
  · subst hk
    simp
  · simp [hk]


theorem summedBy_append_one (f : AuditChange → Int) (cs : List AuditChange)
    (c : AuditChange) (h : String) :
    summedBy f (cs ++ [c]) h =
      summedBy f cs h + (if c.handle = h then f c else 0) := by
  unfold summedBy
  rw [List.filter_append, List.map_append, List.sum_append]
  by_cases hc : c.handle = h
  · simp [hc]
  · simp [hc]


theorem firstChangeFor_append_one (cs : List AuditChange) (c : AuditChange) (h : String)
    (hmem : h ∈ cs.map (·.handle)) :
    firstChangeFor (cs ++ [c]) h = firstChangeFor cs h := by
  unfold firstChangeFor
  rw [List.find?_append]
  obtain ⟨c0, hc0, rfl⟩ := List.mem_map.1 hmem
  have : cs.find? (fun c => c.handle == c0.handle) ≠ none := by
    intro hn
    exact absurd (by simp) (List.find?_eq_none.1 hn c0 hc0)
  rcases hfind : cs.find? (fun c => c.handle == c0.handle) with _ | c1
  · exact absurd hfind this
  · rw [hfind]
    rfl


theorem recFor_append_one_ne (cs : List AuditChange) (c : AuditChange) (h : String)
    (hmem : h ∈ cs.map (·.handle)) (hne : c.handle ≠ h) :
    recFor (cs ++ [c]) h = recFor cs h := by
  unfold recFor
  rw [firstChangeFor_append_one cs c h hmem]
  rw [summedBy_append_one, summedBy_append_one, summedBy_append_one]
  simp [hne]


theorem applyChangeDelta_recFor_mem (cs : List AuditChange) (c : AuditChange)
    (hmem : c.handle ∈ cs.map (·.handle)) :
    applyChangeDelta (recFor cs c.handle) c = recFor (cs ++ [c]) c.handle := by
  rw [applyChangeDelta_spec]
  unfold recFor
  rw [firstChangeFor_append_one cs c c.handle hmem]
  rw [summedBy_append_one, summedBy_append_one, summedBy_append_one]
  simp


theorem applyChangeDelta_zeroDelta (cs : List AuditChange) (c : AuditChange)
    (hmem : c.handle ∉ cs.map (·.handle)) :
    applyChangeDelta (zeroDelta c) c = recFor (cs ++ [c]) c.handle := by
  rw [applyChangeDelta_spec]
  have hnone : cs.find? (fun x => x.handle == c.handle) = none := by
    rw [List.find?_eq_none]
    intro x hx
    simp only [beq_iff_eq]
    intro hh
    exact hmem (hh ▸ List.mem_map_of_mem (·.handle) hx)
  have hfilter : cs.filter (fun x => x.handle == c.handle) = [] := by
    rw [List.filter_eq_nil_iff]
    intro x hx
    simp only [beq_iff_eq]
    intro hh
    exact hmem (hh ▸ List.mem_map_of_mem (·.handle) hx)
  have hfirst : firstChangeFor (cs ++ [c]) c.handle = c := by
    unfold firstChangeFor
    rw [List.find?_append, hnone]
    simp [List.find?_cons]
  have hsum : ∀ f, summedBy f (cs ++ [c]) c.handle = f c := by
    intro f
    unfold summedBy
    rw [List.filter_append, hfilter]
    simp [List.filter_cons]
  unfold recFor
  rw [hfirst, hsum, hsum, hsum]
  simp [zeroDelta]


theorem foldl_deltaStep_eq (cs : List AuditChange) :
    cs.foldl deltaStep [] =
      (jsDedup (cs.map (·.handle))).map (fun h => (h, recFor cs h)) := by
  induction cs using List.reverseRecOn with
  | nil => rfl
  | append_singleton cs c ih =>
    rw [List.foldl_append, List.foldl_cons, List.foldl_nil, ih]
    rw [List.map_append, List.map_singleton, jsDedup_append_one]
    show mapSet _ c.handle _ = _
    rw [mapGet_map_keyed]
    by_cases hmem : c.handle ∈ cs.map (·.handle)
    · have hmemd : c.handle ∈ jsDedup (cs.map (·.handle)) := mem_jsDedup.2 hmem
      rw [if_pos hmem, if_pos hmemd]
      simp only [Option.getD_some]
      rw [mapSet_map_keyed_mem _ _ _ _ hmemd]
      apply List.map_congr_left
      intro k hk
      by_cases hkc : k = c.handle
      · subst hkc
        rw [applyChangeDelta_recFor_mem cs c hmem]
        simp
      · rw [if_neg hkc]
        rw [recFor_append_one_ne cs c k (mem_jsDedup.1 hk) (fun hh => hkc hh.symm)]
    · have hmemd : c.handle ∉ jsDedup (cs.map (·.handle)) := fun hh => hmem (mem_jsDedup.1 hh)
      rw [if_neg hmem, if_neg hmemd]
      simp only [Option.getD_none]
      rw [mapSet_of_not_mem (by rw [mapKeys_map_keyed]; exact hmemd)]
      rw [List.map_append]
      congr 1
      · apply List.map_congr_left
        intro k hk
        rw [recFor_append_one_ne cs c k (mem_jsDedup.1 hk)
          (fun hh => hmemd (hh ▸ hk))]
      · rw [List.map_singleton, applyChangeDelta_zeroDelta cs c hmem]


theorem map_filter_eq_filterMap (f : α → β) (q : β → Bool) (L : List α) :
    (L.map f).filter q = L.filterMap (fun a => if q (f a) then some (f a) else none) := by
  induction L with
  | nil => rfl
  | cons a L ih =>
    rw [List.map_cons, List.filter_cons, List.filterMap_cons]
    by_cases hq : q (f a)
    · simp only [hq, if_true, ih]
    · simp only [hq, if_false, ih]
      simp [hq]


theorem computeLeaderboardDeltas_eq_spec (cs : List AuditChange) :
    computeLeaderboardDeltas cs = leaderboardDeltasSpec cs := by
  unfold computeLeaderboardDeltas leaderboardDeltasSpec
  rw [foldl_deltaStep_eq]
  have hvals : mapValues ((jsDedup (cs.map (·.handle))).map (fun h => (h, recFor cs h))) =
      (jsDedup (cs.map (·.handle))).map (recFor cs) := by
    unfold mapValues
    rw [List.map_map]
    rfl
  rw [hvals, map_filter_eq_filterMap]
  apply List.filterMap_congr
  intro h _
  by_cases hz : (recFor cs h).vouchedDelta = 0 ∧ (recFor cs h).denouncedDelta = 0 ∧
      (recFor cs h).repositoriesDelta = 0
  · have hb : ((recFor cs h).vouchedDelta != 0 || (recFor cs h).denouncedDelta != 0 ||
        (recFor cs h).repositoriesDelta != 0) = false := by
      simp [hz.1, hz.2.1, hz.2.2]
    rw [hb]
    simp [hz]
  · have hb : ((recFor cs h).vouchedDelta != 0 || (recFor cs h).denouncedDelta != 0 ||
        (recFor cs h).repositoriesDelta != 0) = true := by
      rcases not_and_or.1 hz with h1 | h2
      · simp [bne_iff_ne, h1]
      · rcases not_and_or.1 h2 with h3 | h4
        · simp [bne_iff_ne, h3]
        · simp [bne_iff_ne, h4]
    rw [hb]
    simp only [if_true]
    rw [if_neg hz]


theorem summedBy_eq_zero_of (f : AuditChange → Int) (cs : List AuditChange) (h : String)
    (hf : ∀ c ∈ cs, c.handle = h → f c = 0) : summedBy f cs h = 0 := by
  unfold summedBy
  apply List.sum_eq_zero
  intro x hx
  obtain ⟨c, hc, rfl⟩ := List.mem_map.1 hx
  have hcf := List.mem_filter.1 hc
  exact hf c hcf.1 (by simpa using hcf.2)


theorem contributions_zero_of_detailsOnly (c : AuditChange) (hc : c.action = .changed)
    (heq : c.beforeType = c.afterType) :
    contributionVouched c = 0 ∧ contributionDenounced c = 0 ∧
      contributionRepositories c = 0 := by
  refine ⟨?_, ?_, ?_⟩ <;>
    simp [contributionVouched, contributionDenounced, contributionRepositories, hc, heq]


/-- Claim C10: every delta returned by `computeLeaderboardDeltas` has at least one
nonzero component; and when every change carrying a handle is a `changed` record
with equal before/after type (a details-only edit), the summed delta for that
handle is all zeros and is filtered out, so no delta for that handle is returned. -/
theorem claim_C10 :
    (∀ cs : List AuditChange, ∀ d ∈ computeLeaderboardDeltas cs,
        d.vouchedDelta ≠ 0 ∨ d.denouncedDelta ≠ 0 ∨ d.repositoriesDelta ≠ 0) ∧
    (∀ (cs : List AuditChange) (h : String),
        (∀ c ∈ cs, c.handle = h → c.action = .changed ∧ c.beforeType = c.afterType) →
        ∀ d ∈ computeLeaderboardDeltas cs, d.handle ≠ h) := by
  constructor
  · intro cs d hd
    unfold computeLeaderboardDeltas at hd
    have hp := (List.mem_filter.1 hd).2
    have := hp
    simp only [bne_iff_ne, Bool.or_eq_true] at this
    tauto
  · intro cs h hall d hd hdh
    rw [computeLeaderboardDeltas_eq_spec] at hd
    unfold leaderboardDeltasSpec at hd
    obtain ⟨h2, hh2, hbody⟩ := List.mem_filterMap.1 hd
    dsimp only at hbody
    by_cases hz : (recFor cs h2).vouchedDelta = 0 ∧ (recFor cs h2).denouncedDelta = 0 ∧
        (recFor cs h2).repositoriesDelta = 0
    · rw [if_pos hz] at hbody
      exact Option.noConfusion hbody
    · rw [if_neg hz] at hbody
      have hdrec : d = recFor cs h2 := (Option.some_inj.1 hbody).symm
      have hh : h2 = h := by
        rw [← hdh, hdrec]
        rfl
      subst hh
      apply hz
      refine ⟨?_, ?_, ?_⟩ <;>
        [ exact summedBy_eq_zero_of _ cs h2
            (fun c hc hch => (contributions_zero_of_detailsOnly c (hall c hc hch).1
              (hall c hc hch).2).1);
          exact summedBy_eq_zero_of _ cs h2
            (fun c hc hch => (contributions_zero_of_detailsOnly c (hall c hc hch).1
              (hall c hc hch).2).2.1);
          exact summedBy_eq_zero_of _ cs h2
            (fun c hc hch => (contributions_zero_of_detailsOnly c (hall c hc hch).1
              (hall c hc hch).2).2.2) ]


/-- Witness for claim C10 at a concrete details-only change list. -/
theorem claim_C10_witness :
    (∀ c ∈ [({ platform := "github", username := "alice", handle := "github:alice"
               action := .changed, beforeType := some .vouch, afterType := some .vouch
               beforeDetails := none, afterDetails := some "note" } : AuditChange)],
        c.handle = "github:alice" → c.action = .changed ∧ c.beforeType = c.afterType) ∧
    (∀ d ∈ computeLeaderboardDeltas
        [({ platform := "github", username := "alice", handle := "github:alice"
            action := .changed, beforeType := some .vouch, afterType := some .vouch
            beforeDetails := none, afterDetails := some "note" } : AuditChange)],
        d.handle ≠ "github:alice") :=
  ⟨by decide, claim_C10.2 _ "github:alice" (by decide)⟩


theorem keepFirst_cons (seen : List String) (e : ExistingTrustEntry)
    (rest : List ExistingTrustEntry) :
    keepFirst seen (e :: rest) =
      if e.handle ∈ seen then keepFirst seen rest
      else e :: keepFirst (e.handle :: seen) rest := rfl


theorem dupIdsFrom_cons (seen : List String) (e : ExistingTrustEntry)
    (rest : List ExistingTrustEntry) :
    dupIdsFrom seen (e :: rest) =
      if e.handle ∈ seen then e.id :: dupIdsFrom seen rest
      else dupIdsFrom (e.handle :: seen) rest := rfl


theorem dedupeLoop_cons (m : List (String × ExistingTrustEntry)) (dups : List Nat)
    (e : ExistingTrustEntry) (rest : List ExistingTrustEntry) :
    dedupeLoop m dups (e :: rest) =
      match mapGet m e.handle with
      | none => dedupeLoop (mapSet m e.handle e) dups rest
      | some _ => dedupeLoop m (dups ++ [e.id]) rest := rfl


theorem keepFirst_congr (l : List ExistingTrustEntry) :
    ∀ (s t : List String), (∀ x, x ∈ s ↔ x ∈ t) → keepFirst s l = keepFirst t l := by
  induction l with
  | nil => intro s t _; rfl
  | cons e rest ih =>
    intro s t hst
    unfold keepFirst
    by_cases hs : e.handle ∈ s
    · rw [if_pos hs, if_pos ((hst _).1 hs)]
      exact ih s t hst
    · rw [if_neg hs, if_neg (fun ht => hs ((hst _).2 ht))]
      congr 1
      apply ih
      intro x
      simp only [List.mem_cons]
      exact or_congr Iff.rfl (hst x)


theorem dupIdsFrom_congr (l : List ExistingTrustEntry) :
    ∀ (s t : List String), (∀ x, x ∈ s ↔ x ∈ t) → dupIdsFrom s l = dupIdsFrom t l := by
  induction l with
  | nil => intro s t _; rfl
  | cons e rest ih =>
    intro s t hst
    unfold dupIdsFrom
    by_cases hs : e.handle ∈ s
    · rw [if_pos hs, if_pos ((hst _).1 hs)]
      congr 1
      exact ih s t hst
    · rw [if_neg hs, if_neg (fun ht => hs ((hst _).2 ht))]
      apply ih
      intro x
      simp only [List.mem_cons]
      exact or_congr Iff.rfl (hst x)


theorem dedupeLoop_eq (l : List ExistingTrustEntry) :
    ∀ (m : List (String × ExistingTrustEntry)) (dups : List Nat),
      dedupeLoop m dups l =
        (m ++ (keepFirst (mapKeys m) l).map (fun e => (e.handle, e)),
         dups ++ dupIdsFrom (mapKeys m) l) := by
  induction l with
  | nil =>
    intro m dups
    simp [dedupeLoop, keepFirst, dupIdsFrom]
  | cons e rest ih =>
    intro m dups
    rcases hget : mapGet m e.handle with _ | v
    · have hm : e.handle ∉ mapKeys m := mapGet_eq_none.1 hget
      have hstep : dedupeLoop m dups (e :: rest) =
          dedupeLoop (mapSet m e.handle e) dups rest := by
        rw [dedupeLoop_cons, hget]
      rw [hstep, ih]
      rw [mapSet_of_not_mem hm]
      have hkeys : mapKeys (m ++ [(e.handle, e)]) = mapKeys m ++ [e.handle] := by
        simp [mapKeys]
      rw [hkeys]
      have hmemiff : ∀ x, x ∈ mapKeys m ++ [e.handle] ↔ x ∈ e.handle :: mapKeys m := by
        intro x
        simp [List.mem_append, List.mem_cons, or_comm]
      rw [keepFirst_congr rest _ _ hmemiff, dupIdsFrom_congr rest _ _ hmemiff]
      have hkf : keepFirst (mapKeys m) (e :: rest) =
          e :: keepFirst (e.handle :: mapKeys m) rest := by
        rw [keepFirst_cons, if_neg hm]
      have hdf : dupIdsFrom (mapKeys m) (e :: rest) =
          dupIdsFrom (e.handle :: mapKeys m) rest := by
        rw [dupIdsFrom_cons, if_neg hm]
      rw [hkf, hdf]
      simp
    · have hm : e.handle ∈ mapKeys m := by
        by_contra hn
        rw [mapGet_eq_none.2 hn] at hget
        exact Option.noConfusion hget
      have hstep : dedupeLoop m dups (e :: rest) =
          dedupeLoop m (dups ++ [e.id]) rest := by
        rw [dedupeLoop_cons, hget]
      rw [hstep, ih]
      have hkf : keepFirst (mapKeys m) (e :: rest) = keepFirst (mapKeys m) rest := by
        rw [keepFirst_cons, if_pos hm]
      have hdf : dupIdsFrom (mapKeys m) (e :: rest) =
          e.id :: dupIdsFrom (mapKeys m) rest := by
        rw [dupIdsFrom_cons, if_pos hm]
      rw [hkf, hdf]
      simp


theorem keepFirst_sublist (seen : List String) (l : List ExistingTrustEntry) :
    (keepFirst seen l).Sublist l := by
  induction l generalizing seen with
  | nil => simp [keepFirst]
  | cons e rest ih =>
    rw [keepFirst_cons]
    by_cases hs : e.handle ∈ seen
    · rw [if_pos hs]
      exact (ih seen).cons e
    · rw [if_neg hs]
      exact (ih (e.handle :: seen)).cons₂ e


theorem mem_keepFirst_handle (seen : List String) (l : List ExistingTrustEntry)
    {e : ExistingTrustEntry} (he : e ∈ keepFirst seen l) : e.handle ∉ seen := by
  induction l generalizing seen with
  | nil => simp [keepFirst] at he
  | cons x rest ih =>
    rw [keepFirst_cons] at he
    by_cases hs : x.handle ∈ seen
    · rw [if_pos hs] at he
      exact ih seen he
    · rw [if_neg hs] at he
      rcases List.mem_cons.1 he with rfl | he2
      · exact hs
      · intro hcon
        exact ih _ he2 (List.mem_cons_of_mem _ hcon)


theorem keepFirst_handles_nodup (seen : List String) (l : List ExistingTrustEntry) :
    ((keepFirst seen l).map (·.handle)).Nodup := by
  induction l generalizing seen with
  | nil => simp [keepFirst]
  | cons e rest ih =>
    rw [keepFirst_cons]
    by_cases hs : e.handle ∈ seen
    · rw [if_pos hs]
      exact ih seen
    · rw [if_neg hs]
      rw [List.map_cons]
      refine List.Nodup.cons ?_ (ih (e.handle :: seen))
      intro hmem
      obtain ⟨x, hx, hxe⟩ := List.mem_map.1 hmem
      exact mem_keepFirst_handle _ _ hx (hxe ▸ List.mem_cons_self _ _)


theorem dupIdsFrom_subset_ids (seen : List String) (l : List ExistingTrustEntry)
    {i : Nat} (hi : i ∈ dupIdsFrom seen l) : i ∈ l.map (·.id) := by
  induction l generalizing seen with
  | nil => simp [dupIdsFrom] at hi
  | cons e rest ih =>
    rw [dupIdsFrom_cons] at hi
    by_cases hs : e.handle ∈ seen
    · rw [if_pos hs] at hi
      rcases List.mem_cons.1 hi with rfl | hi2
      · exact List.mem_map.2 ⟨e, List.mem_cons_self _ _, rfl⟩
      · exact List.mem_cons_of_mem _ (ih seen hi2)
    · rw [if_neg hs] at hi
      exact List.mem_cons_of_mem _ (ih _ hi)


theorem filter_not_dupIds :
    ∀ l : List ExistingTrustEntry, (l.map (·.id)).Nodup →
      ∀ seen : List String,
        l.filter (fun e => !((dupIdsFrom seen l).contains e.id)) = keepFirst seen l := by
  intro l
  induction l with
  | nil => intro _ seen; rfl
  | cons e rest ih =>
    intro hA seen
    rw [List.map_cons] at hA
    have hid : e.id ∉ rest.map (·.id) := (List.nodup_cons.1 hA).1
    have hndrest : (rest.map (·.id)).Nodup := (List.nodup_cons.1 hA).2
    rw [dupIdsFrom_cons, keepFirst_cons]
    by_cases hs : e.handle ∈ seen
    · rw [if_pos hs, if_pos hs]
      rw [List.filter_cons]
      have hhead : (!((e.id :: dupIdsFrom seen rest).contains e.id)) = false := by
        simp [List.contains_cons]
      rw [hhead]
      simp only [Bool.false_eq_true, if_false]
      rw [← ih hndrest seen]
      apply List.filter_congr
      intro x hx
      have hxid : x.id ≠ e.id := by
        intro hcon
        exact hid (hcon ▸ List.mem_map_of_mem (·.id) hx)
      simp [List.contains_cons, hxid]
    · rw [if_neg hs, if_neg hs]
      rw [List.filter_cons]
      have hhead : (!((dupIdsFrom (e.handle :: seen) rest).contains e.id)) = true := by
        have hnot : e.id ∉ dupIdsFrom (e.handle :: seen) rest := by
          intro hcon
          exact hid (dupIdsFrom_subset_ids _ _ hcon)
        simpa using hnot
      rw [hhead]
      simp only [if_true]
      congr 1
      exact ih hndrest (e.handle :: seen)


theorem reconcileLoop_cons (slug snap : String) (ds : List Nat)
    (ps : List (Nat × TrustEntryPatch)) (nm : List (String × TrustEntry))
    (e : ExistingTrustEntry) (rest : List ExistingTrustEntry) :
    reconcileLoop slug snap ds ps nm (e :: rest) =
      match mapGet nm e.handle with
      | none => reconcileLoop slug snap (ds ++ [e.id]) ps nm rest
      | some next =>
        reconcileLoop slug snap ds
          (if needsPatch e next slug snap then ps ++ [(e.id, mkPatch next slug snap)] else ps)
          (mapDelete nm e.handle) rest := rfl


theorem mapGet_mapDelete_of_mem_nm {nm : List (String × TrustEntry)} {k : String}
    {x : ExistingTrustEntry} (hne : x.handle ≠ k) :
    mapGet (mapDelete nm k) x.handle = mapGet nm x.handle :=
  mapGet_mapDelete_ne hne


theorem reconcileLoop_eq (slug snap : String) :
    ∀ (deduped : List ExistingTrustEntry), ((deduped.map (·.handle)).Nodup) →
      ∀ (nm : List (String × TrustEntry)) (ds : List Nat)
        (ps : List (Nat × TrustEntryPatch)),
        reconcileLoop slug snap ds ps nm deduped =
          (ds ++ planDeleteIds nm deduped, ps ++ planPatches slug snap nm deduped,
           remainingNext nm deduped) := by
  intro deduped
  induction deduped with
  | nil =>
    intro _ nm ds ps
    simp [reconcileLoop, planDeleteIds, planPatches, remainingNext]
  | cons e rest ih =>
    intro hnd nm ds ps
    rw [List.map_cons, List.nodup_cons] at hnd
    have hrest : ∀ x ∈ rest, x.handle ≠ e.handle := by
      intro x hx hcon
      exact hnd.1 (hcon ▸ List.mem_map.2 ⟨x, hx, rfl⟩)
    rw [reconcileLoop_cons]
    rcases hget : mapGet nm e.handle with _ | next
    · rw [ih hnd.2 nm (ds ++ [e.id]) ps]
      have hdel : planDeleteIds nm (e :: rest) = e.id :: planDeleteIds nm rest := by
        unfold planDeleteIds
        rw [List.filter_cons]
        simp [hget]
      have hpat : planPatches slug snap nm (e :: rest) = planPatches slug snap nm rest := by
        unfold planPatches
        rw [List.filterMap_cons]
        simp [hget]
      have hrem : remainingNext nm (e :: rest) = remainingNext nm rest := by
        unfold remainingNext
        apply List.filter_congr
        intro p hp
        have hpk : p.1 ≠ e.handle := by
          intro hcon
          have : e.handle ∈ mapKeys nm := hcon ▸ List.mem_map.2 ⟨p, hp, rfl⟩
          rw [mapGet_eq_none] at hget
          exact hget this
        simp [List.contains_cons, hpk]
      rw [hdel, hpat, hrem]
      simp
    · dsimp only
      rw [ih hnd.2 (mapDelete nm e.handle) ds _]
      have hdel : planDeleteIds (mapDelete nm e.handle) rest = planDeleteIds nm rest := by
        unfold planDeleteIds
        congr 1
        apply List.filter_congr
        intro x hx
        rw [mapGet_mapDelete_ne (hrest x hx)]
      have hpat : planPatches slug snap (mapDelete nm e.handle) rest =
          planPatches slug snap nm rest := by
        unfold planPatches
        apply List.filterMap_congr
        intro x hx
        rw [mapGet_mapDelete_ne (hrest x hx)]
      have hrem : remainingNext (mapDelete nm e.handle) rest =
          remainingNext nm (e :: rest) := by
        unfold remainingNext mapDelete
        rw [List.filter_filter]
        apply List.filter_congr
        intro p _
        rw [List.map_cons, List.contains_cons]
        by_cases hpe : p.1 = e.handle
        · simp [hpe]
        · simp [hpe, Bool.and_comm, bne]
      rw [hdel, hpat, hrem]
      have hdel2 : planDeleteIds nm (e :: rest) = planDeleteIds nm rest := by
        unfold planDeleteIds
        rw [List.filter_cons]
        simp [hget]
      have hpat2 : planPatches slug snap nm (e :: rest) =
          (if needsPatch e next slug snap then [(e.id, mkPatch next slug snap)] else []) ++
            planPatches slug snap nm rest := by
        unfold planPatches
        rw [List.filterMap_cons]
        rw [hget]
        by_cases hnp : needsPatch e next slug snap
        · simp [hnp]
        · simp [hnp]
      rw [hdel2, hpat2]
      by_cases hnp : needsPatch e next slug snap
      · simp [hnp]
      · simp [hnp]


/-- Closed form of the planner under unique next handles. -/
theorem planEntryReconciliation_eq (A : List ExistingTrustEntry) (B : List TrustEntry)
    (slug snap : String) (hB : (B.map (·.handle)).Nodup) :
    planEntryReconciliation A B slug snap =
      { duplicateDeleteIds := dupIdsFrom [] A
        deleteIds := planDeleteIds (B.map (fun b => (b.handle, b))) (keepFirst [] A)
        patches := planPatches slug snap (B.map (fun b => (b.handle, b))) (keepFirst [] A)
        inserts := B.filter
          (fun b => !((keepFirst [] A).map (·.handle)).contains b.handle) } := by
  have hdedupe : dedupeLoop [] [] A =
      ((keepFirst [] A).map (fun e => (e.handle, e)), dupIdsFrom [] A) := by
    have h := dedupeLoop_eq A [] []
    simpa [mapKeys] using h
  have hnm : mapOfList (·.handle) B = B.map (fun b => (b.handle, b)) := by
    unfold mapOfList
    have aux : ∀ (l : List TrustEntry) (m : List (String × TrustEntry)),
        (∀ b ∈ l, b.handle ∉ mapKeys m) → (l.map (·.handle)).Nodup →
        l.foldl (fun m e => mapSet m e.handle e) m = m ++ l.map (fun b => (b.handle, b)) := by
      intro l
      induction l with
      | nil => intro m _ _; simp
      | cons b rest ih =>
        intro m hdisj hnd
        rw [List.map_cons, List.nodup_cons] at hnd
        rw [List.foldl_cons]
        rw [mapSet_of_not_mem (hdisj b (List.mem_cons_self _ _))]
        rw [ih (m ++ [(b.handle, b)]) ?_ hnd.2]
        · simp
        · intro x hx
          have h1 : x.handle ∉ mapKeys m := hdisj x (List.mem_cons_of_mem _ hx)
          have h2 : x.handle ≠ b.handle := by
            intro hcon
            exact hnd.1 (hcon ▸ List.mem_map.2 ⟨x, hx, rfl⟩)
          have hk : mapKeys (m ++ [(b.handle, b)]) = mapKeys m ++ [b.handle] := by
            simp [mapKeys]
          rw [hk]
          simp [h1, h2]
    rw [aux B [] (by simp [mapKeys]) hB]
    simp
  have hvals : mapValues ((keepFirst [] A).map (fun e => (e.handle, e))) = keepFirst [] A := by
    unfold mapValues
    rw [List.map_map]
    have hc : ((fun (x : String × ExistingTrustEntry) => x.2) ∘ fun e => (e.handle, e)) = id := rfl
    rw [hc, List.map_id]
  unfold planEntryReconciliation
  dsimp only
  rw [hdedupe, hnm]
  dsimp only
  rw [hvals]
  rw [reconcileLoop_eq slug snap (keepFirst [] A) (keepFirst_handles_nodup [] A)]
  dsimp only
  simp only [List.nil_append]
  congr 1
  unfold remainingNext mapValues
  rw [List.filter_map, List.map_map]
  have hcomp : ((fun (x : String × TrustEntry) => x.2) ∘ fun b => (b.handle, b)) = id := rfl
  rw [hcomp, List.map_id]
  apply List.filter_congr
  intro b _
  rfl


theorem filter_key_eq_find {γ : Type} (f : γ → String) :
    ∀ (l : List γ), ((l.map f).Nodup) → ∀ a : String,
      l.filter (fun x => f x == a) =
        (match l.find? (fun x => f x == a) with
         | some e => [e]
         | none => []) := by
  intro l
  induction l with
  | nil => intro _ a; rfl
  | cons x rest ih =>
    intro hnd a
    rw [List.map_cons, List.nodup_cons] at hnd
    rw [List.filter_cons, List.find?_cons]
    cases hb : (f x == a)
    · simp only [Bool.false_eq_true, if_false]
      exact ih hnd.2 a
    · simp only [if_true]
      have hfa : f x = a := by simpa using hb
      have hrest : rest.filter (fun y => f y == a) = [] := by
        rw [List.filter_eq_nil_iff]
        intro y hy
        simp only [beq_iff_eq]
        intro hcon
        exact hnd.1 (by rw [← hfa] at hcon; exact hcon ▸ List.mem_map.2 ⟨y, hy, hcon.symm ▸ rfl⟩)
      rw [hrest]


theorem mapGet_map_pair {γ : Type} (key : γ → String) :
    ∀ (l : List γ) (k : String),
      mapGet (l.map (fun b => (key b, b))) k = l.find? (fun b => key b == k) := by
  intro l
  induction l with
  | nil => intro k; rfl
  | cons b rest ih =>
    intro k
    rw [List.map_cons, mapGet_cons, List.find?_cons]
    by_cases hk : key b = k
    · have : (key b == k) = true := by simp [hk]
      rw [this]
      simp [hk]
    · have : (key b == k) = false := by simp [hk]
      rw [this]
      simp only [hk, if_false]
      exact ih k


theorem planPatches_cons (slug snap : String) (nm : List (String × TrustEntry))
    (x : ExistingTrustEntry) (rest : List ExistingTrustEntry) :
    planPatches slug snap nm (x :: rest) =
      (match mapGet nm x.handle with
       | none => planPatches slug snap nm rest
       | some next =>
         if needsPatch x next slug snap then
           (x.id, mkPatch next slug snap) :: planPatches slug snap nm rest
         else planPatches slug snap nm rest) := by
  unfold planPatches
  rw [List.filterMap_cons]
  rcases hg : mapGet nm x.handle with _ | nx
  · simp
  · by_cases hnp : needsPatch x nx slug snap
    · simp [hnp]
    · simp [hnp]


theorem planPatches_ids_subset (slug snap : String) (nm : List (String × TrustEntry))
    (D : List ExistingTrustEntry) :
    ∀ q ∈ planPatches slug snap nm D, q.1 ∈ D.map (·.id) := by
  intro q hq
  obtain ⟨e, he, hbody⟩ := List.mem_filterMap.1 hq
  rcases hg : mapGet nm e.handle with _ | n
  · rw [hg] at hbody
    exact Option.noConfusion hbody
  · rw [hg] at hbody
    dsimp only at hbody
    by_cases hnp : needsPatch e n slug snap
    · rw [if_pos hnp] at hbody
      have : q = (e.id, mkPatch n slug snap) := (Option.some_inj.1 hbody).symm
      rw [this]
      exact List.mem_map.2 ⟨e, he, rfl⟩
    · rw [if_neg hnp] at hbody
      exact Option.noConfusion hbody


theorem find?_planPatches (slug snap : String) (nm : List (String × TrustEntry)) :
    ∀ (D : List ExistingTrustEntry), (D.map (·.id)).Nodup →
      ∀ e ∈ D, ∀ n, mapGet nm e.handle = some n →
        (planPatches slug snap nm D).find? (fun p => p.1 == e.id) =
          if needsPatch e n slug snap then some (e.id, mkPatch n slug snap) else none := by
  intro D
  induction D with
  | nil =>
    intro _ e he
    exact absurd he (List.not_mem_nil e)
  | cons x rest ih =>
    intro hnd e he n hget
    rw [List.map_cons, List.nodup_cons] at hnd
    rw [planPatches_cons]
    rcases List.mem_cons.1 he with rfl | he2
    · rw [hget]
      dsimp only
      by_cases hnp : needsPatch e n slug snap
      · rw [if_pos hnp, if_pos hnp]
        rw [List.find?_cons]
        simp
      · rw [if_neg hnp, if_neg hnp]
        rw [List.find?_eq_none]
        intro q hq
        simp only [beq_iff_eq]
        intro hcon
        exact hnd.1 (hcon ▸ planPatches_ids_subset slug snap nm rest q hq)
    · have heid : e.id ∈ rest.map (·.id) := List.mem_map.2 ⟨e, he2, rfl⟩
      have hxid : (x.id == e.id) = false := by
        simp only [beq_eq_false_iff_ne, ne_eq]
        intro hcon
        exact hnd.1 (hcon ▸ heid)
      rcases hgx : mapGet nm x.handle with _ | nx
      · exact ih hnd.2 e he2 n hget
      · dsimp only
        by_cases hnp : needsPatch x nx slug snap
        · rw [if_pos hnp]
          rw [List.find?_cons]
          rw [hxid]
          exact ih hnd.2 e he2 n hget
        · rw [if_neg hnp]
          exact ih hnd.2 e he2 n hget


theorem mem_planDeleteIds_iff (nm : List (String × TrustEntry))
    (D : List ExistingTrustEntry) (hnd : (D.map (·.id)).Nodup)
    (e : ExistingTrustEntry) (he : e ∈ D) :
    e.id ∈ planDeleteIds nm D ↔ mapGet nm e.handle = none := by
  unfold planDeleteIds
  constructor
  · intro hmem
    obtain ⟨e2, he2, hid⟩ := List.mem_map.1 hmem
    have hf := List.mem_filter.1 he2
    have heq : e2 = e := List.inj_on_of_nodup_map hnd hf.1 he hid
    rw [← heq]
    exact Option.isNone_iff_eq_none.1 hf.2
  · intro hnone
    exact List.mem_map.2 ⟨e, List.mem_filter.2 ⟨he, by simp [hnone]⟩, rfl⟩


theorem needsPatch_eq_false_iff (e : ExistingTrustEntry) (n : TrustEntry)
    (slug snap : String) :
    needsPatch e n slug snap = false ↔
      (e.platform = n.platform ∧ e.username = n.username ∧ e.handle = n.handle ∧
       e.type = n.type ∧ e.details = n.details ∧ e.snapshotId = snap ∧
       e.repoSlug = some slug) := by
  unfold needsPatch
  simp only [bne]
  constructor
  · intro hh
    simp only [Bool.or_eq_false_iff, Bool.not_eq_false', beq_iff_eq] at hh
    tauto
  · intro hh
    simp only [Bool.or_eq_false_iff, Bool.not_eq_false', beq_iff_eq]
    tauto


theorem keepRow_eq_insertRowContent (e : ExistingTrustEntry) (n : TrustEntry)
    (slug snap : String) (hnp : needsPatch e n slug snap = false) :
    keepRow e = insertRowContent n slug snap := by
  obtain ⟨h1, h2, h3, h4, h5, h6, h7⟩ := (needsPatch_eq_false_iff e n slug snap).1 hnp
  simp [keepRow, insertRowContent, h1, h2, h3, h4, h5, h6, h7]


theorem patchRowContent_mkPatch (n : TrustEntry) (slug snap : String) :
    patchRowContent (mkPatch n slug snap) = insertRowContent n slug snap := rfl


/-- Claim C1: applying the plan returned by `planEntryReconciliation` to the
existing entries (deleting `duplicateDeleteIds` and `deleteIds`, applying the
patches, inserting the inserts with the target snapshot id and repo slug)
yields an entry set whose rows, looked up by any handle, are exactly the row
contents of the next entry set with that handle, carrying the target snapshot
id and repo slug — so the handles are exactly those of the next set, without
duplicates. -/
theorem claim_C1 (A : List ExistingTrustEntry) (B : List TrustEntry) (slug snap : String)
    (hA : (A.map (·.id)).Nodup) (hB : (B.map (·.handle)).Nodup) (h : String) :
    (applyPlan A (planEntryReconciliation A B slug snap) slug snap).filter
        (fun r => r.handle == h) =
      (match B.find? (fun b => b.handle == h) with
       | some b => [insertRowContent b slug snap]
       | none => []) := by
  rw [planEntryReconciliation_eq A B slug snap hB]
  unfold applyPlan
  dsimp only
  have hDid : ((keepFirst [] A).map (·.id)).Nodup :=
    ((keepFirst_sublist [] A).map (·.id)).nodup hA
  have hDh : ((keepFirst [] A).map (·.handle)).Nodup := keepFirst_handles_nodup [] A
  have hget_eq : ∀ k : String,
      mapGet (B.map (fun b => (b.handle, b))) k = B.find? (fun b => b.handle == k) :=
    mapGet_map_pair (·.handle) B
  have hsurv : A.filter (fun e =>
        !((dupIdsFrom [] A).contains e.id) &&
        !((planDeleteIds (B.map (fun b => (b.handle, b))) (keepFirst [] A)).contains e.id)) =
      (keepFirst [] A).filter (fun e =>
        (mapGet (B.map (fun b => (b.handle, b))) e.handle).isSome) := by
    rw [← List.filter_filter, List.filter_comm]
    rw [filter_not_dupIds A hA []]
    apply List.filter_congr
    intro e he
    rcases hg : mapGet (B.map (fun b => (b.handle, b))) e.handle with _ | n
    · have hmem : e.id ∈ planDeleteIds (B.map (fun b => (b.handle, b))) (keepFirst [] A) :=
        (mem_planDeleteIds_iff _ _ hDid e he).2 hg
      have hc : (planDeleteIds (B.map (fun b => (b.handle, b))) (keepFirst [] A)).contains e.id
          = true := List.elem_eq_true_of_mem hmem
      rw [hg, hc]
      rfl
    · have hmem : e.id ∉ planDeleteIds (B.map (fun b => (b.handle, b))) (keepFirst [] A) := by
        intro hc
        rw [(mem_planDeleteIds_iff _ _ hDid e he).1 hc] at hg
        exact Option.noConfusion hg
      have hc : (planDeleteIds (B.map (fun b => (b.handle, b))) (keepFirst [] A)).contains e.id
          = false := by
        cases hcc : (planDeleteIds (B.map (fun b => (b.handle, b)))
            (keepFirst [] A)).contains e.id
        · rfl
        · exact absurd (List.mem_of_elem_eq_true hcc) hmem
      rw [hg, hc]
      rfl
  rw [hsurv, List.filter_append]
  have hrow : ∀ e ∈ keepFirst [] A, ∀ n,
      mapGet (B.map (fun b => (b.handle, b))) e.handle = some n →
      (match (planPatches slug snap (B.map (fun b => (b.handle, b)))
          (keepFirst [] A)).find? (fun p => p.1 == e.id) with
       | some p => patchRowContent p.2
       | none => keepRow e) = insertRowContent n slug snap := by
    intro e he n hget
    rw [find?_planPatches slug snap _ (keepFirst [] A) hDid e he n hget]
    by_cases hnp : needsPatch e n slug snap
    · rw [if_pos hnp]
      exact patchRowContent_mkPatch n slug snap
    · rw [if_neg hnp]
      exact keepRow_eq_insertRowContent e n slug snap
        (by revert hnp; cases needsPatch e n slug snap <;> simp)
  have hrowhandle : ∀ e ∈ keepFirst [] A, ∀ n,
      mapGet (B.map (fun b => (b.handle, b))) e.handle = some n → n.handle = e.handle := by
    intro e _ n hget
    rw [hget_eq e.handle] at hget
    simpa using List.find?_some hget
  -- part I: the rows coming from surviving existing entries
  rw [List.filter_map]
  have hpred1 : ((keepFirst [] A).filter (fun e =>
      (mapGet (B.map (fun b => (b.handle, b))) e.handle).isSome)).filter
        ((fun r => r.handle == h) ∘ (fun e =>
          match (planPatches slug snap (B.map (fun b => (b.handle, b)))
              (keepFirst [] A)).find? (fun p => p.1 == e.id) with
          | some p => patchRowContent p.2
          | none => keepRow e)) =
      ((keepFirst [] A).filter (fun e =>
        (mapGet (B.map (fun b => (b.handle, b))) e.handle).isSome)).filter
        (fun e => e.handle == h) := by
    apply List.filter_congr
    intro e he
    have hef := List.mem_filter.1 he
    obtain ⟨n, hn⟩ := Option.isSome_iff_exists.1 hef.2
    have := hrow e hef.1 n hn
    simp only [Function.comp]
    rw [this]
    have hnh : n.handle = e.handle := hrowhandle e hef.1 n hn
    simp [insertRowContent, hnh]
  rw [hpred1, List.filter_comm]
  rw [filter_key_eq_find (·.handle) (keepFirst [] A) hDh h]
  -- part II: the rows coming from inserts
  rw [List.filter_map]
  have hpred2 : (B.filter (fun b =>
        !(((keepFirst [] A).map (·.handle)).contains b.handle))).filter
        ((fun r => r.handle == h) ∘ (fun n => insertRowContent n slug snap)) =
      (B.filter (fun b =>
        !(((keepFirst [] A).map (·.handle)).contains b.handle))).filter
        (fun b => b.handle == h) := by
    apply List.filter_congr
    intro b _
    rfl
  rw [hpred2, List.filter_comm]
  rw [filter_key_eq_find (·.handle) B hB h]
  rcases hBf : B.find? (fun b => b.handle == h) with _ | b
  · -- no next entry with this handle
    rcases hDf : (keepFirst [] A).find? (fun e => e.handle == h) with _ | e0
    · rw [hBf, hDf]
      simp
    · rw [hBf, hDf]
      have he0 : e0 ∈ keepFirst [] A := List.mem_of_find?_eq_some hDf
      have he0h : e0.handle = h := by simpa using List.find?_some hDf
      have hnone : mapGet (B.map (fun b => (b.handle, b))) e0.handle = none := by
        rw [hget_eq, he0h, hBf]
      simp [hnone]
  · -- next entry b carries this handle
    have hbh : b.handle = h := by simpa using List.find?_some hBf
    rcases hDf : (keepFirst [] A).find? (fun e => e.handle == h) with _ | e0
    · -- handle absent from surviving existing entries: it is inserted
      rw [hBf, hDf]
      have hnotin : h ∉ (keepFirst [] A).map (·.handle) := by
        intro hmem
        obtain ⟨e, he, heh⟩ := List.mem_map.1 hmem
        have := List.find?_eq_none.1 hDf e he
        simp [heh] at this
      have hnotin2 : ¬∃ a ∈ keepFirst [] A, a.handle = b.handle := by
        rintro ⟨a, ha, hah⟩
        exact hnotin (by rw [← hbh, ← hah]; exact List.mem_map.2 ⟨a, ha, rfl⟩)
      simp [hnotin2]
    · -- handle survives: its row is patched or kept equal to b's content
      rw [hBf, hDf]
      have he0 : e0 ∈ keepFirst [] A := List.mem_of_find?_eq_some hDf
      have he0h : e0.handle = h := by simpa using List.find?_some hDf
      have hsome : mapGet (B.map (fun b => (b.handle, b))) e0.handle = some b := by
        rw [hget_eq, he0h, hBf]
      have hin : ∃ a ∈ keepFirst [] A, a.handle = b.handle := ⟨e0, he0, by rw [he0h, hbh]⟩
      have hrowe0 := hrow e0 he0 b hsome
      simp [hsome, hin, hrowe0]


/-- Witness for claim C1 at the repository's own unit-test data. -/
theorem claim_C1_witness :
    ((([({ id := 0, snapshotId := "snap-1", repoSlug := some "foo/bar", platform := "github",
           username := "alice", handle := "github:alice", type := .vouch,
           details := none } : ExistingTrustEntry),
         { id := 1, snapshotId := "snap-1", repoSlug := some "foo/bar", platform := "github",
           username := "bob", handle := "github:bob", type := .vouch,
           details := none }]).map (·.id)).Nodup ∧
      (([({ platform := "github", username := "alice", handle := "github:alice",
            type := .denounce, details := some "updated" } : TrustEntry),
          { platform := "github", username := "charlie", handle := "github:charlie",
            type := .vouch, details := none }]).map (·.handle)).Nodup) ∧
    (applyPlan
        [{ id := 0, snapshotId := "snap-1", repoSlug := some "foo/bar", platform := "github",
           username := "alice", handle := "github:alice", type := .vouch, details := none },
         { id := 1, snapshotId := "snap-1", repoSlug := some "foo/bar", platform := "github",
           username := "bob", handle := "github:bob", type := .vouch, details := none }]
        (planEntryReconciliation
          [{ id := 0, snapshotId := "snap-1", repoSlug := some "foo/bar", platform := "github",
             username := "alice", handle := "github:alice", type := .vouch, details := none },
           { id := 1, snapshotId := "snap-1", repoSlug := some "foo/bar", platform := "github",
             username := "bob", handle := "github:bob", type := .vouch, details := none }]
          [{ platform := "github", username := "alice", handle := "github:alice",
             type := .denounce, details := some "updated" },
           { platform := "github", username := "charlie", handle := "github:charlie",
             type := .vouch, details := none }]
          "foo/bar" "snap-2")
        "foo/bar" "snap-2").filter (fun r => r.handle == "github:alice") =
      (match
          ([({ platform := "github", username := "alice", handle := "github:alice",
               type := .denounce, details := some "updated" } : TrustEntry),
             { platform := "github", username := "charlie", handle := "github:charlie",
               type := .vouch, details := none }]).find?
            (fun b => b.handle == "github:alice") with
       | some b => [insertRowContent b "foo/bar" "snap-2"]
       | none => []) :=
  ⟨⟨by decide, by decide⟩,
    claim_C1 _ _ "foo/bar" "snap-2" (by decide) (by decide) "github:alice"⟩


theorem lastValueFor_append_one (rs : List (String × α)) (d : α) (p : String × α)
    (k : String) :
    lastValueFor (rs ++ [p]) d k = if k = p.1 then p.2 else lastValueFor rs d k := by
  unfold lastValueFor
  rw [List.reverse_append]
  simp only [List.reverse_singleton, List.singleton_append, List.find?_cons]
  cases hb : (p.1 == k)
  · have : ¬k = p.1 := fun hc => by simp [hc] at hb
    simp [this]
  · have : k = p.1 := by
      have := beq_iff_eq.1 hb
      exact this.symm
    simp [this]


theorem foldl_mapSet_lastWins (d : α) (rs : List (String × α)) :
    rs.foldl (fun m p => mapSet m p.1 p.2) [] =
      (jsDedup (rs.map (·.1))).map (fun k => (k, lastValueFor rs d k)) := by
  induction rs using List.reverseRecOn with
  | nil => rfl
  | append_singleton rs p ih =>
    rw [List.foldl_append, List.foldl_cons, List.foldl_nil, ih]
    rw [List.map_append, List.map_singleton, jsDedup_append_one]
    by_cases hmem : p.1 ∈ rs.map (·.1)
    · rw [if_pos hmem]
      have hmemd : p.1 ∈ jsDedup (rs.map (·.1)) := mem_jsDedup.2 hmem
      rw [mapSet_map_keyed_mem _ _ _ _ hmemd]
      apply List.map_congr_left
      intro k hk
      rw [lastValueFor_append_one]
    · rw [if_neg hmem]
      have hmemd : p.1 ∉ jsDedup (rs.map (·.1)) := fun hc => hmem (mem_jsDedup.1 hc)
      rw [mapSet_of_not_mem (by rw [mapKeys_map_keyed]; exact hmemd)]
      rw [List.map_append, List.map_singleton]
      congr 1
      · apply List.map_congr_left
        intro k hk
        rw [lastValueFor_append_one]
        have : ¬k = p.1 := fun hc => hmemd (hc ▸ hk)
        simp [this]
      · rw [lastValueFor_append_one]
        simp [lastValueFor]


theorem mapValues_map_keyed (L : List String) (f : String → α) :
    mapValues (L.map (fun k => (k, f k))) = L.map f := by
  unfold mapValues
  rw [List.map_map]
  rfl


theorem filterMap_eq_map_of (L : List β) (g : β → Option γ) (f : β → γ)
    (h : ∀ b ∈ L, g b = some (f b)) : L.filterMap g = L.map f := by
  induction L with
  | nil => rfl
  | cons x rest ih =>
    rw [List.filterMap_cons, List.map_cons, h x (List.mem_cons_self _ _)]
    rw [ih (fun b hb => h b (List.mem_cons_of_mem _ hb))]


theorem foldl_parse_lines (lines : List String) :
    ∀ m : List (String × ParsedEntry),
      lines.foldl (fun m rawLine =>
          let line := jsTrim rawLine
          if line = "" || jsStartsWithChar line '#' then m
          else
            match parseLine line with
            | none => m
            | some (key, entry) => mapSet m key entry) m
        = (lines.filterMap (fun rawLine =>
            let line := jsTrim rawLine
            if line = "" || jsStartsWithChar line '#' then none
            else parseLine line)).foldl (fun m p => mapSet m p.1 p.2) m := by
  induction lines with
  | nil => intro m; rfl
  | cons l rest ih =>
    intro m
    rw [List.foldl_cons, List.filterMap_cons]
    dsimp only
    by_cases hskip : (jsTrim l = "" || jsStartsWithChar (jsTrim l) '#') = true
    · rw [if_pos hskip, if_pos hskip]
      exact ih m
    · rw [if_neg hskip, if_neg hskip]
      rcases hparse : parseLine (jsTrim l) with _ | kv
      · exact ih m
      · rw [List.foldl_cons]
        exact ih (mapSet m kv.1 kv.2)


/-- Counterexample to claim C4 as stated: on `"github:a:b"` the code's
`split(":", 2)` discards `:b`, while the reference algorithm's split on the
first colon keeps the username `a:b`. -/
theorem claim_C4_counterexample :
    parseTrustdown "github:a:b" ≠ specParseTrustdown "github:a:b" := by
  decide


/-- The sort-of-deduped-map-values form equals the specification's
last-occurrence aggregation, for any keyed record list. -/
theorem specAggregate_foldl (RS : List (String × ParsedEntry)) :
    jsSort
      (fun a b => stringLe (a.platform ++ ":" ++ a.username) (b.platform ++ ":" ++ b.username))
      (mapValues (RS.foldl (fun m p => mapSet m p.1 p.2) [])) = specAggregate RS := by
  rw [foldl_mapSet_lastWins (⟨"", "", EntryType.vouch, none⟩ : ParsedEntry)]
  rw [mapValues_map_keyed]
  unfold specAggregate
  congr 1
  rw [filterMap_eq_map_of _ _ (lastValueFor RS (⟨"", "", EntryType.vouch, none⟩ : ParsedEntry))]
  intro k hk
  have hmem : k ∈ RS.map (·.1) := mem_jsDedup.1 hk
  obtain ⟨pr, hpr, hprk⟩ := List.mem_map.1 hmem
  have hprrev : pr ∈ RS.reverse := List.mem_reverse.2 hpr
  have hsome : (RS.reverse.find? (fun p => p.1 == k)).isSome := by
    rw [List.find?_isSome]
    exact ⟨pr, hprrev, by simp [hprk]⟩
  obtain ⟨v, hv⟩ := Option.isSome_iff_exists.1 hsome
  rw [hv]
  unfold lastValueFor
  rw [hv]
  rfl


/-- Claim C4 as amended: `parseTrustdown` equals the reference algorithm with
the code's own line parsing (split-limit-2 colon handling; the line pattern
fails when the details contain a line terminator): skip blank and `#` lines,
`-` marks denounce, records keyed by `platform:username` with the last
occurrence winning, output sorted lexicographically by key, parsing never
fails; and the file `"@alice\n- bob note"` parses to the two expected
records. -/
theorem claim_C4 :
    (∀ input : String, parseTrustdown input = specParseTrustdownAmended input) ∧
    parseTrustdown "@alice\n- bob note" =
      [{ platform := "github", username := "alice", type := .vouch, details := none },
       { platform := "github", username := "bob", type := .denounce,
         details := some "note" }] := by
  constructor
  · intro input
    show jsSort
      (fun a b => stringLe (a.platform ++ ":" ++ a.username) (b.platform ++ ":" ++ b.username))
      (mapValues ((splitLines input).foldl
        (fun m rawLine =>
          let line := jsTrim rawLine
          if line = "" || jsStartsWithChar line '#' then m
          else
            match parseLine line with
            | none => m
            | some (key, entry) => mapSet m key entry)
        [])) = specParseTrustdownAmended input
    rw [foldl_parse_lines]
    exact specAggregate_foldl (specLineRecords parseLine input)
  · decide


theorem applyLeaderboardDelta_eq_spec (rows : List LeaderboardRow) (nextId now : Nat)
    (delta : LeaderboardDelta) (hid : (rows.map (fun r => r.id)).Nodup)
    (hh : (rows.map (fun r => r.handle)).Nodup) :
    applyLeaderboardDelta rows nextId now delta =
      applyLeaderboardDeltaSpec rows nextId now delta := by
  unfold applyLeaderboardDelta applyLeaderboardDeltaSpec
  cases hf : rows.find? (fun r => r.handle == delta.handle) with
  | none =>
    have hall : ∀ x ∈ rows, (!(x.handle == delta.handle)) = true := by
      intro x hx
      have := List.find?_eq_none.1 hf x hx
      simpa using this
    dsimp only
    split_ifs with hcond
    · rw [List.filter_eq_self.2 hall]
    · rfl
  | some r =>
    have hr : r ∈ rows := List.mem_of_find?_eq_some hf
    have hrh : r.handle = delta.handle := by
      have := List.find?_some hf
      exact beq_iff_eq.1 this
    have hpoint : ∀ x ∈ rows, (x.id == r.id) = (x.handle == delta.handle) := by
      intro x hx
      by_cases hxr : x = r
      · subst hxr
        simp [hrh]
      · have h1 : x.id ≠ r.id := fun hc =>
          hxr (List.inj_on_of_nodup_map hid hx hr hc)
        have h2 : x.handle ≠ delta.handle := fun hc =>
          hxr (List.inj_on_of_nodup_map hh hx hr (hc.trans hrh.symm))
        simp [h1, h2]
    dsimp only
    split_ifs with hcond
    · refine congrArg (fun l => (l, nextId)) (List.filter_congr ?_)
      intro x hx
      rw [hpoint x hx]
    · refine congrArg (fun l => (l, nextId)) (List.map_congr_left ?_)
      intro x hx
      rw [hpoint x hx]


/-- Claim C5: the per-change delta rules (added: `+1` matching type count and
`+1` repositories; removed: `-1` and `-1`; changed: `-1` prior type, `+1` new
type, repositories unaffected) summed per handle, and the handle-keyed
read/add/clamp/delete-or-upsert application of each delta. -/
theorem claim_C5 :
    (∀ cs : List AuditChange, computeLeaderboardDeltas cs = leaderboardDeltasSpec cs) ∧
    (∀ (rows : List LeaderboardRow) (nextId now : Nat) (delta : LeaderboardDelta),
      (rows.map (fun r => r.id)).Nodup → (rows.map (fun r => r.handle)).Nodup →
      applyLeaderboardDelta rows nextId now delta =
        applyLeaderboardDeltaSpec rows nextId now delta) :=
  ⟨computeLeaderboardDeltas_eq_spec, applyLeaderboardDelta_eq_spec⟩


theorem claim_C5_witness :
    (computeLeaderboardDeltas
      [{ platform := "github", username := "alice", handle := "github:alice"
         action := ChangeAction.added, beforeType := none, afterType := some EntryType.vouch
         beforeDetails := none, afterDetails := none }] =
      leaderboardDeltasSpec
      [{ platform := "github", username := "alice", handle := "github:alice"
         action := ChangeAction.added, beforeType := none, afterType := some EntryType.vouch
         beforeDetails := none, afterDetails := none }]) ∧
    applyLeaderboardDelta
      [{ id := 3, platform := "github", username := "alice", handle := "github:alice"
         vouchedCount := 1, denouncedCount := 0, repositories := 1, score := 1
         updatedAt := 10 }] 5 20
      { platform := "github", username := "alice", handle := "github:alice"
        vouchedDelta := 1, denouncedDelta := 0, repositoriesDelta := 1 } =
    applyLeaderboardDeltaSpec
      [{ id := 3, platform := "github", username := "alice", handle := "github:alice"
         vouchedCount := 1, denouncedCount := 0, repositories := 1, score := 1
         updatedAt := 10 }] 5 20
      { platform := "github", username := "alice", handle := "github:alice"
        vouchedDelta := 1, denouncedDelta := 0, repositoriesDelta := 1 } :=
  ⟨claim_C5.1 _,
   claim_C5.2 _ 5 20 _ (by decide) (by decide)⟩


theorem contentFrame_refl (a : Db) : contentFrame a a :=
  ⟨rfl, rfl, rfl, rfl, rfl, rfl⟩


theorem contentFrame_trans {a b c : Db} (h1 : contentFrame a b) (h2 : contentFrame b c) :
    contentFrame a c :=
  ⟨h1.1.trans h2.1, h1.2.1.trans h2.2.1, h1.2.2.1.trans h2.2.2.1,
   h1.2.2.2.1.trans h2.2.2.2.1, h1.2.2.2.2.1.trans h2.2.2.2.2.1,
   h1.2.2.2.2.2.trans h2.2.2.2.2.2⟩


theorem rateLimitStep_contentFrame (db : Db) (now : Nat) (key : String) (maxR : Nat) :
    contentFrame (rateLimitStep db now key maxR).1 db := by
  unfold rateLimitStep
  cases h : db.indexRateBuckets.find? (fun b => b.key == key) with
  | none => exact contentFrame_refl db
  | some bucket =>
    dsimp only
    split_ifs with h1
    · exact contentFrame_refl db
    · exact contentFrame_refl db


theorem rateLimitStep_locks (db : Db) (now : Nat) (key : String) (maxR : Nat) :
    (rateLimitStep db now key maxR).1.repoIndexLocks = db.repoIndexLocks := by
  unfold rateLimitStep
  cases h : db.indexRateBuckets.find? (fun b => b.key == key) with
  | none => rfl
  | some bucket =>
    dsimp only
    split_ifs with h1
    · rfl
    · rfl


theorem lockPhase_contentFrame (db : Db) (now : Nat) (repo : String) :
    contentFrame (lockPhase db now repo).1 db := by
  unfold lockPhase
  cases h : db.repoIndexLocks.find? (fun l => l.repo == repo) with
  | none => exact contentFrame_refl db
  | some lock =>
    dsimp only
    split_ifs with h1
    · exact contentFrame_refl db
    · exact contentFrame_refl db


theorem lockPhase_err_status (db : Db) (now : Nat) (repo : String) (st : Nat) (m : String)
    (h : (lockPhase db now repo).2 = PermitResult.err st m) : st = 409 := by
  unfold lockPhase at h
  cases hf : db.repoIndexLocks.find? (fun l => l.repo == repo) with
  | none =>
    rw [hf] at h
    simp at h
  | some lock =>
    rw [hf] at h
    dsimp only at h
    by_cases h1 : lock.expiresAt > now
    · rw [if_pos h1] at h
      dsimp only at h
      rw [PermitResult.err.injEq] at h
      exact h.1.symm
    · rw [if_neg h1] at h
      dsimp only at h
      exact absurd h (by simp)


theorem lockPhase_err_eq (db : Db) (now : Nat) (repo : String) (st : Nat) (m : String)
    (h : (lockPhase db now repo).2 = PermitResult.err st m) :
    (lockPhase db now repo).1 = db := by
  unfold lockPhase at h ⊢
  cases hf : db.repoIndexLocks.find? (fun l => l.repo == repo) with
  | none =>
    rw [hf] at h
    simp at h
  | some lock =>
    rw [hf] at h
    dsimp only at h ⊢
    by_cases h1 : lock.expiresAt > now
    · rw [if_pos h1]
    · rw [if_neg h1] at h
      dsimp only at h
      exact absurd h (by simp)


theorem pruneLocks_sublist (now : Nat) (rows : List LockRow) :
    (pruneLocks now rows).Sublist rows := by
  unfold pruneLocks
  exact List.filter_sublist rows


theorem rateGate_locks (d : Db) (now : Nat) (repo req : String) :
    (rateGate d now repo req).1.repoIndexLocks = d.repoIndexLocks := by
  unfold rateGate
  dsimp only
  split_ifs <;> simp only [rateLimitStep_locks]


theorem rateGate_contentFrame (d : Db) (now : Nat) (repo req : String) :
    contentFrame (rateGate d now repo req).1 d := by
  unfold rateGate
  dsimp only
  split_ifs <;>
    first
    | exact rateLimitStep_contentFrame _ _ _ _
    | exact contentFrame_trans (rateLimitStep_contentFrame _ _ _ _)
        (rateLimitStep_contentFrame _ _ _ _)
    | exact contentFrame_trans (rateLimitStep_contentFrame _ _ _ _)
        (contentFrame_trans (rateLimitStep_contentFrame _ _ _ _)
          (rateLimitStep_contentFrame _ _ _ _))


theorem rateGate_some_429 (d : Db) (now : Nat) (repo req : String) (e : PermitResult)
    (h : (rateGate d now repo req).2 = some e) :
    ∃ mm, e = PermitResult.err 429 mm := by
  unfold rateGate at h
  dsimp only at h
  split_ifs at h <;> simp at h <;>
    first
    | exact ⟨_, h⟩
    | exact ⟨_, h.symm⟩


theorem acquireTail_contentFrame (d2 : Db) (now : Nat) (repo req : String) (sk : Bool) :
    contentFrame (acquireTail d2 now repo req sk).1 d2 := by
  unfold acquireTail
  by_cases hsk : sk = true
  · rw [if_pos hsk]
    exact lockPhase_contentFrame _ _ _
  · rw [if_neg hsk]
    dsimp only
    cases hg : (rateGate d2 now repo req).2 with
    | none =>
      exact contentFrame_trans (lockPhase_contentFrame _ _ _) (rateGate_contentFrame _ _ _ _)
    | some e =>
      exact rateGate_contentFrame _ _ _ _


theorem acquireTail_status (d2 : Db) (now : Nat) (repo req : String) (sk : Bool)
    (st : Nat) (m : String)
    (h : (acquireTail d2 now repo req sk).2 = PermitResult.err st m) :
    st = 409 ∨ st = 429 := by
  unfold acquireTail at h
  by_cases hsk : sk = true
  · rw [if_pos hsk] at h
    exact Or.inl (lockPhase_err_status _ _ _ _ _ h)
  · rw [if_neg hsk] at h
    dsimp only at h
    cases hg : (rateGate d2 now repo req).2 with
    | none =>
      rw [hg] at h
      dsimp only at h
      exact Or.inl (lockPhase_err_status _ _ _ _ _ h)
    | some e =>
      rw [hg] at h
      dsimp only at h
      obtain ⟨mm, hmm⟩ := rateGate_some_429 _ _ _ _ _ hg
      rw [hmm] at h
      rw [PermitResult.err.injEq] at h
      exact Or.inr h.1.symm


theorem acquireTail_err_locks (d2 : Db) (now : Nat) (repo req : String) (sk : Bool)
    (st : Nat) (m : String)
    (h : (acquireTail d2 now repo req sk).2 = PermitResult.err st m) :
    (acquireTail d2 now repo req sk).1.repoIndexLocks = d2.repoIndexLocks := by
  unfold acquireTail at h ⊢
  by_cases hsk : sk = true
  · rw [if_pos hsk] at h ⊢
    rw [lockPhase_err_eq _ _ _ _ _ h]
  · rw [if_neg hsk] at h ⊢
    dsimp only at h ⊢
    cases hg : (rateGate d2 now repo req).2 with
    | none =>
      rw [hg] at h
      dsimp only at h ⊢
      rw [lockPhase_err_eq _ _ _ _ _ h]
      exact rateGate_locks _ _ _ _
    | some e =>
      rw [hg] at h
      dsimp only
      exact rateGate_locks _ _ _ _


/-- Counterexample to claim C6 as stated: a rate-limited refusal still mutates
the store (the per-window counter is incremented before the limit comparison,
and expired guard rows are pruned before any check). -/
theorem claim_C6_counterexample :
    (acquireIndexPermit dbC6 1 "o/r" "alice" false).2 =
      PermitResult.err 429
        "Too many indexing attempts from this client. Please wait and retry." ∧
    (acquireIndexPermit dbC6 1 "o/r" "alice" false).1 ≠ dbC6 := by
  decide


/-- Claim C6 as amended: a refusal of `acquireIndexPermit` never touches the
content tables (repositories, entries, snapshots, audit blocks, audit changes,
leaderboard rows); a `400` refusal leaves the whole store untouched; and on any
refusal the lock table only loses (expired) rows — the refusal itself creates
or patches no lock. The rate-bucket table, however, is mutated on `429`/`409`
refusals: expired buckets are pruned and window counters are updated. -/
theorem claim_C6 (db : Db) (now : Nat) (repoArg requesterArg : String) (skip : Bool) :
    contentFrame (acquireIndexPermit db now repoArg requesterArg skip).1 db ∧
    (∀ m, (acquireIndexPermit db now repoArg requesterArg skip).2 =
        PermitResult.err 400 m →
      (acquireIndexPermit db now repoArg requesterArg skip).1 = db) ∧
    (∀ st m, (acquireIndexPermit db now repoArg requesterArg skip).2 =
        PermitResult.err st m →
      (acquireIndexPermit db now repoArg requesterArg skip).1.repoIndexLocks.Sublist
        db.repoIndexLocks) := by
  unfold acquireIndexPermit
  dsimp only
  split_ifs with h1 h2
  · exact ⟨contentFrame_refl db, fun m _ => rfl, fun st m _ => List.Sublist.refl _⟩
  · exact ⟨contentFrame_refl db, fun m _ => rfl, fun st m _ => List.Sublist.refl _⟩
  · refine ⟨?_, ?_, ?_⟩
    · exact contentFrame_trans (acquireTail_contentFrame _ _ _ _ _)
        ⟨rfl, rfl, rfl, rfl, rfl, rfl⟩
    · intro m hm
      rcases acquireTail_status _ _ _ _ _ _ _ hm with h | h
      · exact absurd h (by decide)
      · exact absurd h (by decide)
    · intro st m hm
      rw [acquireTail_err_locks _ _ _ _ _ _ _ hm]
      exact pruneLocks_sublist now db.repoIndexLocks


theorem claim_C6_witness :
    contentFrame (acquireIndexPermit dbC6 1 "o/r" "alice" false).1 dbC6 ∧
    (acquireIndexPermit dbC6 1 "o/r" "alice" false).1.repoIndexLocks.Sublist
      dbC6.repoIndexLocks :=
  ⟨(claim_C6 dbC6 1 "o/r" "alice" false).1,
   (claim_C6 dbC6 1 "o/r" "alice" false).2.2 429
     "Too many indexing attempts from this client. Please wait and retry." (by decide)⟩


/-! Claim C8: the idempotent short-circuit of `indexGithubRepo`. -/

theorem find?_map_pred {γ : Type} (l : List γ) (f : γ → γ) (p : γ → Bool)
    (hf : ∀ x, p (f x) = p x) : (l.map f).find? p = (l.find? p).map f := by
  induction l with
  | nil => rfl
  | cons a as ih =>
    rw [List.map_cons]
    cases hpa : p a
    · rw [List.find?_cons_of_neg _ (by simp [hf, hpa]),
        List.find?_cons_of_neg _ (by simp [hpa])]
      exact ih
    · rw [List.find?_cons_of_pos _ (by simp [hf, hpa]),
        List.find?_cons_of_pos _ (by simp [hpa])]
      rfl


/-- Counterexample to claim C8 as stated: with an empty commit identifier the
code skips the `isSnapshotUnchanged` short-circuit even though the repository
is indexed and the fetched commit identifier and file path match the stored
snapshot exactly — the full pipeline runs (here it even appends an audit
block). -/
theorem claim_C8_counterexample :
    getRepositorySnapshotMeta dbC8 "o/r" =
      some (RepoStatus.indexed, some fcC8.commitSha, some fcC8.selectedPath) ∧
    (indexCore dbC8 5 "o/r" "o" "r" "main" fcC8).2.skippedNoChanges = false ∧
    (indexCore dbC8 5 "o/r" "o" "r" "main" fcC8).1.auditBlocks ≠ dbC8.auditBlocks :=
  ⟨rfl, rfl, by decide⟩


/-- Claim C8 as amended: when additionally the fetched commit identifier is
non-empty, the short-circuit holds — the call returns the indexed/skipped
result with zero counts, mutates nothing but the repository row (whose status
becomes `indexed` with the last-attempt timestamp refreshed), and leaves
entries, snapshots, audit blocks, audit changes, leaderboard rows, guard
tables and the fresh-id counter unchanged. -/
theorem claim_C8 (db : Db) (now : Nat) (slug owner name defaultBranch : String)
    (f : FetchedFile) (hsha : f.commitSha ≠ "")
    (hmeta : getRepositorySnapshotMeta db slug =
      some (RepoStatus.indexed, some f.commitSha, some f.selectedPath)) :
    (indexCore db now slug owner name defaultBranch f).2 =
      { status := "indexed", entriesIndexed := 0, changesDetected := 0
        auditRecorded := false, skippedNoChanges := true } ∧
    (indexCore db now slug owner name defaultBranch f).1.entries = db.entries ∧
    (indexCore db now slug owner name defaultBranch f).1.snapshots = db.snapshots ∧
    (indexCore db now slug owner name defaultBranch f).1.auditBlocks = db.auditBlocks ∧
    (indexCore db now slug owner name defaultBranch f).1.auditChanges = db.auditChanges ∧
    (indexCore db now slug owner name defaultBranch f).1.leaderboardRows =
      db.leaderboardRows ∧
    (indexCore db now slug owner name defaultBranch f).1.indexRateBuckets =
      db.indexRateBuckets ∧
    (indexCore db now slug owner name defaultBranch f).1.repoIndexLocks =
      db.repoIndexLocks ∧
    (indexCore db now slug owner name defaultBranch f).1.nextId = db.nextId ∧
    ((indexCore db now slug owner name defaultBranch f).1.repositories.find?
        (fun x => x.slug == slug)).map (fun x => (x.status, x.lastIndexedAt)) =
      some (RepoStatus.indexed, now) := by
  obtain ⟨repo, hrf⟩ : ∃ repo, db.repositories.find? (fun r => r.slug == slug) = some repo := by
    unfold getRepositorySnapshotMeta at hmeta
    cases hf : db.repositories.find? (fun r => r.slug == slug) with
    | none =>
      rw [hf] at hmeta
      simp at hmeta
    | some repo => exact ⟨repo, rfl⟩
  unfold indexCore
  dsimp only
  rw [hmeta]
  dsimp only
  rw [if_pos (by simp [hsha])]
  unfold setRepositoryStatus
  rw [hrf]
  dsimp only
  refine ⟨rfl, rfl, rfl, rfl, rfl, rfl, rfl, rfl, rfl, ?_⟩
  rw [find?_map_pred _ _ _ (fun x => by
    by_cases hx : (x.id == repo.id) = true
    · rw [if_pos hx]
    · rw [if_neg hx])]
  rw [hrf]
  simp only [Option.map_some']
  rw [if_pos (by simp : (repo.id == repo.id) = true)]


theorem claim_C8_witness :
    (indexCore
      { repositories := [{ id := 0, slug := "o/r", owner := "o", name := "r"
                           source := "github", defaultBranch := "main"
                           status := RepoStatus.indexed, lastError := none
                           lastIndexedAt := 10, entryCount := some 0
                           vouchedCount := some 0, denouncedCount := some 0 }]
        entries := []
        snapshots := [{ id := 1, repoId := 0, commitSha := "abc", filePath := "VOUCHED.td"
                        indexedAt := 10 }]
        auditBlocks := [], auditChanges := [], leaderboardRows := []
        indexRateBuckets := [], repoIndexLocks := [], nextId := 2 }
      5 "o/r" "o" "r" "main"
      { selectedPath := "VOUCHED.td", commitSha := "abc", commitUrl := none
        sourceUrl := none, commitActor := none, commitTimestamp := none
        content := "" }).2 =
      { status := "indexed", entriesIndexed := 0, changesDetected := 0
        auditRecorded := false, skippedNoChanges := true } :=
  (claim_C8 _ 5 "o/r" "o" "r" "main" _ (by decide) (by decide)).1


/-! Claim C2: audit block creation and heights. -/

theorem upsertRepoRow_entries (db : Db) (now : Nat) (args : SnapshotArgs) (a b c : Nat) :
    (upsertRepoRow db now args a b c).1.entries = db.entries := by
  unfold upsertRepoRow
  cases h : db.repositories.find? (fun r => r.slug == args.slug) <;> rfl


theorem upsertRepoRow_auditBlocks (db : Db) (now : Nat) (args : SnapshotArgs) (a b c : Nat) :
    (upsertRepoRow db now args a b c).1.auditBlocks = db.auditBlocks := by
  unfold upsertRepoRow
  cases h : db.repositories.find? (fun r => r.slug == args.slug) <;> rfl


theorem upsertRepoRow_id (db : Db) (now : Nat) (args : SnapshotArgs) (a b c : Nat) :
    (upsertRepoRow db now args a b c).2.id = resolvedRepoId db args.slug := by
  unfold upsertRepoRow resolvedRepoId
  cases h : db.repositories.find? (fun r => r.slug == args.slug) <;> rfl


theorem snapshotUpsertPhase_auditBlocks (db1 : Db) (now : Nat) (args : SnapshotArgs)
    (repoId : Nat) : (snapshotUpsertPhase db1 now args repoId).1.auditBlocks =
      db1.auditBlocks := by
  unfold snapshotUpsertPhase
  cases h : latestSnapshotFor db1.snapshots repoId <;> rfl


theorem entryWritePhase_auditBlocks (db2 : Db) (plan : EntryReconciliationPlan)
    (repoId : Nat) (slug : String) (snapId : Nat) :
    (entryWritePhase db2 plan repoId slug snapId).auditBlocks = db2.auditBlocks := rfl


theorem leaderboardPhase_auditBlocks (db5 : Db) (now : Nat)
    (ds : List LeaderboardDelta) : (leaderboardPhase db5 now ds).auditBlocks =
      db5.auditBlocks := rfl


theorem auditPhase_height (db6 : Db) (now : Nat) (args : SnapshotArgs) (rid sid : Nat)
    (prev : Option BlockRow) (cs : List AuditChange) :
    (auditPhase db6 now args rid sid prev cs).2.2 =
      (prev.map (fun b => b.height)).getD 0 + 1 := rfl


theorem auditPhase_blocks (db6 : Db) (now : Nat) (args : SnapshotArgs) (rid sid : Nat)
    (prev : Option BlockRow) (cs : List AuditChange) :
    ∃ b : BlockRow, (auditPhase db6 now args rid sid prev cs).1.auditBlocks =
      db6.auditBlocks ++ [b] ∧ b.repoId = rid ∧
      b.height = (prev.map (fun x => x.height)).getD 0 + 1 :=
  ⟨_, rfl, rfl, rfl⟩


theorem snapshotChanges_def (db : Db) (slug : String) (entries : List ParsedEntry) :
    computeAuditChanges
      ((keepFirstRows [] (db.entries.filter
        (fun e => e.repoId == resolvedRepoId db slug))).map normalizeStoredEntry)
      (entries.map normalizeEntry) = snapshotChanges db slug entries := rfl


theorem foldStep_range (l : List BlockRow) (s n : Nat)
    (hmap : l.map (fun b => b.height) = List.range' s n) (hn : 0 < n)
    (acc : Option BlockRow) (hacc : ∀ a, acc = some a → a.height ≤ s) :
    ∃ b, l.foldl (fun acc b =>
      match acc with
      | none => some b
      | some a => if b.height ≥ a.height then some b else some a) acc = some b ∧
      b.height = s + n - 1 := by
  induction l generalizing s n acc with
  | nil =>
    rw [List.map_nil] at hmap
    have : n = 0 := by
      by_contra hne
      obtain ⟨n', rfl⟩ : ∃ n', n = n' + 1 := ⟨n - 1, by omega⟩
      rw [List.range'_succ] at hmap
      exact absurd hmap.symm (List.cons_ne_nil _ _)
    omega
  | cons x xs ih =>
    obtain ⟨n', rfl⟩ : ∃ n', n = n' + 1 := ⟨n - 1, by omega⟩
    rw [List.map_cons, List.range'_succ] at hmap
    have hx : x.height = s := (List.cons_eq_cons.1 hmap).1
    have hxs : xs.map (fun b => b.height) = List.range' (s + 1) n' :=
      (List.cons_eq_cons.1 hmap).2
    have cont : ∃ b, xs.foldl (fun acc b =>
        match acc with
        | none => some b
        | some a => if b.height ≥ a.height then some b else some a) (some x) = some b ∧
        b.height = s + (n' + 1) - 1 := by
      rcases Nat.eq_zero_or_pos n' with hz | hp
      · subst hz
        have hxsnil : xs = [] := by
          have h2 := hxs
          rw [List.range'_zero] at h2
          exact List.map_eq_nil.1 h2
        subst hxsnil
        exact ⟨x, rfl, by omega⟩
      · obtain ⟨b, hb, hbh⟩ := ih (s + 1) n' hxs hp (some x) (fun a ha => by
          rw [Option.some_inj] at ha
          subst ha
          omega)
        exact ⟨b, hb, by omega⟩
    obtain ⟨b, hb, hbh⟩ := cont
    refine ⟨b, ?_, hbh⟩
    cases acc with
    | none => exact hb
    | some a =>
      have ha := hacc a rfl
      rw [List.foldl_cons]
      dsimp only
      rw [if_pos (by omega : x.height ≥ a.height)]
      exact hb


theorem latestBlockFor_heights (blocks : List BlockRow) (rid n : Nat)
    (h : (blocks.filter (fun b => b.repoId == rid)).map (fun b => b.height) =
      List.range' 1 n) (hn : 0 < n) :
    ∃ b, latestBlockFor blocks rid = some b ∧ b.height = n := by
  unfold latestBlockFor
  obtain ⟨b, hb, hbh⟩ := foldStep_range _ 1 n h hn none (fun a ha => by cases ha)
  exact ⟨b, hb, by omega⟩


theorem range'_concat_one (s n : Nat) : List.range' s n ++ [s + n] = List.range' s (n + 1) := by
  have h2 := List.range'_append s n 1 1
  simp only [List.range'_one, one_mul] at h2
  rw [Nat.add_comm 1 n] at h2
  exact h2


theorem range'_one_concat (n : Nat) : List.range' 1 n ++ [n + 1] = List.range' 1 (n + 1) := by
  have := range'_concat_one 1 n
  rwa [Nat.add_comm 1 n] at this


theorem latestBlockFor_nil (blocks : List BlockRow) (rid : Nat)
    (h : blocks.filter (fun b => b.repoId == rid) = []) :
    latestBlockFor blocks rid = none := by
  unfold latestBlockFor
  rw [h]
  rfl


theorem replaceFinish_auditRecorded (db6 : Db) (now : Nat) (args : SnapshotArgs)
    (rid sid : Nat) (prev : Option BlockRow) (cs : List AuditChange) (n : Nat) :
    (replaceFinish db6 now args rid sid prev cs n).2.auditRecorded =
      (prev.isNone || decide (cs.length > 0)) := by
  unfold replaceFinish
  dsimp only
  split_ifs with h
  · exact h.symm
  · simp only [Bool.not_eq_true] at h
    exact h.symm


theorem replaceFinish_auditHeight (db6 : Db) (now : Nat) (args : SnapshotArgs)
    (rid sid : Nat) (prev : Option BlockRow) (cs : List AuditChange) (n : Nat) :
    (replaceFinish db6 now args rid sid prev cs n).2.auditHeight =
      if (prev.isNone || decide (cs.length > 0)) = true then
        some ((prev.map (fun b => b.height)).getD 0 + 1)
      else none := by
  unfold replaceFinish
  dsimp only
  split_ifs with h
  · rfl
  · rfl


theorem replaceFinish_heights (db6 : Db) (now : Nat) (args : SnapshotArgs)
    (rid sid : Nat) (prev : Option BlockRow) (cs : List AuditChange) (n : Nat) :
    (((replaceFinish db6 now args rid sid prev cs n).1.auditBlocks.filter
      (fun b => b.repoId == rid)).map (fun b => b.height)) =
      if (prev.isNone || decide (cs.length > 0)) = true then
        ((db6.auditBlocks.filter (fun b => b.repoId == rid)).map (fun b => b.height)) ++
          [(prev.map (fun b => b.height)).getD 0 + 1]
      else (db6.auditBlocks.filter (fun b => b.repoId == rid)).map (fun b => b.height) := by
  unfold replaceFinish
  dsimp only
  split_ifs with h
  · obtain ⟨b, hb, hbrid, hbh⟩ := auditPhase_blocks db6 now args rid sid prev cs
    rw [hb, List.filter_append, List.map_append]
    congr 1
    have hsing : List.filter (fun x => x.repoId == rid) [b] = [b] := by
      simp [hbrid]
    rw [hsing]
    simp [hbh]
  · rfl


/-- Claim C2: an audit block is recorded iff there is no previous block for the
repository or the change list is non-empty; the recorded height is the previous
height plus one (1 for genesis); if the repository's recorded heights are the
gapless sequence `1..n`, a call extends them to `1..n+1` when a block is
recorded (and leaves them at `1..n` otherwise); a repository with no blocks
always records, at height 1, even with zero changes. -/
theorem claim_C2 (db : Db) (now : Nat) (args : SnapshotArgs) :
    ((replaceRepositorySnapshot db now args).2.auditRecorded = true ↔
      (latestBlockFor db.auditBlocks (resolvedRepoId db args.slug) = none ∨
        snapshotChanges db args.slug args.entries ≠ [])) ∧
    ((replaceRepositorySnapshot db now args).2.auditRecorded = true →
      (replaceRepositorySnapshot db now args).2.auditHeight =
        some (((latestBlockFor db.auditBlocks (resolvedRepoId db args.slug)).map
          (fun b => b.height)).getD 0 + 1)) ∧
    (∀ n, blockHeightsFor db (resolvedRepoId db args.slug) = List.range' 1 n →
      blockHeightsFor (replaceRepositorySnapshot db now args).1
          (resolvedRepoId db args.slug) =
        List.range' 1 (if (replaceRepositorySnapshot db now args).2.auditRecorded
          then n + 1 else n) ∧
      ((replaceRepositorySnapshot db now args).2.auditRecorded = true →
        (replaceRepositorySnapshot db now args).2.auditHeight = some (n + 1))) ∧
    (blockHeightsFor db (resolvedRepoId db args.slug) = [] →
      (replaceRepositorySnapshot db now args).2.auditRecorded = true ∧
      (replaceRepositorySnapshot db now args).2.auditHeight = some 1) := by
  unfold replaceRepositorySnapshot blockHeightsFor
  dsimp only
  rw [upsertRepoRow_entries, upsertRepoRow_auditBlocks, upsertRepoRow_id,
    snapshotChanges_def, replaceFinish_auditRecorded, replaceFinish_auditHeight,
    replaceFinish_heights, leaderboardPhase_auditBlocks, entryWritePhase_auditBlocks,
    snapshotUpsertPhase_auditBlocks, upsertRepoRow_auditBlocks]
  by_cases hrec : ((latestBlockFor db.auditBlocks (resolvedRepoId db args.slug)).isNone
      || decide ((snapshotChanges db args.slug args.entries).length > 0)) = true
  · simp only [if_pos hrec]
    have hor := hrec
    rw [Bool.or_eq_true, Option.isNone_iff_eq_none, decide_eq_true_eq] at hor
    refine ⟨iff_of_true hrec ?_, fun _ => trivial, ?_, ?_⟩
    · rcases hor with h | h
      · exact Or.inl h
      · exact Or.inr (List.length_pos.1 h)
    · intro n hn
      have hgetd : ((latestBlockFor db.auditBlocks (resolvedRepoId db args.slug)).map
          (fun b => b.height)).getD 0 = n := by
        cases n with
        | zero =>
          have hmap : (db.auditBlocks.filter
              (fun b => b.repoId == resolvedRepoId db args.slug)).map
              (fun b => b.height) = [] := by
            simpa using hn
          rw [latestBlockFor_nil _ _ (List.map_eq_nil.1 hmap)]
          rfl
        | succ n' =>
          obtain ⟨bmax, hlat, hh⟩ := latestBlockFor_heights db.auditBlocks
            (resolvedRepoId db args.slug) (n' + 1) hn (by omega)
          rw [hlat]
          simpa using hh
      constructor
      · rw [hn, hgetd, range'_one_concat]
      · intro _
        rw [hgetd]
    · intro h0
      have hlat := latestBlockFor_nil _ _ (List.map_eq_nil.1 h0)
      refine ⟨hrec, ?_⟩
      rw [hlat]
      rfl
  · simp only [if_neg hrec]
    refine ⟨iff_of_false hrec ?_, fun hc => absurd hc hrec, ?_, ?_⟩
    · rintro (hnone | hne)
      · exact hrec (by rw [hnone]; rfl)
      · have hd : decide ((snapshotChanges db args.slug args.entries).length > 0) = true :=
          decide_eq_true (List.length_pos.2 hne)
        exact hrec (by rw [hd, Bool.or_true])
    · intro n hn
      exact ⟨hn, fun hc => absurd hc hrec⟩
    · intro h0
      exact absurd (by rw [latestBlockFor_nil _ _ (List.map_eq_nil.1 h0)]; rfl) hrec


theorem claim_C2_witness :
    (replaceRepositorySnapshot dbC2 7 argsC2).2.auditRecorded = true ∧
    blockHeightsFor (replaceRepositorySnapshot dbC2 7 argsC2).1
      (resolvedRepoId dbC2 argsC2.slug) = List.range' 1 1 ∧
    (replaceRepositorySnapshot dbC2 7 argsC2).2.auditHeight = some 1 := by
  have h := claim_C2 dbC2 7 argsC2
  obtain ⟨hrec, hh1⟩ := h.2.2.2 (by decide)
  refine ⟨hrec, ?_, hh1⟩
  have h3 := (h.2.2.1 0 (by decide)).1
  rw [hrec, if_pos (by trivial)] at h3
  exact h3


/-! Claim C3: the stored block hash is reproducible from stored fields. -/

theorem find?_eq_some_of_unique {γ : Type} (l : List γ) (p : γ → Bool) (x : γ)
    (hx : x ∈ l) (hpx : p x = true) (huniq : ∀ y ∈ l, p y = true → y = x) :
    l.find? p = some x := by
  induction l with
  | nil => cases hx
  | cons a as ih =>
    cases hpa : p a
    · rw [List.find?_cons_of_neg _ (by simp [hpa])]
      apply ih
      · rcases List.mem_cons.1 hx with rfl | h
        · rw [hpa] at hpx
          cases hpx
        · exact h
      · intro y hy hpy
        exact huniq y (List.mem_cons_of_mem _ hy) hpy
    · rw [List.find?_cons_of_pos _ hpa]
      have := huniq a (List.mem_cons_self _ _) hpa
      rw [this]


theorem upsertRepoRow_slug (db : Db) (now : Nat) (args : SnapshotArgs) (a b c : Nat) :
    (upsertRepoRow db now args a b c).2.slug = args.slug := by
  unfold upsertRepoRow
  cases h : db.repositories.find? (fun r => r.slug == args.slug) <;> rfl


theorem upsertRepoRow_find (db : Db) (now : Nat) (args : SnapshotArgs) (a b c : Nat)
    (hnodup : (db.repositories.map (fun r => r.id)).Nodup)
    (hlt : ∀ r ∈ db.repositories, r.id < db.nextId) :
    (upsertRepoRow db now args a b c).1.repositories.find?
      (fun r => r.id == (upsertRepoRow db now args a b c).2.id) =
      some (upsertRepoRow db now args a b c).2 := by
  unfold upsertRepoRow
  cases hf : db.repositories.find? (fun r => r.slug == args.slug) with
  | some existing =>
    dsimp only
    have hmem : existing ∈ db.repositories := List.mem_of_find?_eq_some hf
    rw [find?_map_pred _ _ _ (fun x => by
      by_cases hx : (x.id == existing.id) = true
      · rw [if_pos hx]
        rw [beq_iff_eq] at hx
        simp [hx]
      · rw [if_neg hx])]
    rw [find?_eq_some_of_unique db.repositories _ existing hmem (by simp)
      (fun y hy hpy => List.inj_on_of_nodup_map hnodup hy hmem (beq_iff_eq.1 hpy))]
    rw [Option.map_some']
    rw [if_pos (by simp : (existing.id == existing.id) = true)]
  | none =>
    dsimp only
    rw [List.find?_append]
    have hnone : db.repositories.find? (fun r => r.id == db.nextId) = none := by
      rw [List.find?_eq_none]
      intro r hr
      simp only [Bool.not_eq_true, beq_eq_false_iff_ne, ne_eq]
      exact Nat.ne_of_lt (hlt r hr)
    rw [hnone]
    simp


theorem upsertRepoRow_auditChanges (db : Db) (now : Nat) (args : SnapshotArgs)
    (a b c : Nat) : (upsertRepoRow db now args a b c).1.auditChanges = db.auditChanges := by
  unfold upsertRepoRow
  cases h : db.repositories.find? (fun r => r.slug == args.slug) <;> rfl


theorem upsertRepoRow_nextId_ge (db : Db) (now : Nat) (args : SnapshotArgs) (a b c : Nat) :
    db.nextId ≤ (upsertRepoRow db now args a b c).1.nextId := by
  unfold upsertRepoRow
  cases h : db.repositories.find? (fun r => r.slug == args.slug)
  · dsimp only
    omega
  · dsimp only
    omega


theorem snapshotUpsertPhase_repositories (db1 : Db) (now : Nat) (args : SnapshotArgs)
    (repoId : Nat) : (snapshotUpsertPhase db1 now args repoId).1.repositories =
      db1.repositories := by
  unfold snapshotUpsertPhase
  cases h : latestSnapshotFor db1.snapshots repoId <;> rfl


theorem snapshotUpsertPhase_auditChanges (db1 : Db) (now : Nat) (args : SnapshotArgs)
    (repoId : Nat) : (snapshotUpsertPhase db1 now args repoId).1.auditChanges =
      db1.auditChanges := by
  unfold snapshotUpsertPhase
  cases h : latestSnapshotFor db1.snapshots repoId <;> rfl


theorem snapshotUpsertPhase_nextId_ge (db1 : Db) (now : Nat) (args : SnapshotArgs)
    (repoId : Nat) : db1.nextId ≤ (snapshotUpsertPhase db1 now args repoId).1.nextId := by
  unfold snapshotUpsertPhase
  cases h : latestSnapshotFor db1.snapshots repoId
  · dsimp only
    omega
  · dsimp only
    omega


theorem entryWritePhase_repositories (db2 : Db) (plan : EntryReconciliationPlan)
    (repoId : Nat) (slug : String) (snapId : Nat) :
    (entryWritePhase db2 plan repoId slug snapId).repositories = db2.repositories := rfl


theorem entryWritePhase_auditChanges (db2 : Db) (plan : EntryReconciliationPlan)
    (repoId : Nat) (slug : String) (snapId : Nat) :
    (entryWritePhase db2 plan repoId slug snapId).auditChanges = db2.auditChanges := rfl


theorem insertEntryRows_nextId_ge (repoId : Nat) (slug : String) (snapId : Nat) :
    ∀ (inserts : List TrustEntry) (entries : List EntryRow) (nextId : Nat),
      nextId ≤ (insertEntryRows entries nextId repoId slug snapId inserts).2
  | [], _, _ => Nat.le_refl _
  | n :: rest, entries, nextId => by
    have h := insertEntryRows_nextId_ge repoId slug snapId rest
      (entries ++ [{ id := nextId, repoId := repoId, repoSlug := some slug
                     snapshotId := snapId, platform := n.platform
                     username := n.username, handle := n.handle, type := n.type
                     details := n.details }]) (nextId + 1)
    calc nextId ≤ nextId + 1 := Nat.le_succ _
    _ ≤ _ := h


theorem entryWritePhase_nextId_ge (db2 : Db) (plan : EntryReconciliationPlan)
    (repoId : Nat) (slug : String) (snapId : Nat) :
    db2.nextId ≤ (entryWritePhase db2 plan repoId slug snapId).nextId :=
  insertEntryRows_nextId_ge repoId slug snapId plan.inserts _ _


theorem applyLeaderboardDelta_nextId_ge (rows : List LeaderboardRow) (nextId now : Nat)
    (delta : LeaderboardDelta) : nextId ≤ (applyLeaderboardDelta rows nextId now delta).2 := by
  unfold applyLeaderboardDelta
  cases hf : rows.find? (fun r => r.handle == delta.handle) <;> dsimp only <;>
    split_ifs <;> omega


theorem foldl_applyLeaderboardDelta_nextId_ge (now : Nat) :
    ∀ (ds : List LeaderboardDelta) (acc : List LeaderboardRow × Nat),
      acc.2 ≤ (ds.foldl (fun acc d => applyLeaderboardDelta acc.1 acc.2 now d) acc).2
  | [], _ => Nat.le_refl _
  | d :: rest, acc => by
    have h1 := applyLeaderboardDelta_nextId_ge acc.1 acc.2 now d
    have h2 := foldl_applyLeaderboardDelta_nextId_ge now rest
      (applyLeaderboardDelta acc.1 acc.2 now d)
    rw [List.foldl_cons]
    omega


theorem leaderboardPhase_repositories (db5 : Db) (now : Nat)
    (ds : List LeaderboardDelta) : (leaderboardPhase db5 now ds).repositories =
      db5.repositories := rfl


theorem leaderboardPhase_auditChanges (db5 : Db) (now : Nat)
    (ds : List LeaderboardDelta) : (leaderboardPhase db5 now ds).auditChanges =
      db5.auditChanges := rfl


theorem leaderboardPhase_nextId_ge (db5 : Db) (now : Nat) (ds : List LeaderboardDelta) :
    db5.nextId ≤ (leaderboardPhase db5 now ds).nextId :=
  foldl_applyLeaderboardDelta_nextId_ge now ds (db5.leaderboardRows, db5.nextId)


theorem insertChangeRows_split (rid bid : Nat) :
    ∀ (cs : List AuditChange) (rows : List ChangeRow) (nid : Nat),
      ∃ newRows, (insertChangeRows rows nid rid bid cs).1 = rows ++ newRows ∧
        newRows.filter (fun c => c.blockId == bid) = newRows ∧
        newRows.map changeRowToAudit = cs
  | [], rows, nid => ⟨[], by simp [insertChangeRows], rfl, rfl⟩
  | c :: cs', rows, nid => by
    have hstep : insertChangeRows rows nid rid bid (c :: cs') =
        insertChangeRows (rows ++ [mkChangeRow nid rid bid c]) (nid + 1) rid bid cs' := rfl
    obtain ⟨nr, h1, h2, h3⟩ := insertChangeRows_split rid bid cs'
      (rows ++ [mkChangeRow nid rid bid c]) (nid + 1)
    refine ⟨mkChangeRow nid rid bid c :: nr, ?_, ?_, ?_⟩
    · rw [hstep, h1, List.append_assoc, List.singleton_append]
    · rw [List.filter_cons_of_pos (by simp [mkChangeRow]), h2]
    · rw [List.map_cons, h3]
      rfl


theorem replaceFinish_C3 (db6 : Db) (now : Nat) (args : SnapshotArgs) (rid sid : Nat)
    (prev : Option BlockRow) (cs : List AuditChange) (n : Nat)
    (repo : RepoRow)
    (hfind : db6.repositories.find? (fun r => r.id == rid) = some repo)
    (hslug : repo.slug = args.slug)
    (hold : ∀ c ∈ db6.auditChanges, c.blockId < db6.nextId)
    (hrec : (replaceFinish db6 now args rid sid prev cs n).2.auditRecorded = true) :
    ∃ b : BlockRow, (replaceFinish db6 now args rid sid prev cs n).1.auditBlocks =
      db6.auditBlocks ++ [b] ∧
      some b.blockHash = (replaceFinish db6 now args rid sid prev cs n).2.auditBlockHash ∧
      recomputeBlockHash (replaceFinish db6 now args rid sid prev cs n).1 b =
        some b.blockHash := by
  rw [replaceFinish_auditRecorded] at hrec
  unfold replaceFinish
  dsimp only
  rw [if_pos hrec]
  unfold auditPhase
  dsimp only
  refine ⟨_, rfl, rfl, ?_⟩
  unfold recomputeBlockHash
  dsimp only
  obtain ⟨nr, h1, h2, h3⟩ := insertChangeRows_split rid db6.nextId cs db6.auditChanges
    (db6.nextId + 1)
  rw [h1, List.filter_append]
  have hdrop : db6.auditChanges.filter (fun c => c.blockId == db6.nextId) = [] := by
    rw [List.filter_eq_nil]
    intro c hc
    simp only [Bool.not_eq_true, beq_eq_false_iff_ne, ne_eq]
    exact Nat.ne_of_lt (hold c hc)
  rw [hdrop, List.nil_append, h2, h3, hfind]
  dsimp only
  rw [hslug]


theorem replaceChain_C3 (db1 : Db) (now : Nat) (args : SnapshotArgs) (rid : Nat)
    (plan : EntryReconciliationPlan) (slug : String) (ds : List LeaderboardDelta)
    (prev : Option BlockRow) (cs : List AuditChange) (n : Nat) (repo : RepoRow)
    (hfind : db1.repositories.find? (fun r => r.id == rid) = some repo)
    (hslug : repo.slug = args.slug)
    (hold : ∀ c ∈ db1.auditChanges, c.blockId < db1.nextId)
    (hrec : (replaceFinish (leaderboardPhase (entryWritePhase
        (snapshotUpsertPhase db1 now args rid).1 plan rid slug
        (snapshotUpsertPhase db1 now args rid).2) now ds) now args rid
        (snapshotUpsertPhase db1 now args rid).2 prev cs n).2.auditRecorded = true) :
    ∃ b : BlockRow, (replaceFinish (leaderboardPhase (entryWritePhase
        (snapshotUpsertPhase db1 now args rid).1 plan rid slug
        (snapshotUpsertPhase db1 now args rid).2) now ds) now args rid
        (snapshotUpsertPhase db1 now args rid).2 prev cs n).1.auditBlocks =
      db1.auditBlocks ++ [b] ∧
      some b.blockHash = (replaceFinish (leaderboardPhase (entryWritePhase
        (snapshotUpsertPhase db1 now args rid).1 plan rid slug
        (snapshotUpsertPhase db1 now args rid).2) now ds) now args rid
        (snapshotUpsertPhase db1 now args rid).2 prev cs n).2.auditBlockHash ∧
      recomputeBlockHash (replaceFinish (leaderboardPhase (entryWritePhase
        (snapshotUpsertPhase db1 now args rid).1 plan rid slug
        (snapshotUpsertPhase db1 now args rid).2) now ds) now args rid
        (snapshotUpsertPhase db1 now args rid).2 prev cs n).1 b = some b.blockHash := by
  have hfind6 : (leaderboardPhase (entryWritePhase
      (snapshotUpsertPhase db1 now args rid).1 plan rid slug
      (snapshotUpsertPhase db1 now args rid).2) now ds).repositories.find?
      (fun r => r.id == rid) = some repo := by
    rw [leaderboardPhase_repositories, entryWritePhase_repositories,
      snapshotUpsertPhase_repositories]
    exact hfind
  have hold6 : ∀ c ∈ (leaderboardPhase (entryWritePhase
      (snapshotUpsertPhase db1 now args rid).1 plan rid slug
      (snapshotUpsertPhase db1 now args rid).2) now ds).auditChanges,
      c.blockId < (leaderboardPhase (entryWritePhase
        (snapshotUpsertPhase db1 now args rid).1 plan rid slug
        (snapshotUpsertPhase db1 now args rid).2) now ds).nextId := by
    intro c hc
    rw [leaderboardPhase_auditChanges, entryWritePhase_auditChanges,
      snapshotUpsertPhase_auditChanges] at hc
    have hge1 := snapshotUpsertPhase_nextId_ge db1 now args rid
    have hge2 := entryWritePhase_nextId_ge
      (snapshotUpsertPhase db1 now args rid).1 plan rid slug
      (snapshotUpsertPhase db1 now args rid).2
    have hge3 := leaderboardPhase_nextId_ge (entryWritePhase
      (snapshotUpsertPhase db1 now args rid).1 plan rid slug
      (snapshotUpsertPhase db1 now args rid).2) now ds
    have := hold c hc
    omega
  obtain ⟨b, hb, hh, hrcmp⟩ := replaceFinish_C3 _ now args rid _ prev cs n repo
    hfind6 hslug hold6 hrec
  rw [leaderboardPhase_auditBlocks, entryWritePhase_auditBlocks,
    snapshotUpsertPhase_auditBlocks] at hb
  exact ⟨b, hb, hh, hrcmp⟩


/-- Claim C3: when `replaceRepositorySnapshot` records an audit block, the
appended block's stored `blockHash` is the returned hash, and recomputing the
SHA-256 of the canonical JSON serialization from the block's stored fields (the
owning repository's slug, height, previous hash or null, snapshot id, indexing
timestamp, file path, commit sha, the four optional commit fields normalized to
null, and the stored change rows with their optional fields normalized to null)
reproduces `blockHash` exactly. -/
theorem claim_C3 (db : Db) (now : Nat) (args : SnapshotArgs) (hwf : dbWF db)
    (hrec : (replaceRepositorySnapshot db now args).2.auditRecorded = true) :
    ∃ b : BlockRow, (replaceRepositorySnapshot db now args).1.auditBlocks =
      db.auditBlocks ++ [b] ∧
      some b.blockHash = (replaceRepositorySnapshot db now args).2.auditBlockHash ∧
      recomputeBlockHash (replaceRepositorySnapshot db now args).1 b =
        some b.blockHash := by
  obtain ⟨hnodup, hltR, hltE, hltS, hltB, hltC, hblk, hltL, hlocks, hbuckets⟩ := hwf
  unfold replaceRepositorySnapshot at hrec ⊢
  dsimp only at hrec ⊢
  have holdU : ∀ c2 ∈ (upsertRepoRow db now args (args.entries.map normalizeEntry).length
      ((args.entries.map normalizeEntry).filter
        (fun e => e.type == EntryType.vouch)).length
      ((args.entries.map normalizeEntry).length -
        ((args.entries.map normalizeEntry).filter
          (fun e => e.type == EntryType.vouch)).length)).1.auditChanges,
      c2.blockId < (upsertRepoRow db now args (args.entries.map normalizeEntry).length
        ((args.entries.map normalizeEntry).filter
          (fun e => e.type == EntryType.vouch)).length
        ((args.entries.map normalizeEntry).length -
          ((args.entries.map normalizeEntry).filter
            (fun e => e.type == EntryType.vouch)).length)).1.nextId := by
    intro c2 hc2
    rw [upsertRepoRow_auditChanges] at hc2
    have hge := upsertRepoRow_nextId_ge db now args
      (args.entries.map normalizeEntry).length
      ((args.entries.map normalizeEntry).filter
        (fun e => e.type == EntryType.vouch)).length
      ((args.entries.map normalizeEntry).length -
        ((args.entries.map normalizeEntry).filter
          (fun e => e.type == EntryType.vouch)).length)
    have := hblk c2 hc2
    omega
  obtain ⟨b, hb, hh, hrcmp⟩ := replaceChain_C3 _ now args _ _ _ _ _ _ _ _
    (upsertRepoRow_find db now args _ _ _ hnodup hltR)
    (upsertRepoRow_slug db now args _ _ _) holdU hrec
  rw [← upsertRepoRow_auditBlocks db now args (args.entries.map normalizeEntry).length
    ((args.entries.map normalizeEntry).filter
      (fun e => e.type == EntryType.vouch)).length
    ((args.entries.map normalizeEntry).length -
      ((args.entries.map normalizeEntry).filter
        (fun e => e.type == EntryType.vouch)).length)]
  exact ⟨b, hb, hh, hrcmp⟩


theorem claim_C3_witness :
    ∃ b : BlockRow, (replaceRepositorySnapshot dbC3 9 argsC3).1.auditBlocks =
      dbC3.auditBlocks ++ [b] ∧
      some b.blockHash = (replaceRepositorySnapshot dbC3 9 argsC3).2.auditBlockHash ∧
      recomputeBlockHash (replaceRepositorySnapshot dbC3 9 argsC3).1 b =
        some b.blockHash :=
  claim_C3 dbC3 9 argsC3 (by decide) (by rfl)


/-! Claim C7: the per-repository lock. -/

theorem rateLimitStep_nextId_ge (db : Db) (now : Nat) (key : String) (maxR : Nat) :
    db.nextId ≤ (rateLimitStep db now key maxR).1.nextId := by
  unfold rateLimitStep
  cases h : db.indexRateBuckets.find? (fun b => b.key == key)
  · dsimp only
    omega
  · dsimp only
    split_ifs
    · dsimp only
      omega
    · dsimp only
      omega


theorem lock_unique (rows : List LockRow) (repo : String) (l : LockRow)
    (hnodupR : (rows.map (fun x => x.repo)).Nodup)
    (hfind : rows.find? (fun x => x.repo == repo) = some l) :
    ∀ y ∈ rows, (y.repo == repo) = true → y = l := by
  intro y hy hpy
  have hl : l ∈ rows := List.mem_of_find?_eq_some hfind
  have hpl : l.repo = repo := by
    have hx := @List.find?_some _ _ _ _ hfind
    exact beq_iff_eq.1 hx
  exact List.inj_on_of_nodup_map hnodupR hy hl ((beq_iff_eq.1 hpy).trans hpl.symm)


theorem pruneLocks_mem_of (now2 : Nat) (rows : List LockRow) (l : LockRow)
    (hnodupI : (rows.map (fun x => x.id)).Nodup)
    (hl : l ∈ rows) (hlive : now2 ≤ l.expiresAt) : l ∈ pruneLocks now2 rows := by
  unfold pruneLocks
  rw [List.mem_filter]
  refine ⟨hl, ?_⟩
  cases hc : (((jsSort (fun a b => decide (a.expiresAt ≤ b.expiresAt))
      (rows.filter (fun r => decide (r.expiresAt < now2)))).take 256).map
      (fun e => e.id)).contains l.id
  · rfl
  · exfalso
    have hcm : l.id ∈ ((jsSort (fun a b => decide (a.expiresAt ≤ b.expiresAt))
        (rows.filter (fun r => decide (r.expiresAt < now2)))).take 256).map
        (fun e => e.id) := List.mem_of_elem_eq_true hc
    obtain ⟨e, he, heid⟩ := List.mem_map.1 hcm
    have he2 : e ∈ jsSort (fun a b => decide (a.expiresAt ≤ b.expiresAt))
        (rows.filter (fun r => decide (r.expiresAt < now2))) := List.mem_of_mem_take he
    have he3 : e ∈ rows.filter (fun r => decide (r.expiresAt < now2)) :=
      ((jsSort_perm _ _).mem_iff).1 he2
    obtain ⟨he4, he5⟩ := List.mem_filter.1 he3
    have he6 : e.expiresAt < now2 := of_decide_eq_true he5
    have : e = l := List.inj_on_of_nodup_map hnodupI he4 hl heid
    subst this
    omega


theorem find?_pruned (rows : List LockRow) (now2 : Nat) (repo : String) (l : LockRow)
    (hnodupR : (rows.map (fun x => x.repo)).Nodup)
    (hnodupI : (rows.map (fun x => x.id)).Nodup)
    (hfind : rows.find? (fun x => x.repo == repo) = some l)
    (hlive : now2 ≤ l.expiresAt) :
    (pruneLocks now2 rows).find? (fun x => x.repo == repo) = some l := by
  apply find?_eq_some_of_unique
  · exact pruneLocks_mem_of now2 rows l hnodupI (List.mem_of_find?_eq_some hfind) hlive
  · have hx := @List.find?_some _ _ _ _ hfind
    exact hx
  · intro y hy hpy
    exact lock_unique rows repo l hnodupR hfind y
      ((pruneLocks_sublist now2 rows).subset hy) hpy


theorem lockPhase_conflict (d : Db) (now : Nat) (repo : String) (l : LockRow)
    (hfind : d.repoIndexLocks.find? (fun x => x.repo == repo) = some l)
    (hlive : now < l.expiresAt) :
    (lockPhase d now repo).2 = PermitResult.err 409
      "This repository is already being indexed. Please wait a moment and retry." := by
  unfold lockPhase
  rw [hfind]
  dsimp only
  rw [if_pos (by omega : l.expiresAt > now)]


theorem map_patch_field_eq {γ δ : Type} (rows : List γ) (g : γ → γ) (f : γ → δ)
    (hgf : ∀ x, f (g x) = f x) : (rows.map g).map f = rows.map f := by
  rw [List.map_map]
  apply List.map_congr_left
  intro x _
  exact hgf x


theorem lockPhase_ok_lock (d : Db) (now : Nat) (repo : String)
    (hnodupR : (d.repoIndexLocks.map (fun x => x.repo)).Nodup)
    (hnodupI : (d.repoIndexLocks.map (fun x => x.id)).Nodup)
    (hlt : ∀ x ∈ d.repoIndexLocks, x.id < d.nextId)
    (hok : (lockPhase d now repo).2 = PermitResult.ok) :
    (∃ l, (lockPhase d now repo).1.repoIndexLocks.find? (fun x => x.repo == repo) = some l ∧
      l.expiresAt = now + 60000) ∧
    ((lockPhase d now repo).1.repoIndexLocks.map (fun x => x.repo)).Nodup ∧
    ((lockPhase d now repo).1.repoIndexLocks.map (fun x => x.id)).Nodup ∧
    (∀ x ∈ (lockPhase d now repo).1.repoIndexLocks,
      x.id < (lockPhase d now repo).1.nextId) := by
  unfold lockPhase at hok ⊢
  cases hf : d.repoIndexLocks.find? (fun x => x.repo == repo) with
  | some lock =>
    rw [hf] at hok
    dsimp only at hok ⊢
    by_cases hl : lock.expiresAt > now
    · rw [if_pos hl] at hok
      exact absurd hok (by simp)
    · rw [if_neg hl] at hok ⊢
      refine ⟨⟨{ lock with expiresAt := now + 60000 }, ?_, rfl⟩, ?_, ?_, ?_⟩
      · rw [find?_map_pred _ _ _ (fun x => by
          by_cases hx : (x.id == lock.id) = true
          · rw [if_pos hx]
          · rw [if_neg hx])]
        rw [hf, Option.map_some']
        rw [if_pos (by simp : (lock.id == lock.id) = true)]
      · rw [map_patch_field_eq _ _ _ (fun x => by
          by_cases hx : (x.id == lock.id) = true
          · rw [if_pos hx]
          · rw [if_neg hx])]
        exact hnodupR
      · rw [map_patch_field_eq _ _ _ (fun x => by
          by_cases hx : (x.id == lock.id) = true
          · rw [if_pos hx]
          · rw [if_neg hx])]
        exact hnodupI
      · intro x hx
        obtain ⟨y, hy, rfl⟩ := List.mem_map.1 hx
        have hid : (if (y.id == lock.id) = true
            then { y with expiresAt := now + 60000 } else y).id = y.id := by
          by_cases hx2 : (y.id == lock.id) = true
          · rw [if_pos hx2]
          · rw [if_neg hx2]
        rw [hid]
        exact hlt y hy
  | none =>
    rw [hf] at hok
    dsimp only at hok ⊢
    refine ⟨⟨{ id := d.nextId, repo := repo, expiresAt := now + 60000 }, ?_, rfl⟩, ?_, ?_, ?_⟩
    · rw [List.find?_append, hf]
      simp
    · rw [List.map_append]
      rw [List.nodup_append]
      refine ⟨hnodupR, by simp, ?_⟩
      intro a ha hb
      simp only [List.map_cons, List.map_nil, List.mem_singleton] at hb
      subst hb
      obtain ⟨y, hy, hyr⟩ := List.mem_map.1 ha
      have hny := List.find?_eq_none.1 hf y hy
      exact hny (beq_iff_eq.2 hyr)
    · rw [List.map_append, List.nodup_append]
      refine ⟨hnodupI, by simp, ?_⟩
      intro a ha hb
      simp only [List.map_cons, List.map_nil, List.mem_singleton] at hb
      subst hb
      obtain ⟨y, hy, hyr⟩ := List.mem_map.1 ha
      have := hlt y hy
      omega
    · intro x hx
      rcases List.mem_append.1 hx with hx1 | hx2
      · exact Nat.lt_succ_of_lt (hlt x hx1)
      · simp only [List.mem_singleton] at hx2
        subst hx2
        exact Nat.lt_succ_self _


theorem lockPhase_expired_ok (d : Db) (now : Nat) (repo : String)
    (hexp : ∀ x ∈ d.repoIndexLocks, x.repo = repo → x.expiresAt ≤ now) :
    (lockPhase d now repo).2 = PermitResult.ok ∧
    ∃ l, (lockPhase d now repo).1.repoIndexLocks.find? (fun x => x.repo == repo) = some l ∧
      l.expiresAt = now + 60000 := by
  unfold lockPhase
  cases hf : d.repoIndexLocks.find? (fun x => x.repo == repo) with
  | some lock =>
    dsimp only
    have hle : lock.expiresAt ≤ now := by
      have hx := @List.find?_some _ _ _ _ hf
      exact hexp lock (List.mem_of_find?_eq_some hf) (beq_iff_eq.1 hx)
    rw [if_neg (by omega : ¬lock.expiresAt > now)]
    refine ⟨rfl, { lock with expiresAt := now + 60000 }, ?_, rfl⟩
    rw [find?_map_pred _ _ _ (fun x => by
      by_cases hx : (x.id == lock.id) = true
      · rw [if_pos hx]
      · rw [if_neg hx])]
    rw [hf, Option.map_some']
    rw [if_pos (by simp : (lock.id == lock.id) = true)]
  | none =>
    dsimp only
    refine ⟨rfl, { id := d.nextId, repo := repo, expiresAt := now + 60000 }, ?_, rfl⟩
    rw [List.find?_append, hf]
    simp


theorem rateGate_nextId_ge (d : Db) (now : Nat) (repo req : String) :
    d.nextId ≤ (rateGate d now repo req).1.nextId := by
  unfold rateGate
  dsimp only
  split_ifs <;>
    first
    | exact rateLimitStep_nextId_ge _ _ _ _
    | exact le_trans (rateLimitStep_nextId_ge _ _ _ _) (rateLimitStep_nextId_ge _ _ _ _)
    | exact le_trans (rateLimitStep_nextId_ge _ _ _ _)
        (le_trans (rateLimitStep_nextId_ge _ _ _ _) (rateLimitStep_nextId_ge _ _ _ _))


theorem acquireTail_ok_spec (d2 : Db) (t : Nat) (repo req : String) (sk : Bool)
    (hok : (acquireTail d2 t repo req sk).2 = PermitResult.ok)
    (hnodupR : (d2.repoIndexLocks.map (fun x => x.repo)).Nodup)
    (hnodupI : (d2.repoIndexLocks.map (fun x => x.id)).Nodup)
    (hlt : ∀ x ∈ d2.repoIndexLocks, x.id < d2.nextId) :
    (∃ l, (acquireTail d2 t repo req sk).1.repoIndexLocks.find?
        (fun x => x.repo == repo) = some l ∧ l.expiresAt = t + 60000) ∧
    ((acquireTail d2 t repo req sk).1.repoIndexLocks.map (fun x => x.repo)).Nodup ∧
    ((acquireTail d2 t repo req sk).1.repoIndexLocks.map (fun x => x.id)).Nodup := by
  unfold acquireTail at hok ⊢
  by_cases hsk : sk = true
  · rw [if_pos hsk] at hok ⊢
    obtain ⟨hex, hr, hi, hb⟩ := lockPhase_ok_lock d2 t repo hnodupR hnodupI hlt hok
    exact ⟨hex, hr, hi⟩
  · rw [if_neg hsk] at hok ⊢
    dsimp only at hok ⊢
    cases hg : (rateGate d2 t repo req).2 with
    | some e =>
      rw [hg] at hok
      dsimp only at hok
      obtain ⟨mm, hmm⟩ := rateGate_some_429 _ _ _ _ _ hg
      rw [hmm] at hok
      exact absurd hok (by simp)
    | none =>
      rw [hg] at hok
      dsimp only at hok ⊢
      obtain ⟨hex, hr, hi, hb⟩ := lockPhase_ok_lock (rateGate d2 t repo req).1 t repo
        (by rw [rateGate_locks]
            exact hnodupR)
        (by rw [rateGate_locks]
            exact hnodupI)
        (by intro x hx
            rw [rateGate_locks] at hx
            exact lt_of_lt_of_le (hlt x hx) (rateGate_nextId_ge _ _ _ _))
        hok
      exact ⟨hex, hr, hi⟩


theorem acquireTail_live_not_ok (d2 : Db) (now2 : Nat) (repo req : String) (sk : Bool)
    (l : LockRow)
    (hfind : d2.repoIndexLocks.find? (fun x => x.repo == repo) = some l)
    (hlive : now2 < l.expiresAt) :
    (acquireTail d2 now2 repo req sk).2 ≠ PermitResult.ok := by
  unfold acquireTail
  by_cases hsk : sk = true
  · rw [if_pos hsk]
    rw [lockPhase_conflict d2 now2 repo l hfind hlive]
    simp
  · rw [if_neg hsk]
    dsimp only
    cases hg : (rateGate d2 now2 repo req).2 with
    | some e =>
      dsimp only
      obtain ⟨mm, hmm⟩ := rateGate_some_429 _ _ _ _ _ hg
      rw [hmm]
      simp
    | none =>
      dsimp only
      rw [lockPhase_conflict (rateGate d2 now2 repo req).1 now2 repo l
        (by rw [rateGate_locks]
            exact hfind) hlive]
      simp


theorem acquireTail_live_409 (d2 : Db) (now2 : Nat) (repo req : String) (l : LockRow)
    (hfind : d2.repoIndexLocks.find? (fun x => x.repo == repo) = some l)
    (hlive : now2 < l.expiresAt) :
    (acquireTail d2 now2 repo req true).2 = PermitResult.err 409
      "This repository is already being indexed. Please wait a moment and retry." := by
  unfold acquireTail
  rw [if_pos rfl]
  exact lockPhase_conflict d2 now2 repo l hfind hlive


theorem acquireTail_expired_ok (d2 : Db) (now3 : Nat) (repo req : String)
    (hexp : ∀ x ∈ d2.repoIndexLocks, x.repo = repo → x.expiresAt ≤ now3) :
    (acquireTail d2 now3 repo req true).2 = PermitResult.ok ∧
    ∃ l, (acquireTail d2 now3 repo req true).1.repoIndexLocks.find?
        (fun x => x.repo == repo) = some l ∧ l.expiresAt = now3 + 60000 := by
  unfold acquireTail
  rw [if_pos rfl]
  exact lockPhase_expired_ok d2 now3 repo hexp


theorem acquire_ok_spec (db : Db) (t : Nat) (repo requester : String) (skip : Bool)
    (hrepo : jsToLower (jsTrim repo) = repo)
    (hnodupR : (db.repoIndexLocks.map (fun x => x.repo)).Nodup)
    (hnodupI : (db.repoIndexLocks.map (fun x => x.id)).Nodup)
    (hlt : ∀ x ∈ db.repoIndexLocks, x.id < db.nextId)
    (hok : (acquireIndexPermit db t repo requester skip).2 = PermitResult.ok) :
    (¬(repo = "" ∨ utf16Length repo > 200)) ∧
    (∃ l, (acquireIndexPermit db t repo requester skip).1.repoIndexLocks.find?
        (fun x => x.repo == repo) = some l ∧ l.expiresAt = t + 60000) ∧
    ((acquireIndexPermit db t repo requester skip).1.repoIndexLocks.map
      (fun x => x.repo)).Nodup ∧
    ((acquireIndexPermit db t repo requester skip).1.repoIndexLocks.map
      (fun x => x.id)).Nodup := by
  unfold acquireIndexPermit at hok ⊢
  dsimp only at hok ⊢
  rw [hrepo] at hok ⊢
  by_cases h1 : repo = "" ∨ utf16Length repo > 200
  · rw [if_pos h1] at hok
    exact absurd hok (by simp)
  · rw [if_neg h1] at hok ⊢
    by_cases h2 : jsToLower (jsTrim requester) = "" ∨
        utf16Length (jsToLower (jsTrim requester)) > 128
    · rw [if_pos h2] at hok
      exact absurd hok (by simp)
    · rw [if_neg h2] at hok ⊢
      obtain ⟨hex, hr, hi⟩ := acquireTail_ok_spec _ t repo _ skip hok
        (List.Nodup.sublist (List.Sublist.map _
          (pruneLocks_sublist t db.repoIndexLocks)) hnodupR)
        (List.Nodup.sublist (List.Sublist.map _
          (pruneLocks_sublist t db.repoIndexLocks)) hnodupI)
        (fun x hx => hlt x ((pruneLocks_sublist t db.repoIndexLocks).subset hx))
      exact ⟨h1, hex, hr, hi⟩


theorem acquire_live_not_ok (d : Db) (now2 : Nat) (repo req2 : String) (sk2 : Bool)
    (l : LockRow) (hrepo : jsToLower (jsTrim repo) = repo)
    (hnodupR : (d.repoIndexLocks.map (fun x => x.repo)).Nodup)
    (hnodupI : (d.repoIndexLocks.map (fun x => x.id)).Nodup)
    (hfind : d.repoIndexLocks.find? (fun x => x.repo == repo) = some l)
    (hlive : now2 < l.expiresAt) :
    (acquireIndexPermit d now2 repo req2 sk2).2 ≠ PermitResult.ok := by
  unfold acquireIndexPermit
  dsimp only
  rw [hrepo]
  by_cases h1 : repo = "" ∨ utf16Length repo > 200
  · rw [if_pos h1]
    simp
  · rw [if_neg h1]
    by_cases h2 : jsToLower (jsTrim req2) = "" ∨
        utf16Length (jsToLower (jsTrim req2)) > 128
    · rw [if_pos h2]
      simp
    · rw [if_neg h2]
      refine acquireTail_live_not_ok _ now2 repo _ sk2 l ?_ hlive
      exact find?_pruned d.repoIndexLocks now2 repo l hnodupR hnodupI hfind (by omega)


theorem acquire_live_409 (d : Db) (now2 : Nat) (repo req2 : String) (l : LockRow)
    (hrepo : jsToLower (jsTrim repo) = repo)
    (hnodupR : (d.repoIndexLocks.map (fun x => x.repo)).Nodup)
    (hnodupI : (d.repoIndexLocks.map (fun x => x.id)).Nodup)
    (hfind : d.repoIndexLocks.find? (fun x => x.repo == repo) = some l)
    (hlive : now2 < l.expiresAt)
    (hval : ¬(repo = "" ∨ utf16Length repo > 200))
    (hreq : ¬(jsToLower (jsTrim req2) = "" ∨ utf16Length (jsToLower (jsTrim req2)) > 128)) :
    (acquireIndexPermit d now2 repo req2 true).2 = PermitResult.err 409
      "This repository is already being indexed. Please wait a moment and retry." := by
  unfold acquireIndexPermit
  dsimp only
  rw [hrepo]
  rw [if_neg hval, if_neg hreq]
  refine acquireTail_live_409 _ now2 repo _ l ?_ hlive
  exact find?_pruned d.repoIndexLocks now2 repo l hnodupR hnodupI hfind (by omega)


theorem acquire_expired_ok (d : Db) (now3 : Nat) (repo req3 : String)
    (hrepo : jsToLower (jsTrim repo) = repo)
    (hexp : ∀ x ∈ d.repoIndexLocks, x.repo = repo → x.expiresAt ≤ now3)
    (hval : ¬(repo = "" ∨ utf16Length repo > 200))
    (hreq : ¬(jsToLower (jsTrim req3) = "" ∨ utf16Length (jsToLower (jsTrim req3)) > 128)) :
    (acquireIndexPermit d now3 repo req3 true).2 = PermitResult.ok ∧
    ∃ l, (acquireIndexPermit d now3 repo req3 true).1.repoIndexLocks.find?
        (fun x => x.repo == repo) = some l ∧ l.expiresAt = now3 + 60000 := by
  unfold acquireIndexPermit
  dsimp only
  rw [hrepo]
  rw [if_neg hval, if_neg hreq]
  refine acquireTail_expired_ok _ now3 repo _ ?_
  intro x hx hxr
  exact hexp x ((pruneLocks_sublist now3 d.repoIndexLocks).subset hx) hxr


/-- Claim C7 as amended: after a successful `acquireIndexPermit` at time `t` for
a (normalized) repository with unique live locks, every later call for the same
repository before `t + TTL` fails (any requester, with or without rate
limiting) — with `skipRateLimit` and a valid requester it fails specifically
with the `409` conflict — and once `t + TTL` has passed with no release, a new
`skipRateLimit` acquire succeeds and writes a lock with
`expiresAt = now + TTL`. -/
theorem claim_C7 (db : Db) (t : Nat) (repo requester : String) (skip : Bool)
    (hrepo : jsToLower (jsTrim repo) = repo)
    (hnodupR : (db.repoIndexLocks.map (fun x => x.repo)).Nodup)
    (hnodupI : (db.repoIndexLocks.map (fun x => x.id)).Nodup)
    (hlt : ∀ x ∈ db.repoIndexLocks, x.id < db.nextId)
    (hok : (acquireIndexPermit db t repo requester skip).2 = PermitResult.ok) :
    (∀ t2 req2 sk2, t ≤ t2 → t2 < t + 60000 →
      (acquireIndexPermit (acquireIndexPermit db t repo requester skip).1 t2 repo req2
        sk2).2 ≠ PermitResult.ok) ∧
    (∀ t2 req2, t ≤ t2 → t2 < t + 60000 →
      ¬(jsToLower (jsTrim req2) = "" ∨ utf16Length (jsToLower (jsTrim req2)) > 128) →
      (acquireIndexPermit (acquireIndexPermit db t repo requester skip).1 t2 repo req2
        true).2 = PermitResult.err 409
          "This repository is already being indexed. Please wait a moment and retry.") ∧
    (∀ t3 req3, t + 60000 ≤ t3 →
      ¬(jsToLower (jsTrim req3) = "" ∨ utf16Length (jsToLower (jsTrim req3)) > 128) →
      (acquireIndexPermit (acquireIndexPermit db t repo requester skip).1 t3 repo req3
        true).2 = PermitResult.ok ∧
      ∃ l, (acquireIndexPermit (acquireIndexPermit db t repo requester skip).1 t3 repo
          req3 true).1.repoIndexLocks.find? (fun x => x.repo == repo) = some l ∧
        l.expiresAt = t3 + 60000) := by
  obtain ⟨hval, ⟨l, hfind1, hexp1⟩, hR1, hI1⟩ :=
    acquire_ok_spec db t repo requester skip hrepo hnodupR hnodupI hlt hok
  refine ⟨?_, ?_, ?_⟩
  · intro t2 req2 sk2 ht1 ht2
    exact acquire_live_not_ok _ t2 repo req2 sk2 l hrepo hR1 hI1 hfind1 (by omega)
  · intro t2 req2 ht1 ht2 hreq
    exact acquire_live_409 _ t2 repo req2 l hrepo hR1 hI1 hfind1 (by omega) hval hreq
  · intro t3 req3 ht1 hreq
    refine acquire_expired_ok _ t3 repo req3 hrepo ?_ hval hreq
    intro x hx hxr
    have : x = l := lock_unique _ repo l hR1 hfind1 x hx (beq_iff_eq.2 hxr)
    subst this
    omega


/-- Counterexample to claim C7 as stated: while a lock acquired at time 0 is
still held, a second acquire for the same repository by a rate-limited
requester fails with a `429` rate-limited refusal, not the claimed conflict
condition. -/
theorem claim_C7_counterexample :
    (acquireIndexPermit dbC7 0 "o/r" "alice" true).2 = PermitResult.ok ∧
    (acquireIndexPermit (acquireIndexPermit dbC7 0 "o/r" "alice" true).1 1 "o/r" "bob"
      false).2 =
      PermitResult.err 429
        "Too many indexing attempts from this client. Please wait and retry." := by
  decide


theorem claim_C7_witness :
    (acquireIndexPermit (acquireIndexPermit dbC7W 0 "o/r" "alice" true).1 5 "o/r" "carol"
      true).2 = PermitResult.err 409
        "This repository is already being indexed. Please wait a moment and retry." ∧
    (acquireIndexPermit (acquireIndexPermit dbC7W 0 "o/r" "alice" true).1 60000 "o/r"
      "dave" true).2 = PermitResult.ok := by
  have h := claim_C7 dbC7W 0 "o/r" "alice" true (by decide) (by decide) (by decide)
    (by decide) (by decide)
  exact ⟨h.2.1 5 "carol" (by decide) (by decide) (by decide),
    (h.2.2 60000 "dave" (by decide) (by decide)).1⟩

end GitVouched
